import Mathlib

/-! # Melo device discoverer

A shallow embedding of `src/melo_discover.c` and proofs about it.

The private state of a `MeloDiscover` object is passed explicitly.  Every
function that talks to the discovery web site returns, next to the new state,
the list of libsoup submissions it made, in program order.  What the operating
system answers (`getifaddrs`, `g_get_host_name`, `if_indextoname`, the bytes
returned by `recv`) is an argument of the function that asks for it.

Conventions.
* A `gchar *` that may be `NULL` is an `Option String`.
* A `GList` of interfaces is a `List`, head first; `g_list_prepend` is `::`.
* `g_malloc`, `g_strdup`, `g_strdup_printf` and `g_slice_new0` abort the process
  instead of returning `NULL`, so the `if (iface)` and `if (address)` tests of
  the source always take the non-null branch.
* The mutex only brackets the bodies modelled here and is not represented.
* `if_indextoname` answers with a name or fails; the handler does not look at the result of
  the call, so after a failure it goes on with what the array `name` holds: the name of the
  message before, and on the first message what the stack held when the handler was
  entered (the array has no initialiser).  That content is an argument of the handler, and
  it is taken to be a string.
-/

namespace Melo

/-! ## Data model -/

/-- The C struct `MeloDiscoverInterface`: one known network interface. -/
structure MeloDiscoverInterface where
  name : String
  hw_address : Option String
  address : Option String
deriving DecidableEq

/-- The fields of the C struct `_MeloDiscoverPrivate` that carry discovery state (the mutex,
the soup session and the netlink descriptors are not state of the protocol). -/
structure MeloDiscoverPrivate where
  registered : Bool
  serial : Option String
  ifaces : List MeloDiscoverInterface
deriving DecidableEq

/-- The state left by `melo_discover_init`: the object is zero-filled by GObject. -/
def melo_discover_init : MeloDiscoverPrivate :=
  { registered := false, serial := none, ifaces := [] }

/-- The query part of a request URL, as formatted by `g_strdup_printf` after
`MELO_DISCOVER_URL`.  A `%s` argument that can be `NULL` at the call site is an `Option`. -/
inductive Action where
  | add_device (serial : Option String) (name : String) (hostname : String) (port : Nat)
  | remove_device (serial : String)
  | add_address (serial : String) (hw_address : Option String) (address : Option String)
  | remove_address (serial : String) (hw_address : Option String)
deriving DecidableEq

/-- One submission of a GET request to the soup session.
* `send_message req status`: `soup_session_send_message`, synchronous; `status` is the
  status code it returned (which the source discards).
* `queue_message req cb`: `soup_session_queue_message`, asynchronous; `cb` tells whether
  `melo_device_register_callback` was attached (`true`) or `NULL` was passed (`false`). -/
inductive Call where
  | send_message (req : Action) (status : Nat)
  | queue_message (req : Action) (callback : Bool)
deriving DecidableEq

/-! ## Address rendering -/

/-- One lowercase hexadecimal digit. -/
def hex_digit (n : Nat) : Char :=
  "0123456789abcdef".toList.getD n '0'

/-- The conversion `%02x` of printf applied to an `unsigned char`. -/
def fmt_02x (b : Nat) : List Char :=
  [hex_digit (b % 256 / 16), hex_digit (b % 16)]

/-- The function `melo_discover_get_hw_address`: `addr` is the memory starting at the pointer
argument, of which `addr[0]` to `addr[5]` are read (a missing byte reads as 0). -/
def melo_discover_get_hw_address (addr : List Nat) : String :=
  String.mk (fmt_02x (addr.getD 0 0) ++ ':' :: fmt_02x (addr.getD 1 0) ++ ':' ::
    fmt_02x (addr.getD 2 0) ++ ':' :: fmt_02x (addr.getD 3 0) ++ ':' ::
    fmt_02x (addr.getD 4 0) ++ ':' :: fmt_02x (addr.getD 5 0))

/-- The function `melo_discover_get_address`: `inet_ntop (AF_INET, ...)` of the four bytes at
`addr`, in memory order, as dotted decimal.  The buffer of `INET_ADDRSTRLEN` bytes always
suffices, so the result is never `NULL`. -/
def melo_discover_get_address (addr : List Nat) : String :=
  toString (addr.getD 0 0 % 256) ++ "." ++ toString (addr.getD 1 0 % 256) ++ "." ++
    toString (addr.getD 2 0 % 256) ++ "." ++ toString (addr.getD 3 0 % 256)

/-! ## Interface list -/

/-- The search loop of `melo_discover_interface_get`: the first item whose name compares
equal under `g_strcmp0`, together with the items before and after it. -/
def iface_find (name : String) :
    List MeloDiscoverInterface →
      Option (List MeloDiscoverInterface × MeloDiscoverInterface × List MeloDiscoverInterface)
  | [] => none
  | i :: l =>
    if i.name = name then some ([], i, l)
    else (iface_find name l).map (fun z => (i :: z.1, z.2.1, z.2.2))

/-- The function `melo_discover_interface_get`.  The returned pointer into the list is
modelled as a focus `(before, iface, after)`: after the call the list `priv->ifaces` is
`before ++ iface :: after` and `iface` is the item the pointer designates.  When no item has
the name, a zero-filled item with that name has been prepended. -/
def melo_discover_interface_get (ifaces : List MeloDiscoverInterface) (name : String) :
    List MeloDiscoverInterface × MeloDiscoverInterface × List MeloDiscoverInterface :=
  match iface_find name ifaces with
  | some z => z
  | none => ([], { name := name, hw_address := none, address := none }, ifaces)

/-- The list `priv->ifaces` once the item under the focus has been written back. -/
def iface_plug
    (z : List MeloDiscoverInterface × MeloDiscoverInterface × List MeloDiscoverInterface) :
    List MeloDiscoverInterface :=
  z.1 ++ z.2.1 :: z.2.2

/-! ## Address requests -/

/-- The function `melo_discover_add_address`: returns `FALSE` without a request when there is
no serial, and queues one `add_address` request otherwise. -/
def melo_discover_add_address (priv : MeloDiscoverPrivate) (iface : MeloDiscoverInterface) :
    Bool × List Call :=
  match priv.serial with
  | none => (false, [])
  | some serial =>
    (true, [Call.queue_message (Action.add_address serial iface.hw_address iface.address) false])

/-- The function `melo_discover_remove_address`: returns `FALSE` without a request when there
is no serial, and queues one `remove_address` request otherwise. -/
def melo_discover_remove_address (priv : MeloDiscoverPrivate) (iface : MeloDiscoverInterface) :
    Bool × List Call :=
  match priv.serial with
  | none => (false, [])
  | some serial =>
    (true, [Call.queue_message (Action.remove_address serial iface.hw_address) false])

/-! ## Netlink framing

The macros and constants of `<linux/netlink.h>`, `<linux/rtnetlink.h>`, `<linux/if_link.h>`,
`<linux/if_addr.h>` and `<net/if.h>` are not part of the repository; they are written here
with their values in the Linux user-space headers.  Multi-byte fields are read in the host
byte order of a little-endian machine.  An offset is a byte index into the receive buffer;
a byte that lies outside the modelled buffer reads as 0. -/

/-- The byte at an offset of the receive buffer, as an unsigned value. -/
def rd8 (buf : List Nat) (i : Nat) : Nat :=
  buf.getD i 0 % 256

/-- A 16-bit unsigned field of the receive buffer, in little-endian byte order. -/
def rd16 (buf : List Nat) (i : Nat) : Nat :=
  rd8 buf i + 256 * rd8 buf (i + 1)

/-- A 32-bit unsigned field of the receive buffer, in little-endian byte order. -/
def rd32 (buf : List Nat) (i : Nat) : Nat :=
  rd16 buf i + 65536 * rd16 buf (i + 2)

/-- The size of the receive buffer of `melo_netlink_event`. -/
def MELO_DISCOVER_BUFFER_SIZE : Nat := 4096

/-- Modelled from the spec: message type `RTM_NEWLINK` of the routing-notification framing. -/
def RTM_NEWLINK : Nat := 16

/-- Modelled from the spec: message type `RTM_DELLINK` of the routing-notification framing. -/
def RTM_DELLINK : Nat := 17

/-- Modelled from the spec: message type `RTM_NEWADDR` of the routing-notification framing. -/
def RTM_NEWADDR : Nat := 20

/-- Modelled from the spec: message type `RTM_DELADDR` of the routing-notification framing. -/
def RTM_DELADDR : Nat := 21

/-- Modelled from the spec: message type `NLMSG_ERROR` of the routing-notification framing. -/
def NLMSG_ERROR : Nat := 2

/-- Modelled from the spec: message type `NLMSG_DONE` of the routing-notification framing. -/
def NLMSG_DONE : Nat := 3

/-- Modelled from the spec: attribute type `IFLA_ADDRESS` (link-layer address of a link). -/
def IFLA_ADDRESS : Nat := 1

/-- Modelled from the spec: attribute type `IFA_LOCAL` (local IPv4 address). -/
def IFA_LOCAL : Nat := 2

/-- Modelled from the spec: interface flag `IFF_LOOPBACK`. -/
def IFF_LOOPBACK : Nat := 8

/-- Modelled from the spec: the size in bytes of the fixed message header `struct nlmsghdr`
(length u32 at 0, type u16 at 4, flags u16 at 6, sequence u32 at 8, port u32 at 12). -/
def NLMSG_HDRLEN : Nat := 16

/-- Modelled from the spec: the macro `NLMSG_ALIGN`, rounding an unsigned 32-bit length up to
a multiple of `NLMSG_ALIGNTO = 4`. -/
def NLMSG_ALIGN (len : Nat) : Nat :=
  (len + 3) % 2 ^ 32 / 4 * 4

/-- Modelled from the spec: the macro `NLMSG_OK (nh, len)`; `nh` is the offset of the header
and `len` the signed count of bytes left. -/
def NLMSG_OK (buf : List Nat) (nh : Nat) (len : Int) : Bool :=
  decide ((NLMSG_HDRLEN : Int) ≤ len) && decide (NLMSG_HDRLEN ≤ rd32 buf nh) &&
    decide ((rd32 buf nh : Int) ≤ len)

/-- Modelled from the spec: the size in bytes of the attribute header `struct rtattr`
(length u16 at 0, type u16 at 2). -/
def RTA_HDRLEN : Nat := 4

/-- Modelled from the spec: the macro `RTA_ALIGN`, rounding up to a multiple of 4. -/
def RTA_ALIGN (len : Nat) : Nat :=
  (len + 3) / 4 * 4

/-- Modelled from the spec: the macro `RTA_OK (ra, rlen)`. -/
def RTA_OK (buf : List Nat) (ra : Nat) (rlen : Int) : Bool :=
  decide ((RTA_HDRLEN : Int) ≤ rlen) && decide (RTA_HDRLEN ≤ rd16 buf ra) &&
    decide ((rd16 buf ra : Int) ≤ rlen)

/-- The attribute loop `for (; rlen && RTA_OK (ra, rlen); ra = RTA_NEXT (ra, rlen))` shared
by the `RTM_NEWLINK` and `RTM_NEWADDR` cases: the attributes the body is run on, in order,
each as the pair of its `rta_type` and the offset `RTA_DATA (ra)`.  Every turn lowers `rlen`
by at least 4, so a fuel of `rlen` turns is never exhausted. -/
def rta_loop (buf : List Nat) : Nat → Nat → Int → List (Nat × Nat)
  | 0, _, _ => []
  | fuel + 1, ra, rlen =>
    if rlen ≠ 0 ∧ RTA_OK buf ra rlen = true then
      (rd16 buf (ra + 2), ra + RTA_HDRLEN) ::
        rta_loop buf fuel (ra + RTA_ALIGN (rd16 buf ra)) (rlen - RTA_ALIGN (rd16 buf ra))
    else []

/-- What one netlink message makes the handler do, once `if_indextoname` has been called on
the interface index and the attribute loop has been run; `name` is the content of the buffer
`name` after that call.
* `newlink name hws`: `RTM_NEWLINK` for interface `name`; `hws` are the renderings of its
  `IFLA_ADDRESS` attributes, in message order.
* `newaddr name addrs`: `RTM_NEWADDR` for interface `name`; `addrs` are the renderings of
  its `IFA_LOCAL` attributes, in message order.
* `deladdr name`: `RTM_DELADDR` for interface `name`.
* `dellink`: `RTM_DELLINK`.  `stop`: `NLMSG_DONE` or `NLMSG_ERROR`.  `other`: any other type. -/
inductive NlEvent where
  | newlink (name : String) (hws : List String)
  | dellink
  | newaddr (name : String) (addrs : List String)
  | deladdr (name : String)
  | stop
  | other
deriving DecidableEq

/-- The content of the buffer `name` after the statement `if_indextoname (index, name);`.
The argument `if_indextoname` gives the name of the interface that has an index, and `none`
when no interface has it: the library function then returns `NULL` and leaves the buffer
alone.  The handler drops the return value at all three calls, so after a failed lookup it
goes on with what the buffer held before the call. -/
def name_after_lookup (if_indextoname : Nat → Option String) (name : String) (index : Nat) :
    String :=
  match if_indextoname index with
  | some n => n
  | none => name

/-- The part of the `switch (nh->nlmsg_type)` of `melo_netlink_event` that only reads the
message at offset `nh`: the type, the interface index (`ifi_index` at `NLMSG_DATA + 4`,
`ifa_index` at `NLMSG_DATA + 4`), `if_indextoname`, and the attribute loop from `IFLA_RTA`
(`NLMSG_DATA + 16`, payload `nlmsg_len - 32`) or `IFA_RTA` (`NLMSG_DATA + 8`, payload
`nlmsg_len - 24`).  The argument `name` is the content of the buffer `name` when the message
is reached.  The message loop decodes a message only after `NLMSG_OK`, so `nlmsg_len` is at
most the received length and the payload lengths, which the source stores in an `int`, are
the plain differences. -/
def nl_decode (if_indextoname : Nat → Option String) (name : String) (buf : List Nat)
    (nh : Nat) : NlEvent :=
  let nlmsg_len : Int := rd32 buf nh
  let nlmsg_type := rd16 buf (nh + 4)
  let msg := nh + NLMSG_HDRLEN
  if nlmsg_type = RTM_NEWLINK then
    NlEvent.newlink (name_after_lookup if_indextoname name (rd32 buf (msg + 4)))
      (((rta_loop buf (nlmsg_len - 32).toNat (msg + 16) (nlmsg_len - 32)).filter
          (fun ra => ra.1 = IFLA_ADDRESS)).map
        (fun ra => melo_discover_get_hw_address (buf.drop ra.2)))
  else if nlmsg_type = RTM_DELLINK then NlEvent.dellink
  else if nlmsg_type = RTM_NEWADDR then
    NlEvent.newaddr (name_after_lookup if_indextoname name (rd32 buf (msg + 4)))
      (((rta_loop buf (nlmsg_len - 24).toNat (msg + 8) (nlmsg_len - 24)).filter
          (fun ra => ra.1 = IFA_LOCAL)).map
        (fun ra => melo_discover_get_address (buf.drop ra.2)))
  else if nlmsg_type = RTM_DELADDR then
    NlEvent.deladdr (name_after_lookup if_indextoname name (rd32 buf (msg + 4)))
  else if nlmsg_type = NLMSG_DONE ∨ nlmsg_type = NLMSG_ERROR then NlEvent.stop
  else NlEvent.other

/-- The content of the buffer `name` after a message has been handled, when it held `name`
before: the three cases that call `if_indextoname` leave the name they went on with, the
other cases do not touch the buffer. -/
def NlEvent.name_buffer (name : String) : NlEvent → String
  | NlEvent.newlink n _ => n
  | NlEvent.newaddr n _ => n
  | NlEvent.deladdr n => n
  | _ => name

/-! ## The netlink handler -/

/-- The body of the attribute loop of the `RTM_NEWADDR` case for one `IFA_LOCAL` attribute:
store the rendered address in the interface, then, if the device is registered and the
interface has a hardware address, call `melo_discover_add_address`. -/
def newaddr_body (priv : MeloDiscoverPrivate) (acc : MeloDiscoverInterface × List Call)
    (addr : String) : MeloDiscoverInterface × List Call :=
  let iface := { acc.1 with address := some addr }
  if priv.registered = true ∧ iface.hw_address.isSome = true then
    (iface, acc.2 ++ (melo_discover_add_address priv iface).2)
  else (iface, acc.2)

/-- The state-changing part of the `switch (nh->nlmsg_type)` of `melo_netlink_event` for one
decoded message (`stop` is acted upon by the message loop, which leaves). -/
def nl_handle (priv : MeloDiscoverPrivate) : NlEvent → MeloDiscoverPrivate × List Call
  | NlEvent.newlink name hws =>
    let z := melo_discover_interface_get priv.ifaces name
    let iface := hws.foldl (fun i hw => { i with hw_address := some hw }) z.2.1
    ({ priv with ifaces := iface_plug (z.1, iface, z.2.2) }, [])
  | NlEvent.dellink => (priv, [])
  | NlEvent.newaddr name addrs =>
    let z := melo_discover_interface_get priv.ifaces name
    let r := addrs.foldl (newaddr_body priv) (z.2.1, [])
    ({ priv with ifaces := iface_plug (z.1, r.1, z.2.2) }, r.2)
  | NlEvent.deladdr name =>
    let z := melo_discover_interface_get priv.ifaces name
    let iface := { z.2.1 with address := none }
    ({ priv with ifaces := iface_plug (z.1, iface, z.2.2) },
      if priv.registered = true ∧ iface.hw_address.isSome = true then
        (melo_discover_remove_address priv iface).2
      else [])
  | NlEvent.stop => (priv, [])
  | NlEvent.other => (priv, [])

/-- The message loop `for (nh = buffer; NLMSG_OK (nh, len); nh = NLMSG_NEXT (nh, len))` of
`melo_netlink_event`, with the content of the buffer `name`, the state and the requests made
so far.  The array `char name[IF_NAMESIZE]` is declared in the loop body without initialiser
and lives in one place of the stack frame for all turns, so a turn finds in it what the
turn before left.  `NLMSG_DONE` and `NLMSG_ERROR` leave the loop (`goto end`).  Every turn
lowers `len` by at least 16, so a fuel of `len` turns is never exhausted. -/
def nl_loop (if_indextoname : Nat → Option String) (buf : List Nat) :
    Nat → Nat → Int → String → MeloDiscoverPrivate → List Call →
      MeloDiscoverPrivate × List Call
  | 0, _, _, _, priv, calls => (priv, calls)
  | fuel + 1, nh, len, name, priv, calls =>
    if NLMSG_OK buf nh len = true then
      match nl_decode if_indextoname name buf nh with
      | NlEvent.stop => (priv, calls)
      | ev =>
        nl_loop if_indextoname buf fuel (nh + NLMSG_ALIGN (rd32 buf nh))
          (len - NLMSG_ALIGN (rd32 buf nh)) (ev.name_buffer name) (nl_handle priv ev).1
          (calls ++ (nl_handle priv ev).2)
    else (priv, calls)

/-- The function `melo_netlink_event`.  The arguments `buf` and `len` are what `recv` left in
the buffer and returned; `name0` is what the array `name`, which is not initialised, holds
when the message loop is entered.  The result is the return value, the new state and the
requests made. -/
def melo_netlink_event (if_indextoname : Nat → Option String) (name0 : String) (buf : List Nat)
    (len : Int) (priv : MeloDiscoverPrivate) : Bool × MeloDiscoverPrivate × List Call :=
  if len ≤ 0 then (false, priv, [])
  else (true, nl_loop if_indextoname buf len.toNat 0 len name0 priv [])

/-! ## Registration -/

/-- The function `melo_device_register_callback`, run by the soup session when the queued
`add_device` request has finished (the message status is not looked at). -/
def melo_device_register_callback (priv : MeloDiscoverPrivate) : MeloDiscoverPrivate :=
  { priv with registered := true }

/-- The address of one `struct ifaddrs` node, by the `sa_family` the source tests: for
`AF_PACKET` the bytes of `sll_addr`, for `AF_INET` the bytes of `sin_addr`. -/
inductive sockaddr where
  | AF_PACKET (sll_addr : List Nat)
  | AF_INET (sin_addr : List Nat)
  | AF_OTHER
deriving DecidableEq

/-- One node of the list returned by `getifaddrs`; `ifa_addr` may be `NULL`. -/
structure ifaddrs where
  ifa_name : String
  ifa_flags : Nat
  ifa_addr : Option sockaddr
deriving DecidableEq

/-- What the environment answers during one call of `melo_discover_register_device`:
the list of `getifaddrs` (`none` when it fails), the host name, and the status code
returned by the synchronous `soup_session_send_message`. -/
structure RegisterEnv where
  getifaddrs : Option (List ifaddrs)
  g_get_host_name : String
  send_status : Nat
deriving DecidableEq

/-- The function `melo_discover_get_serial`.  The outer `none` is a read of
`i->ifa_addr->sa_family` through a `NULL` `ifa_addr`, which ends the process; `some none`
is the return value `NULL`. -/
def melo_discover_get_serial : List ifaddrs → Option (Option String)
  | [] => some none
  | i :: next =>
    match i.ifa_addr with
    | none => none
    | some (sockaddr.AF_PACKET sll_addr) =>
      if i.ifa_flags &&& IFF_LOOPBACK = 0 then some (some (melo_discover_get_hw_address sll_addr))
      else melo_discover_get_serial next
    | some _ => melo_discover_get_serial next

/-- The body of the loop `List all interfaces` of `melo_discover_register_device` for one
node of the enumeration. -/
def register_list_body (ifaces : List MeloDiscoverInterface) (i : ifaddrs) :
    List MeloDiscoverInterface :=
  if i.ifa_flags &&& IFF_LOOPBACK ≠ 0 ∨ i.ifa_addr = none then ifaces
  else
    match i.ifa_addr with
    | some (sockaddr.AF_PACKET sll_addr) =>
      let z := melo_discover_interface_get ifaces i.ifa_name
      iface_plug
        (z.1, { z.2.1 with hw_address := some (melo_discover_get_hw_address sll_addr) }, z.2.2)
    | some (sockaddr.AF_INET sin_addr) =>
      let z := melo_discover_interface_get ifaces i.ifa_name
      iface_plug (z.1, { z.2.1 with address := some (melo_discover_get_address sin_addr) }, z.2.2)
    | _ => ifaces

/-- The body of the loop `Add device addresses on Sparod` of `melo_discover_register_device`
for one interface of the list. -/
def register_sweep_body (priv : MeloDiscoverPrivate) (iface : MeloDiscoverInterface) : List Call :=
  if iface.hw_address.isSome = true then
    if iface.address.isSome = true then (melo_discover_add_address priv iface).2
    else (melo_discover_remove_address priv iface).2
  else []

/-- The statement `if (!priv->serial) priv->serial = melo_discover_get_serial (ifap);` of
`melo_discover_register_device`: the new value of `priv->serial`, or `none` when the process
ends in `melo_discover_get_serial`. -/
def register_serial (priv : MeloDiscoverPrivate) (ifap : List ifaddrs) : Option (Option String) :=
  match priv.serial with
  | none => melo_discover_get_serial ifap
  | some serial => some (some serial)

/-- The function `melo_discover_register_device`.  The result `none` is the process ending in
`melo_discover_get_serial`; otherwise it is the return value, the new state and the requests
made.  The callback attached to the queued request runs later, from the main loop: it needs
the mutex that this function holds until its end. -/
def melo_discover_register_device (env : RegisterEnv) (priv : MeloDiscoverPrivate)
    (name : String) (port : Nat) : Option (Bool × MeloDiscoverPrivate × List Call) :=
  match env.getifaddrs with
  | none => some (false, priv, [])
  | some ifap =>
    match register_serial priv ifap with
    | none => none
    | some serial =>
      let req := Action.add_device serial name env.g_get_host_name port
      let priv1 :=
        { priv with serial := serial, ifaces := ifap.foldl register_list_body priv.ifaces }
      some (true, priv1,
        Call.send_message req env.send_status :: Call.queue_message req true ::
          priv1.ifaces.flatMap (register_sweep_body priv1))

/-- The function `melo_discover_unregister_device`: the return value, the new state and the
requests made. -/
def melo_discover_unregister_device (priv : MeloDiscoverPrivate) :
    Bool × MeloDiscoverPrivate × List Call :=
  match priv.serial with
  | none => (false, priv, [])
  | some serial =>
    (true, { priv with registered := false },
      [Call.queue_message (Action.remove_device serial) false])

/-! ## Vocabulary of the properties -/

/-- The item that `melo_discover_interface_get` finds for a name, if the list has one. -/
def iface_lookup (name : String) (ifaces : List MeloDiscoverInterface) :
    Option MeloDiscoverInterface :=
  (iface_find name ifaces).map (fun z => z.2.1)

/-- The hardware address known for a name: `none` when the list has no item of that name or
the item has no hardware address. -/
def hw_of (name : String) (ifaces : List MeloDiscoverInterface) : Option String :=
  (iface_lookup name ifaces).bind (fun i => i.hw_address)

/-- The IP address known for a name: `none` when the list has no item of that name or the
item has no IP address. -/
def address_of (name : String) (ifaces : List MeloDiscoverInterface) : Option String :=
  (iface_lookup name ifaces).bind (fun i => i.address)

/-- The zero-filled item that `melo_discover_interface_get` creates for a name. -/
def iface_new (name : String) : MeloDiscoverInterface :=
  { name := name, hw_address := none, address := none }

/-- The list after `melo_discover_interface_get` for a name followed by a change `f` of the item
it returned. -/
def iface_update (name : String) (f : MeloDiscoverInterface → MeloDiscoverInterface)
    (ifaces : List MeloDiscoverInterface) : List MeloDiscoverInterface :=
  iface_plug ((melo_discover_interface_get ifaces name).1,
    f (melo_discover_interface_get ifaces name).2.1, (melo_discover_interface_get ifaces name).2.2)

/-- Whether a request is an `add_address` or a `remove_address` request. -/
def Action.is_address : Action → Bool
  | Action.add_address _ _ _ => true
  | Action.remove_address _ _ => true
  | _ => false

/-- The request that a submission carries. -/
def Call.req : Call → Action
  | Call.send_message req _ => req
  | Call.queue_message req _ => req

/-- The address requests among a list of submissions, in order. -/
def address_calls (calls : List Call) : List Call :=
  calls.filter (fun c => c.req.is_address)

/-- Whether a netlink message is an address event (`RTM_NEWADDR` or `RTM_DELADDR`) naming the
interface `n`. -/
def NlEvent.is_address_event (n : String) : NlEvent → Bool
  | NlEvent.newaddr m _ => decide (m = n)
  | NlEvent.deladdr m => decide (m = n)
  | _ => false

/-- Whether a netlink message makes the handler look up the interface `n`. -/
def NlEvent.names (n : String) : NlEvent → Bool
  | NlEvent.newlink m _ => decide (m = n)
  | NlEvent.newaddr m _ => decide (m = n)
  | NlEvent.deladdr m => decide (m = n)
  | _ => false

/-- The state after a sequence of decoded netlink messages has been handled in order. -/
def nl_fold (priv : MeloDiscoverPrivate) (evs : List NlEvent) : MeloDiscoverPrivate :=
  evs.foldl (fun p ev => (nl_handle p ev).1) priv

/-- The hardware address that a link event for `n` carries, if it is one and carries one (the
last `IFLA_ADDRESS` attribute of the message). -/
def NlEvent.carried_hw (n : String) : NlEvent → Option String
  | NlEvent.newlink m hws => if m = n then hws.getLast? else none
  | _ => none

/-- What an address event for `n` sets the IP address to: `some (some a)` when it sets the
address `a` (the last `IFA_LOCAL` attribute of an `RTM_NEWADDR`), `some none` when it is a
removal, `none` when the message sets nothing for `n`. -/
def NlEvent.set_address (n : String) : NlEvent → Option (Option String)
  | NlEvent.newaddr m addrs => if m = n then addrs.getLast?.map some else none
  | NlEvent.deladdr m => if m = n then some none else none
  | _ => none

/-- The hardware address carried by the last link event for `n` that carried one, and `start`
if there was none. -/
def last_hw (n : String) (evs : List NlEvent) (start : Option String) : Option String :=
  match (evs.filterMap (NlEvent.carried_hw n)).getLast? with
  | some hw => some hw
  | none => start

/-- The IP address set by the last address event for `n` (absent after a removal), and `start`
if there was none. -/
def last_address (n : String) (evs : List NlEvent) (start : Option String) : Option String :=
  match (evs.filterMap (NlEvent.set_address n)).getLast? with
  | some a => a
  | none => start

/-- The request that the sweep at the end of a registration owes to one interface when the
serial is `serial`: `add_address` with its hardware and IP address if it has both,
`remove_address` with its hardware address if it has a hardware address and no IP address,
nothing if its hardware address is unknown. -/
def sweep_call (serial : String) (iface : MeloDiscoverInterface) : Option Call :=
  match iface.hw_address with
  | none => none
  | some hw =>
    match iface.address with
    | some a => some (Call.queue_message (Action.add_address serial (some hw) (some a)) false)
    | none => some (Call.queue_message (Action.remove_address serial (some hw)) false)

/-- A write to one field of an interface item, as the enumeration loop of
`melo_discover_register_device` makes it: the hardware address or the IP address is replaced
by a freshly rendered string. -/
inductive FieldWrite where
  | hw (v : String)
  | addr (v : String)
deriving DecidableEq

/-- The item after a field write. -/
def FieldWrite.apply : FieldWrite → MeloDiscoverInterface → MeloDiscoverInterface
  | FieldWrite.hw v, i => { i with hw_address := some v }
  | FieldWrite.addr v, i => { i with address := some v }

/-- Whether two writes go to the same field. -/
def FieldWrite.same_field : FieldWrite → FieldWrite → Bool
  | FieldWrite.hw _, FieldWrite.hw _ => true
  | FieldWrite.addr _, FieldWrite.addr _ => true
  | _, _ => false

/-- The write that one node of the enumeration causes, with the name of the interface it goes
to; `none` for a node that the loop skips. -/
def list_write (i : ifaddrs) : Option (String × FieldWrite) :=
  if i.ifa_flags &&& IFF_LOOPBACK ≠ 0 then none
  else
    match i.ifa_addr with
    | some (sockaddr.AF_PACKET sll_addr) =>
      some (i.ifa_name, FieldWrite.hw (melo_discover_get_hw_address sll_addr))
    | some (sockaddr.AF_INET sin_addr) =>
      some (i.ifa_name, FieldWrite.addr (melo_discover_get_address sin_addr))
    | _ => none

/-- A write to the item that `melo_discover_interface_get` returns for the name. -/
def table_write (w : String × FieldWrite) (l : List MeloDiscoverInterface) :
    List MeloDiscoverInterface :=
  iface_update w.1 w.2.apply l

/-- A change of the first item of a name, in a list that is left as it is when it has no such
item. -/
def iface_modify (n : String) (f : MeloDiscoverInterface → MeloDiscoverInterface) :
    List MeloDiscoverInterface → List MeloDiscoverInterface
  | [] => []
  | i :: l => if i.name = n then f i :: l else i :: iface_modify n f l

/-- A write to the first item of the name, if the list has one. -/
def table_write_in_place (w : String × FieldWrite) (l : List MeloDiscoverInterface) :
    List MeloDiscoverInterface :=
  iface_modify w.1 w.2.apply l

/-- Whether the write `b` goes to the same field of the same interface as the write `a`, so that
`b` made after `a` leaves nothing of `a`. -/
def overwrites (b a : String × FieldWrite) : Prop :=
  b.1 = a.1 ∧ b.2.same_field a.2 = true

/-! ## Example inputs -/

/-- An enumeration in which only the loopback interface has a link-layer address. -/
def enum_lo : List ifaddrs :=
  [{ ifa_name := "lo", ifa_flags := 73, ifa_addr := some (sockaddr.AF_PACKET [0, 0, 0, 0, 0, 0]) }]

/-- A state in which the device is registered, no serial is known, and the interface `eth0`
has a hardware address.  It is reached from the initial state by a registration over
`enum_lo`, the completion callback, and an `RTM_NEWLINK` for `eth0`. -/
def state_registered_no_serial : MeloDiscoverPrivate :=
  { registered := true, serial := none,
    ifaces := [{ name := "eth0", hw_address := some "aa:bb:cc:dd:ee:ff", address := none }] }

/-- A state in which the device is registered with a serial and the interface `eth0` has a
hardware address and no IP address. -/
def state_registered_eth0 : MeloDiscoverPrivate :=
  { registered := true, serial := some "aa:bb:cc:dd:ee:ff",
    ifaces := [{ name := "eth0", hw_address := some "aa:bb:cc:dd:ee:ff", address := none }] }

/-- An enumeration with the loopback interface and `eth0`, which has the link-layer address
aa:bb:cc:dd:ee:ff and no IPv4 address. -/
def enum_eth0 : List ifaddrs :=
  [{ ifa_name := "lo", ifa_flags := 73, ifa_addr := some (sockaddr.AF_PACKET [0, 0, 0, 0, 0, 0]) },
   { ifa_name := "eth0", ifa_flags := 4163,
     ifa_addr := some (sockaddr.AF_PACKET [170, 187, 204, 221, 238, 255, 0, 0]) }]

/-- The answers of the environment for a registration over `enum_lo` whose synchronous request
ends with status 200. -/
def env_lo : RegisterEnv :=
  { getifaddrs := some enum_lo, g_get_host_name := "melo", send_status := 200 }

/-- The answers of the environment for a registration over `enum_eth0` whose synchronous
request ends with the given status. -/
def env_eth0 (status : Nat) : RegisterEnv :=
  { getifaddrs := some enum_eth0, g_get_host_name := "melo", send_status := status }

/-- A state in which no serial is known, the device is not registered, and the interface `eth0`
has a hardware address and no IP address.  It is reached from the initial state by an
`RTM_NEWLINK` for `eth0`. -/
def state_link_only : MeloDiscoverPrivate :=
  { registered := false, serial := none,
    ifaces := [{ name := "eth0", hw_address := some "aa:bb:cc:dd:ee:ff", address := none }] }

/-- The interface `eth0` with the hardware address aa:bb:cc:dd:ee:ff and no IP address. -/
def iface_eth0 : MeloDiscoverInterface :=
  { name := "eth0", hw_address := some "aa:bb:cc:dd:ee:ff", address := none }

/-- The state after the first registration over `enum_eth0`, before its callback has run. -/
def state_first_register : MeloDiscoverPrivate :=
  { registered := false, serial := some "aa:bb:cc:dd:ee:ff", ifaces := [iface_eth0] }

/-- The requests made by the first registration over `enum_eth0` as device `player` on port
8080 of host `melo`, when the synchronous request ends with the given status. -/
def calls_first_register (status : Nat) : List Call :=
  [Call.send_message (Action.add_device (some "aa:bb:cc:dd:ee:ff") "player" "melo" 8080) status,
   Call.queue_message (Action.add_device (some "aa:bb:cc:dd:ee:ff") "player" "melo" 8080) true,
   Call.queue_message (Action.remove_address "aa:bb:cc:dd:ee:ff" (some "aa:bb:cc:dd:ee:ff")) false]

/-! ## Operations on a discoverer -/

/-- One thing that happens to a discoverer: a call of `melo_discover_register_device` with the
answers of the environment, a call of `melo_discover_unregister_device`, a run of
`melo_netlink_event` on what `recv` returned (with the answers of `if_indextoname` and the
content of the uninitialised array `name`), or a run of `melo_device_register_callback`. -/
inductive Op where
  | register_device (env : RegisterEnv) (name : String) (port : Nat)
  | unregister_device
  | netlink_event (if_indextoname : Nat → Option String) (name0 : String) (buf : List Nat)
      (len : Int)
  | register_callback

/-- The state after one operation and the requests it made; `none` when the process ends in
`melo_discover_get_serial`. -/
def Op.step (priv : MeloDiscoverPrivate) : Op → Option (MeloDiscoverPrivate × List Call)
  | Op.register_device env name port =>
    (melo_discover_register_device env priv name port).map (fun r => r.2)
  | Op.unregister_device => some (melo_discover_unregister_device priv).2
  | Op.netlink_event nm name0 buf len => some (melo_netlink_event nm name0 buf len priv).2
  | Op.register_callback => some (melo_device_register_callback priv, [])

/-- The state after a sequence of operations and all the requests made, in order; `none` when
the process ended on the way. -/
def run (priv : MeloDiscoverPrivate) : List Op → Option (MeloDiscoverPrivate × List Call)
  | [] => some (priv, [])
  | op :: ops =>
    match op.step priv with
    | none => none
    | some (priv1, calls1) =>
      match run priv1 ops with
      | none => none
      | some (priv2, calls2) => some (priv2, calls1 ++ calls2)

/-! ## Example messages -/

/-- The answers of `if_indextoname` on a machine with two interfaces: the index 1 is `lo`, the
index 2 is `eth0`, no interface has another index. -/
def ifname_eth0 (index : Nat) : Option String :=
  if index = 1 then some "lo" else if index = 2 then some "eth0" else none

/-- A well-formed `RTM_NEWADDR` message of 32 bytes: the header (length 32, type 20), a
`struct ifaddrmsg` for the interface index 2, and one `IFA_LOCAL` attribute of length 8 with
the address 192.168.1.10. -/
def msg_newaddr_eth0 : List Nat :=
  [32, 0, 0, 0, 20, 0, 0, 0, 0, 0, 0, 0, 0, 0, 0, 0,
   2, 24, 0, 0, 2, 0, 0, 0,
   8, 0, 2, 0, 192, 168, 1, 10]

/-- Whether a request is an `add_device` request. -/
def Action.is_add_device : Action → Bool
  | Action.add_device _ _ _ _ => true
  | _ => false

/-- The state after the first registration over `enum_eth0`, its completion callback, and an
`RTM_NEWADDR` that gives `eth0` the address 192.168.1.10. -/
def state_eth0_with_address : MeloDiscoverPrivate :=
  { registered := true, serial := some "aa:bb:cc:dd:ee:ff",
    ifaces := [{ name := "eth0", hw_address := some "aa:bb:cc:dd:ee:ff",
                 address := some "192.168.1.10" }] }

/-! ## The message walk -/

/-- Whether the message at offset `nh` has the type `NLMSG_DONE` or `NLMSG_ERROR`, the two
cases of the `switch` that leave the message loop. -/
def nl_is_stop (buf : List Nat) (nh : Nat) : Bool :=
  decide (rd16 buf (nh + 4) = NLMSG_DONE ∨ rd16 buf (nh + 4) = NLMSG_ERROR)

/-- The walk of the message loop of `melo_netlink_event` alone: the offsets of the messages on
which the loop body is run, in order (the last one may be a `NLMSG_DONE` or `NLMSG_ERROR`
message, after which the loop is left).  The result is `none` when the fuel is used up while
`NLMSG_OK` still holds, that is, when the loop has not reached its end within `fuel` turns. -/
def nl_steps (buf : List Nat) : Nat → Nat → Int → Option (List Nat)
  | 0, nh, len => if NLMSG_OK buf nh len = true then none else some []
  | fuel + 1, nh, len =>
    if NLMSG_OK buf nh len = true then
      if nl_is_stop buf nh = true then some [nh]
      else
        (nl_steps buf fuel (nh + NLMSG_ALIGN (rd32 buf nh)) (len - NLMSG_ALIGN (rd32 buf nh))).map
          (fun offs => nh :: offs)
    else some []

/-- The state and the requests after a list of decoded messages has been handled in order,
starting with the requests already made. -/
def nl_run (priv : MeloDiscoverPrivate) (calls : List Call) (evs : List NlEvent) :
    MeloDiscoverPrivate × List Call :=
  evs.foldl (fun acc ev => ((nl_handle acc.1 ev).1, acc.2 ++ (nl_handle acc.1 ev).2)) (priv, calls)

/-- The messages at a list of offsets, decoded in order; each one is decoded with the content
that the message before it left in the buffer `name`, the first one with `name`. -/
def nl_decode_all (nm : Nat → Option String) (buf : List Nat) : String → List Nat → List NlEvent
  | _, [] => []
  | name, o :: offs =>
    nl_decode nm name buf o ::
      nl_decode_all nm buf ((nl_decode nm name buf o).name_buffer name) offs

/-- The decoded messages that the handler acts upon, given the offsets of the walk: those
that do not leave the loop. -/
def nl_events (nm : Nat → Option String) (name0 : String) (buf : List Nat) (offs : List Nat) :
    List NlEvent :=
  nl_decode_all nm buf name0 (offs.filter (fun o => !nl_is_stop buf o))

/-- A well-formed message frame: the declared length is at least the header, at most the
number of bytes of the frame, and the frame extends to the declared length rounded up by
`NLMSG_ALIGN`. -/
def nl_frame (m : List Nat) : Bool :=
  decide (NLMSG_HDRLEN ≤ rd32 m 0) && decide (rd32 m 0 ≤ m.length) &&
    decide (m.length = NLMSG_ALIGN (rd32 m 0))

/-- The offsets at which frames laid back to back start, the first one at `off`. -/
def frame_offsets : Nat → List (List Nat) → List Nat
  | _, [] => []
  | off, m :: ms => off :: frame_offsets (off + m.length) ms

/-- A well-formed `NLMSG_DONE` message of 20 bytes: the header (length 20, type 3) and a
payload of four zero bytes. -/
def msg_done : List Nat :=
  [20, 0, 0, 0, 3, 0, 0, 0, 0, 0, 0, 0, 0, 0, 0, 0,
   0, 0, 0, 0]

/-- A well-formed `RTM_DELADDR` message of 24 bytes: the header (length 24, type 21) and a
`struct ifaddrmsg` for the interface index 2. -/
def msg_deladdr_eth0 : List Nat :=
  [24, 0, 0, 0, 21, 0, 0, 0, 0, 0, 0, 0, 0, 0, 0, 0,
   2, 24, 0, 0, 2, 0, 0, 0]

/-! ## Vocabulary of the enumeration -/

/-- Whether a node of the enumeration is flagged loopback. -/
def ifaddrs.is_loopback (i : ifaddrs) : Bool :=
  decide (i.ifa_flags &&& IFF_LOOPBACK ≠ 0)

/-- Two lowercase hexadecimal digits for a byte, the high digit first. -/
def two_hex (b : Nat) : String :=
  String.mk [Nat.digitChar (b / 16), Nat.digitChar (b % 16)]

/-- The lowercase colon-hex form of a hardware address, as the specification words it: the
six bytes of the address in order, each as two lowercase hexadecimal digits, with a colon
between two bytes.  It is written without reference to the rendering function of the
program; a byte that the list lacks counts as 0 and a value counts modulo 256. -/
def colon_hex (addr : List Nat) : String :=
  ":".intercalate ((List.range 6).map (fun k => two_hex (addr.getD k 0 % 256)))

/-- The dotted-quad form of an IPv4 address, as the specification words it: the four bytes of
the address in order, each as a decimal numeral, with a dot between two bytes.  It is
written without reference to the rendering function of the program; a byte that the list
lacks counts as 0 and a value counts modulo 256. -/
def dotted_quad (addr : List Nat) : String :=
  ".".intercalate ((List.range 4).map (fun k => Nat.repr (addr.getD k 0 % 256)))

/-- The link-layer address that a node of the enumeration gives for the interface `n`, in
colon-hex form: the node is not flagged loopback, is named `n` and has an `AF_PACKET`
address. -/
def ifaddrs.hw_for (n : String) (i : ifaddrs) : Option String :=
  if i.is_loopback = false ∧ i.ifa_name = n then
    match i.ifa_addr with
    | some (sockaddr.AF_PACKET sll_addr) => some (colon_hex sll_addr)
    | _ => none
  else none

/-- The IPv4 address that a node of the enumeration gives for the interface `n`, in
dotted-quad form: the node is not flagged loopback, is named `n` and has an `AF_INET`
address. -/
def ifaddrs.address_for (n : String) (i : ifaddrs) : Option String :=
  if i.is_loopback = false ∧ i.ifa_name = n then
    match i.ifa_addr with
    | some (sockaddr.AF_INET sin_addr) => some (dotted_quad sin_addr)
    | _ => none
  else none

/-- Whether a node of the enumeration carries a link-layer address and is not flagged
loopback. -/
def ifaddrs.is_hw (i : ifaddrs) : Bool :=
  match i.ifa_addr with
  | some (sockaddr.AF_PACKET _) => !i.is_loopback
  | _ => false

/-- The rendering of the link-layer address of a node, if it has one. -/
def ifaddrs.hw_rendering (i : ifaddrs) : Option String :=
  match i.ifa_addr with
  | some (sockaddr.AF_PACKET sll_addr) => some (melo_discover_get_hw_address sll_addr)
  | _ => none

/-- An enumeration with the loopback interface and `eth0`, each with a link-layer and an IPv4
address; `eth0` has aa:bb:cc:dd:ee:ff and 192.168.1.10. -/
def enum_eth0_ip : List ifaddrs :=
  [{ ifa_name := "lo", ifa_flags := 73, ifa_addr := some (sockaddr.AF_PACKET [0, 0, 0, 0, 0, 0]) },
   { ifa_name := "eth0", ifa_flags := 4163,
     ifa_addr := some (sockaddr.AF_PACKET [170, 187, 204, 221, 238, 255, 0, 0]) },
   { ifa_name := "lo", ifa_flags := 73, ifa_addr := some (sockaddr.AF_INET [127, 0, 0, 1]) },
   { ifa_name := "eth0", ifa_flags := 4163,
     ifa_addr := some (sockaddr.AF_INET [192, 168, 1, 10]) }]

/-- The answers of the environment for a registration over `enum_eth0_ip`. -/
def env_eth0_ip : RegisterEnv :=
  { getifaddrs := some enum_eth0_ip, g_get_host_name := "melo", send_status := 200 }

/-- The state after the first registration over `enum_eth0_ip`, before its callback has run. -/
def state_first_register_ip : MeloDiscoverPrivate :=
  { registered := false, serial := some "aa:bb:cc:dd:ee:ff",
    ifaces := [{ name := "eth0", hw_address := some "aa:bb:cc:dd:ee:ff",
                 address := some "192.168.1.10" }] }

/-- The requests made by the first registration over `enum_eth0_ip` as device `player` on port
8080 of host `melo`. -/
def calls_first_register_ip : List Call :=
  [Call.send_message (Action.add_device (some "aa:bb:cc:dd:ee:ff") "player" "melo" 8080) 200,
   Call.queue_message (Action.add_device (some "aa:bb:cc:dd:ee:ff") "player" "melo" 8080) true,
   Call.queue_message
     (Action.add_address "aa:bb:cc:dd:ee:ff" (some "aa:bb:cc:dd:ee:ff") (some "192.168.1.10"))
     false]

/-- An enumeration in which a node without address (`ifa_addr` is `NULL`), here of a tunnel
interface, precedes `eth0` with the link-layer address aa:bb:cc:dd:ee:ff. -/
def enum_tun0_eth0 : List ifaddrs :=
  [{ ifa_name := "tun0", ifa_flags := 4305, ifa_addr := none },
   { ifa_name := "eth0", ifa_flags := 4163,
     ifa_addr := some (sockaddr.AF_PACKET [170, 187, 204, 221, 238, 255, 0, 0]) }]

/-- The answers of the environment for a registration over `enum_tun0_eth0`. -/
def env_tun0_eth0 : RegisterEnv :=
  { getifaddrs := some enum_tun0_eth0, g_get_host_name := "melo", send_status := 200 }

/-! ## Vocabulary of the messages -/

/-- The two bytes of an unsigned 16-bit field, in little-endian order. -/
def le16 (n : Nat) : List Nat :=
  [n % 256, n / 256 % 256]

/-- The four bytes of an unsigned 32-bit field, in little-endian order. -/
def le32 (n : Nat) : List Nat :=
  [n % 256, n / 256 % 256, n / 65536 % 256, n / 16777216 % 256]

/-- An attribute as the kernel lays it out, given its type `a.1` and its payload `a.2`: the
header `struct rtattr` (`rta_len`, which counts the header and the payload, then `rta_type`),
the payload, and zero bytes up to the next multiple of 4. -/
def rtattr_bytes (a : Nat × List Nat) : List Nat :=
  le16 (RTA_HDRLEN + a.2.length) ++ le16 a.1 ++ a.2 ++
    List.replicate (RTA_ALIGN a.2.length - a.2.length) 0

/-- A sequence of attributes laid back to back. -/
def rtattrs_bytes (attrs : List (Nat × List Nat)) : List Nat :=
  (attrs.map rtattr_bytes).flatten

/-- The fields of an address message that the handler does not read: the flags, the sequence
number and the port of the header `struct nlmsghdr`, and the family, the prefix length, the
flags and the scope of the `struct ifaddrmsg`. -/
structure ifaddr_fields where
  nlmsg_flags : Nat
  nlmsg_seq : Nat
  nlmsg_pid : Nat
  ifa_family : Nat
  ifa_prefixlen : Nat
  ifa_flags : Nat
  ifa_scope : Nat

/-- An address message as the kernel lays it out, given its type (`RTM_NEWADDR` or
`RTM_DELADDR`), the index of the interface, the other fields and its attributes: the header
`struct nlmsghdr` (`nlmsg_len`, which counts the whole message, `nlmsg_type`, `nlmsg_flags`,
`nlmsg_seq`, `nlmsg_pid`), the `struct ifaddrmsg` (`ifa_family`, `ifa_prefixlen`, `ifa_flags`,
`ifa_scope`, one byte each, then `ifa_index`), and the attributes. -/
def ifaddr_message (type index : Nat) (f : ifaddr_fields) (attrs : List (Nat × List Nat)) :
    List Nat :=
  le32 (NLMSG_HDRLEN + 8 + (rtattrs_bytes attrs).length) ++ le16 type ++ le16 f.nlmsg_flags ++
    le32 f.nlmsg_seq ++ le32 f.nlmsg_pid ++
    ([f.ifa_family % 256, f.ifa_prefixlen % 256, f.ifa_flags % 256, f.ifa_scope % 256] ++
      le32 index) ++ rtattrs_bytes attrs

/-- The other fields of an address message for an IPv4 address with a prefix of 24 bits:
family `AF_INET`, flags, sequence number, port and scope zero. -/
def fields_inet : ifaddr_fields :=
  { nlmsg_flags := 0, nlmsg_seq := 0, nlmsg_pid := 0, ifa_family := 2, ifa_prefixlen := 24,
    ifa_flags := 0, ifa_scope := 0 }

/-- The attributes of a message are well formed for the handler: every type fits 16 bits and
every `IFA_LOCAL` attribute carries the four bytes of an IPv4 address. -/
@[reducible]
def rtattrs_ok (attrs : List (Nat × List Nat)) : Prop :=
  ∀ a ∈ attrs, a.1 < 65536 ∧ (a.1 = IFA_LOCAL → a.2.length = 4)

/-- The IPv4 addresses that the `IFA_LOCAL` attributes of a message carry, in message order
and in dotted-quad form. -/
def local_addresses (attrs : List (Nat × List Nat)) : List String :=
  (attrs.filter (fun a => a.1 = IFA_LOCAL)).map (fun a => dotted_quad a.2)

/-! ## Example messages for a vanished interface -/

/-- A well-formed `RTM_DELADDR` message of 24 bytes: the header (length 24, type 21) and a
`struct ifaddrmsg` for the interface index 9999 (bytes 15, 39, 0, 0), which no interface of
`ifname_eth0` has (the interface was removed before the message is handled). -/
def msg_deladdr_gone : List Nat :=
  [24, 0, 0, 0, 21, 0, 0, 0, 0, 0, 0, 0, 0, 0, 0, 0,
   2, 24, 0, 0, 15, 39, 0, 0]

/-- A well-formed `RTM_NEWLINK` message of 44 bytes: the header (length 44, type 16), a
`struct ifinfomsg` for the interface index 2 (family 0, type `ARPHRD_ETHER`, flags 0x1043),
and one `IFLA_ADDRESS` attribute of length 10 with the address aa:bb:cc:dd:ee:ff, padded to
12 bytes. -/
def msg_newlink_eth0 : List Nat :=
  [44, 0, 0, 0, 16, 0, 0, 0, 0, 0, 0, 0, 0, 0, 0, 0,
   0, 0, 1, 0, 2, 0, 0, 0, 67, 16, 0, 0, 0, 0, 0, 0,
   10, 0, 1, 0, 170, 187, 204, 221, 238, 255, 0, 0]

/-- A receive buffer of 96 bytes with three `RTM_NEWADDR` messages, each with one `IFA_LOCAL`
attribute: for the interface index 9999 (which no interface of `ifname_eth0` has) with the
address 10.0.0.1, for the index 1 (`lo`) with 10.0.0.2, and for the index 9999 again with
10.0.0.3. -/
def buf_newaddr_gone_lo_gone : List Nat :=
  ifaddr_message RTM_NEWADDR 9999 fields_inet [(IFA_LOCAL, [10, 0, 0, 1])] ++
    ifaddr_message RTM_NEWADDR 1 fields_inet [(IFA_LOCAL, [10, 0, 0, 2])] ++
    ifaddr_message RTM_NEWADDR 9999 fields_inet [(IFA_LOCAL, [10, 0, 0, 3])]

/-- The attributes of an `RTM_NEWADDR` or `RTM_DELADDR` message as the kernel sends it for
the address 192.168.1.10 of `eth0`: `IFA_ADDRESS` (type 1), `IFA_LOCAL` (type 2) and
`IFA_LABEL` (type 3, the name `eth0` with its terminating zero). -/
def attrs_eth0 : List (Nat × List Nat) :=
  [(1, [192, 168, 1, 10]), (IFA_LOCAL, [192, 168, 1, 10]), (3, [101, 116, 104, 48, 0])]

/-- An enumeration in which `eth0` has a link-layer address and two IPv4 addresses, first
192.168.1.10 and then 10.0.0.7, and the loopback interface has 127.0.0.1. -/
def enum_eth0_two_ips : List ifaddrs :=
  [{ ifa_name := "eth0", ifa_flags := 4163,
     ifa_addr := some (sockaddr.AF_PACKET [170, 187, 204, 221, 238, 255, 0, 0]) },
   { ifa_name := "lo", ifa_flags := 73, ifa_addr := some (sockaddr.AF_INET [127, 0, 0, 1]) },
   { ifa_name := "eth0", ifa_flags := 4163,
     ifa_addr := some (sockaddr.AF_INET [192, 168, 1, 10]) },
   { ifa_name := "eth0", ifa_flags := 4163, ifa_addr := some (sockaddr.AF_INET [10, 0, 0, 7]) }]

/-- The answers of the environment for a registration over `enum_eth0_two_ips`. -/
def env_eth0_two_ips : RegisterEnv :=
  { getifaddrs := some enum_eth0_two_ips, g_get_host_name := "melo", send_status := 200 }

/-- The state after the first registration over `enum_eth0_two_ips`, before its callback has
run: `eth0` has the address that the enumeration gives last. -/
def state_first_register_two_ips : MeloDiscoverPrivate :=
  { registered := false, serial := some "aa:bb:cc:dd:ee:ff",
    ifaces := [{ name := "eth0", hw_address := some "aa:bb:cc:dd:ee:ff",
                 address := some "10.0.0.7" }] }

/-- The requests made by the first registration over `enum_eth0_two_ips` as device `player` on
port 8080 of host `melo`. -/
def calls_first_register_two_ips : List Call :=
  [Call.send_message (Action.add_device (some "aa:bb:cc:dd:ee:ff") "player" "melo" 8080) 200,
   Call.queue_message (Action.add_device (some "aa:bb:cc:dd:ee:ff") "player" "melo" 8080) true,
   Call.queue_message
     (Action.add_address "aa:bb:cc:dd:ee:ff" (some "aa:bb:cc:dd:ee:ff") (some "10.0.0.7")) false]

/-! ## Lemmas on the interface list -/

theorem iface_find_plug (n : String) (l : List MeloDiscoverInterface)
    (z : List MeloDiscoverInterface × MeloDiscoverInterface × List MeloDiscoverInterface)
    (h : iface_find n l = some z) :
    l = z.1 ++ z.2.1 :: z.2.2 ∧ z.2.1.name = n ∧ iface_find n z.1 = none := by
  induction l generalizing z with
  | nil => simp [iface_find] at h
  | cons i l ih =>
    unfold iface_find at h
    by_cases hi : i.name = n
    · simp only [hi, if_true, Option.some.injEq] at h
      subst h
      simp [hi, iface_find]
    · simp only [hi, if_false, Option.map_eq_some'] at h
      obtain ⟨w, hw, rfl⟩ := h
      obtain ⟨h1, h2, h3⟩ := ih w hw
      refine ⟨?_, h2, ?_⟩
      · simp only [List.cons_append]; rw [← h1]
      · simp [iface_find, hi, h3]

theorem iface_update_nil (n : String) (f : MeloDiscoverInterface → MeloDiscoverInterface) :
    iface_update n f [] = [f (iface_new n)] := by
  simp [iface_update, melo_discover_interface_get, iface_find, iface_plug, iface_new]

theorem iface_update_cons (n : String) (f : MeloDiscoverInterface → MeloDiscoverInterface)
    (i : MeloDiscoverInterface) (l : List MeloDiscoverInterface) :
    iface_update n f (i :: l) =
      if i.name = n then f i :: l
      else if (iface_find n l).isSome then i :: iface_update n f l
      else f (iface_new n) :: i :: l := by
  by_cases hi : i.name = n
  · simp [iface_update, melo_discover_interface_get, iface_find, iface_plug, hi]
  · cases hf : iface_find n l with
    | none => simp [iface_update, melo_discover_interface_get, iface_find, iface_plug, hi, hf, iface_new]
    | some z => simp [iface_update, melo_discover_interface_get, iface_find, iface_plug, hi, hf]

theorem iface_lookup_nil (n : String) : iface_lookup n [] = none := by
  simp [iface_lookup, iface_find]

theorem iface_lookup_cons (n : String) (i : MeloDiscoverInterface)
    (l : List MeloDiscoverInterface) :
    iface_lookup n (i :: l) = if i.name = n then some i else iface_lookup n l := by
  by_cases hi : i.name = n
  · simp [iface_lookup, iface_find, hi]
  · simp [iface_lookup, iface_find, hi, Function.comp_def]

theorem iface_find_isSome (n : String) (l : List MeloDiscoverInterface) :
    (iface_find n l).isSome = (iface_lookup n l).isSome := by
  simp [iface_lookup]

theorem iface_lookup_isSome_iff (n : String) (l : List MeloDiscoverInterface) :
    (iface_lookup n l).isSome = true ↔ n ∈ l.map (fun i => i.name) := by
  induction l with
  | nil => simp [iface_lookup_nil]
  | cons i l ih =>
    rw [iface_lookup_cons]
    by_cases hi : i.name = n
    · simp [hi]
    · simp only [hi, if_false, ih, List.map_cons, List.mem_cons]
      constructor
      · intro h; exact Or.inr h
      · intro h
        rcases h with h | h
        · exact absurd h.symm hi
        · exact h

theorem iface_lookup_name (n : String) (l : List MeloDiscoverInterface)
    (r : MeloDiscoverInterface) (h : iface_lookup n l = some r) : r.name = n := by
  induction l with
  | nil => simp [iface_lookup_nil] at h
  | cons i l ih =>
    rw [iface_lookup_cons] at h
    by_cases hi : i.name = n
    · simp only [hi, if_true, Option.some.injEq] at h
      rw [← h]; exact hi
    · simp only [hi, if_false] at h
      exact ih h

theorem iface_lookup_update (m n : String) (f : MeloDiscoverInterface → MeloDiscoverInterface)
    (hf : ∀ i, (f i).name = i.name) (l : List MeloDiscoverInterface) :
    iface_lookup m (iface_update n f l) =
      if m = n then some (f ((iface_lookup n l).getD (iface_new n))) else iface_lookup m l := by
  induction l with
  | nil =>
    rw [iface_update_nil, iface_lookup_cons, hf]
    by_cases hm : m = n
    · simp [hm, iface_new, iface_lookup_nil]
    · have : ¬ n = m := fun h => hm h.symm
      simp [hm, iface_new, this, iface_lookup_nil]
  | cons i l ih =>
    rw [iface_update_cons]
    by_cases hi : i.name = n
    · simp only [hi, if_true]
      rw [iface_lookup_cons, hf, hi]
      by_cases hm : m = n
      · simp [hm, iface_lookup_cons, hi]
      · have : ¬ n = m := fun h => hm h.symm
        simp [hm, this, iface_lookup_cons, hi]
    · simp only [hi, if_false]
      cases hfd : (iface_find n l).isSome with
      | true =>
        simp only [if_true]
        rw [iface_lookup_cons, ih]
        by_cases hm : m = n
        · subst hm; simp [hi, iface_lookup_cons]
        · simp [hm, iface_lookup_cons]
      | false =>
        simp only [Bool.false_eq_true, if_false]
        rw [iface_find_isSome] at hfd
        have hnone : iface_lookup n l = none := by
          cases h : iface_lookup n l with
          | none => rfl
          | some r => rw [h] at hfd; simp at hfd
        rw [iface_lookup_cons, hf]
        by_cases hm : m = n
        · subst hm; simp [iface_new, iface_lookup_cons, hi, hnone]
        · have : ¬ n = m := fun h => hm h.symm
          simp [hm, iface_new, this]

theorem iface_update_names (n : String) (f : MeloDiscoverInterface → MeloDiscoverInterface)
    (hf : ∀ i, (f i).name = i.name) (l : List MeloDiscoverInterface) :
    (iface_update n f l).map (fun i => i.name) =
      if (iface_lookup n l).isSome then l.map (fun i => i.name)
      else n :: l.map (fun i => i.name) := by
  induction l with
  | nil => simp [iface_update_nil, iface_lookup_nil, hf, iface_new]
  | cons i l ih =>
    rw [iface_update_cons, iface_lookup_cons]
    by_cases hi : i.name = n
    · simp [hi, hf]
    · simp only [hi, if_false]
      rw [iface_find_isSome]
      cases hfd : (iface_lookup n l).isSome with
      | true => simp [ih, hfd]
      | false => simp [hf, iface_new]

theorem iface_modify_names (n : String) (f : MeloDiscoverInterface → MeloDiscoverInterface)
    (hf : ∀ i, (f i).name = i.name) (l : List MeloDiscoverInterface) :
    (iface_modify n f l).map (fun i => i.name) = l.map (fun i => i.name) := by
  induction l with
  | nil => rfl
  | cons i l ih =>
    unfold iface_modify
    by_cases hi : i.name = n
    · simp [hi, hf]
    · simp [hi, ih]

theorem iface_lookup_isSome_congr (n : String) (l l' : List MeloDiscoverInterface)
    (h : l'.map (fun i => i.name) = l.map (fun i => i.name)) :
    (iface_lookup n l').isSome = (iface_lookup n l).isSome := by
  rw [Bool.eq_iff_iff, iface_lookup_isSome_iff, iface_lookup_isSome_iff, h]

theorem iface_update_present (n : String) (f : MeloDiscoverInterface → MeloDiscoverInterface)
    (l : List MeloDiscoverInterface) (h : (iface_lookup n l).isSome = true) :
    iface_update n f l = iface_modify n f l := by
  induction l with
  | nil => simp [iface_lookup_nil] at h
  | cons i l ih =>
    rw [iface_update_cons]
    unfold iface_modify
    by_cases hi : i.name = n
    · simp [hi]
    · rw [iface_lookup_cons] at h
      simp only [hi, if_false] at h
      simp only [hi, if_false, iface_find_isSome, h, if_true]
      rw [ih h]

theorem iface_update_absent (n : String) (f : MeloDiscoverInterface → MeloDiscoverInterface)
    (l : List MeloDiscoverInterface) (h : (iface_lookup n l).isSome = false) :
    iface_update n f l = f (iface_new n) :: l := by
  cases l with
  | nil => exact iface_update_nil n f
  | cons i l =>
    rw [iface_update_cons]
    rw [iface_lookup_cons] at h
    by_cases hi : i.name = n
    · simp [hi] at h
    · simp only [hi, if_false] at h
      simp [hi, iface_find_isSome, h]

theorem iface_modify_absent (n : String) (f : MeloDiscoverInterface → MeloDiscoverInterface)
    (l : List MeloDiscoverInterface) (h : (iface_lookup n l).isSome = false) :
    iface_modify n f l = l := by
  induction l with
  | nil => rfl
  | cons i l ih =>
    rw [iface_lookup_cons] at h
    unfold iface_modify
    by_cases hi : i.name = n
    · simp [hi] at h
    · simp only [hi, if_false] at h
      simp [hi, ih h]

theorem iface_modify_modify (n : String) (f g : MeloDiscoverInterface → MeloDiscoverInterface)
    (hg : ∀ i, (g i).name = i.name) (l : List MeloDiscoverInterface) :
    iface_modify n f (iface_modify n g l) = iface_modify n (fun i => f (g i)) l := by
  induction l with
  | nil => rfl
  | cons i l ih =>
    by_cases hi : i.name = n
    · simp [iface_modify, hi, hg]
    · simp [iface_modify, hi, ih]

theorem iface_modify_comm (n m : String) (hnm : n ≠ m)
    (f g : MeloDiscoverInterface → MeloDiscoverInterface)
    (hf : ∀ i, (f i).name = i.name) (hg : ∀ i, (g i).name = i.name)
    (l : List MeloDiscoverInterface) :
    iface_modify n f (iface_modify m g l) = iface_modify m g (iface_modify n f l) := by
  induction l with
  | nil => rfl
  | cons i l ih =>
    by_cases hi : i.name = n
    · have him : ¬ i.name = m := fun h => hnm (hi.symm.trans h)
      simp [iface_modify, hi, him, hf, hnm]
    · by_cases him : i.name = m
      · have hmn : ¬ m = n := fun h => hnm h.symm
        simp [iface_modify, hi, him, hg, hmn]
      · simp [iface_modify, hi, him, ih]

/-! ## Lemmas on field writes -/

theorem FieldWrite.apply_name (w : FieldWrite) (i : MeloDiscoverInterface) :
    (w.apply i).name = i.name := by
  cases w <;> rfl

theorem FieldWrite.apply_absorb (b a : FieldWrite) (h : b.same_field a = true)
    (i : MeloDiscoverInterface) : b.apply (a.apply i) = b.apply i := by
  cases b <;> cases a <;> first | rfl | simp [FieldWrite.same_field] at h

theorem FieldWrite.apply_comm (b a : FieldWrite) (h : ¬ b.same_field a = true)
    (i : MeloDiscoverInterface) : b.apply (a.apply i) = a.apply (b.apply i) := by
  cases b <;> cases a <;> first | rfl | simp [FieldWrite.same_field] at h

theorem in_place_names (w : String × FieldWrite) (l : List MeloDiscoverInterface) :
    (table_write_in_place w l).map (fun i => i.name) = l.map (fun i => i.name) :=
  iface_modify_names w.1 w.2.apply w.2.apply_name l

theorem in_place_absorb (b a : String × FieldWrite) (h : overwrites b a)
    (l : List MeloDiscoverInterface) :
    table_write_in_place b (table_write_in_place a l) = table_write_in_place b l := by
  unfold table_write_in_place
  rw [h.1, iface_modify_modify _ _ _ a.2.apply_name]
  congr 1
  funext i
  exact FieldWrite.apply_absorb b.2 a.2 h.2 i

theorem in_place_comm (b a : String × FieldWrite) (h : ¬ overwrites b a)
    (l : List MeloDiscoverInterface) :
    table_write_in_place a (table_write_in_place b l) =
      table_write_in_place b (table_write_in_place a l) := by
  unfold table_write_in_place
  by_cases hn : a.1 = b.1
  · have hf : ¬ b.2.same_field a.2 = true := fun hs => h ⟨hn.symm, hs⟩
    rw [hn, iface_modify_modify _ _ _ b.2.apply_name, iface_modify_modify _ _ _ a.2.apply_name]
    congr 1
    funext i
    exact (FieldWrite.apply_comm b.2 a.2 hf i).symm
  · exact iface_modify_comm a.1 b.1 hn _ _ a.2.apply_name b.2.apply_name l

theorem table_write_present (w : String × FieldWrite) (l : List MeloDiscoverInterface)
    (h : (iface_lookup w.1 l).isSome = true) : table_write w l = table_write_in_place w l :=
  iface_update_present w.1 w.2.apply l h

theorem table_write_lookup_isSome (n : String) (w : String × FieldWrite)
    (l : List MeloDiscoverInterface) :
    (iface_lookup n (table_write w l)).isSome = ((iface_lookup n l).isSome || decide (n = w.1)) := by
  unfold table_write
  rw [iface_lookup_update n w.1 w.2.apply w.2.apply_name]
  by_cases h : n = w.1 <;> simp [h]

theorem in_place_after_write (a : String × FieldWrite) (l : List MeloDiscoverInterface) :
    table_write_in_place a (table_write a l) = table_write a l := by
  cases h : (iface_lookup a.1 l).isSome with
  | true =>
    rw [table_write_present a l h]
    exact in_place_absorb a a ⟨rfl, by cases a.2 <;> rfl⟩ l
  | false =>
    unfold table_write table_write_in_place
    rw [iface_update_absent _ _ _ h]
    have hn : (a.2.apply (iface_new a.1)).name = a.1 := by rw [FieldWrite.apply_name]; rfl
    simp only [iface_modify, hn, if_true]
    rw [FieldWrite.apply_absorb a.2 a.2 (by cases a.2 <;> rfl)]

theorem in_place_write_comm (b a : String × FieldWrite) (h : ¬ overwrites b a)
    (l : List MeloDiscoverInterface) (ha : (iface_lookup a.1 l).isSome = true) :
    table_write_in_place a (table_write b l) = table_write b (table_write_in_place a l) := by
  have hnames := in_place_names a l
  cases hb : (iface_lookup b.1 l).isSome with
  | true =>
    have hb2 : (iface_lookup b.1 (table_write_in_place a l)).isSome = true := by
      rw [iface_lookup_isSome_congr b.1 l _ hnames]; exact hb
    rw [table_write_present b l hb, table_write_present b _ hb2]
    exact in_place_comm b a h l
  | false =>
    have hb2 : (iface_lookup b.1 (table_write_in_place a l)).isSome = false := by
      rw [iface_lookup_isSome_congr b.1 l _ hnames]; exact hb
    have hne : ¬ b.1 = a.1 := by
      intro e; rw [e, ha] at hb; exact Bool.noConfusion hb
    unfold table_write
    rw [iface_update_absent _ _ _ hb, iface_update_absent _ _ _ hb2]
    have hn : ¬ (b.2.apply (iface_new b.1)).name = a.1 := by
      rw [FieldWrite.apply_name]; exact hne
    simp only [table_write_in_place, iface_modify, hn, if_false]

theorem foldl_in_place_absorb (a : String × FieldWrite) (ws : List (String × FieldWrite))
    (h : ∃ b ∈ ws, overwrites b a) (l : List MeloDiscoverInterface) :
    ws.foldl (fun l w => table_write_in_place w l) (table_write_in_place a l) =
      ws.foldl (fun l w => table_write_in_place w l) l := by
  induction ws generalizing l with
  | nil => obtain ⟨b, hb, _⟩ := h; simp at hb
  | cons c cs ih =>
    simp only [List.foldl_cons]
    by_cases hc : overwrites c a
    · rw [in_place_absorb c a hc]
    · obtain ⟨b, hb, hba⟩ := h
      have hbcs : b ∈ cs := by
        rcases List.mem_cons.mp hb with e | e
        · subst e; exact absurd hba hc
        · exact e
      rw [← in_place_comm c a hc]
      exact ih ⟨b, hbcs, hba⟩ _

theorem foldl_write_lookup_mono (n : String) (ws : List (String × FieldWrite))
    (l : List MeloDiscoverInterface) (h : (iface_lookup n l).isSome = true) :
    (iface_lookup n (ws.foldl (fun l w => table_write w l) l)).isSome = true := by
  induction ws generalizing l with
  | nil => exact h
  | cons c cs ih =>
    simp only [List.foldl_cons]
    apply ih
    rw [table_write_lookup_isSome, h]; rfl

theorem foldl_write_lookup_mem (ws : List (String × FieldWrite))
    (l : List MeloDiscoverInterface) (w : String × FieldWrite) (hw : w ∈ ws) :
    (iface_lookup w.1 (ws.foldl (fun l w => table_write w l) l)).isSome = true := by
  induction ws generalizing l with
  | nil => simp at hw
  | cons c cs ih =>
    simp only [List.foldl_cons]
    rcases List.mem_cons.mp hw with e | e
    · subst e
      apply foldl_write_lookup_mono
      rw [table_write_lookup_isSome]; simp
    · exact ih _ e

theorem in_place_foldl_write_comm (a : String × FieldWrite) (ws : List (String × FieldWrite))
    (h : ∀ b ∈ ws, ¬ overwrites b a) (l : List MeloDiscoverInterface)
    (ha : (iface_lookup a.1 l).isSome = true) :
    table_write_in_place a (ws.foldl (fun l w => table_write w l) l) =
      ws.foldl (fun l w => table_write w l) (table_write_in_place a l) := by
  induction ws generalizing l with
  | nil => rfl
  | cons b cs ih =>
    simp only [List.foldl_cons]
    have ha2 : (iface_lookup a.1 (table_write b l)).isSome = true := by
      rw [table_write_lookup_isSome, ha]; rfl
    rw [ih (fun c hc => h c (List.mem_cons_of_mem _ hc)) _ ha2,
      in_place_write_comm b a (h b (List.mem_cons_self _ _)) l ha]

theorem foldl_write_present (ws : List (String × FieldWrite)) (l : List MeloDiscoverInterface)
    (h : ∀ w ∈ ws, (iface_lookup w.1 l).isSome = true) :
    ws.foldl (fun l w => table_write w l) l = ws.foldl (fun l w => table_write_in_place w l) l := by
  induction ws generalizing l with
  | nil => rfl
  | cons c cs ih =>
    simp only [List.foldl_cons]
    rw [table_write_present c l (h c (List.mem_cons_self _ _))]
    apply ih
    intro w hw
    rw [iface_lookup_isSome_congr w.1 l _ (in_place_names c l)]
    exact h w (List.mem_cons_of_mem _ hw)

theorem foldl_in_place_after_write (ws : List (String × FieldWrite))
    (l : List MeloDiscoverInterface) :
    ws.foldl (fun l w => table_write_in_place w l) (ws.foldl (fun l w => table_write w l) l) =
      ws.foldl (fun l w => table_write w l) l := by
  induction ws generalizing l with
  | nil => rfl
  | cons a cs ih =>
    simp only [List.foldl_cons]
    by_cases h : ∃ b ∈ cs, overwrites b a
    · rw [foldl_in_place_absorb a cs h]
      exact ih _
    · have h2 : ∀ b ∈ cs, ¬ overwrites b a := fun b hb hba => h ⟨b, hb, hba⟩
      have ha : (iface_lookup a.1 (table_write a l)).isSome = true := by
        rw [table_write_lookup_isSome]; simp
      rw [in_place_foldl_write_comm a cs h2 _ ha, in_place_after_write]
      exact ih _

/-- Making a sequence of writes a second time changes nothing. -/
theorem foldl_write_idem (ws : List (String × FieldWrite)) (l : List MeloDiscoverInterface) :
    ws.foldl (fun l w => table_write w l) (ws.foldl (fun l w => table_write w l) l) =
      ws.foldl (fun l w => table_write w l) l := by
  rw [foldl_write_present ws _ (fun w hw => foldl_write_lookup_mem ws l w hw)]
  exact foldl_in_place_after_write ws l

/-! ## Lemmas on the netlink handler -/

theorem foldl_set_hw (hws : List String) (i : MeloDiscoverInterface) :
    hws.foldl (fun (i : MeloDiscoverInterface) hw => { i with hw_address := some hw }) i =
      { i with hw_address := hws.getLast?.or i.hw_address } := by
  induction hws using List.reverseRecOn with
  | nil => simp
  | append_singleton l a ih => simp [List.foldl_append, ih]

theorem newaddr_body_fst (priv : MeloDiscoverPrivate) (acc : MeloDiscoverInterface × List Call)
    (a : String) : (newaddr_body priv acc a).1 = { acc.1 with address := some a } := by
  unfold newaddr_body
  by_cases h : priv.registered = true ∧ acc.1.hw_address.isSome = true
  · simp [h]
  · simp [h]

theorem newaddr_body_snd (priv : MeloDiscoverPrivate) (acc : MeloDiscoverInterface × List Call)
    (a : String) :
    (newaddr_body priv acc a).2 =
      acc.2 ++
        if priv.registered = true ∧ acc.1.hw_address.isSome = true then
          (melo_discover_add_address priv { acc.1 with address := some a }).2
        else [] := by
  unfold newaddr_body
  by_cases h : priv.registered = true ∧ acc.1.hw_address.isSome = true
  · simp [h]
  · simp [h]

theorem foldl_newaddr_body_fst (priv : MeloDiscoverPrivate) (addrs : List String)
    (acc : MeloDiscoverInterface × List Call) :
    (addrs.foldl (newaddr_body priv) acc).1 =
      { acc.1 with address := addrs.getLast?.or acc.1.address } := by
  induction addrs using List.reverseRecOn with
  | nil => simp
  | append_singleton l a ih =>
    simp only [List.foldl_append, List.foldl_cons, List.foldl_nil, List.getLast?_append,
      List.getLast?_singleton, Option.or_some]
    rw [newaddr_body_fst, ih]

theorem foldl_newaddr_body_snd (priv : MeloDiscoverPrivate) (addrs : List String)
    (acc : MeloDiscoverInterface × List Call) :
    (addrs.foldl (newaddr_body priv) acc).2 =
      acc.2 ++
        if priv.registered = true ∧ acc.1.hw_address.isSome = true then
          addrs.flatMap (fun a => (melo_discover_add_address priv { acc.1 with address := some a }).2)
        else [] := by
  induction addrs using List.reverseRecOn with
  | nil => simp
  | append_singleton l a ih =>
    simp only [List.foldl_append, List.foldl_cons, List.foldl_nil]
    rw [newaddr_body_snd, ih, foldl_newaddr_body_fst]
    by_cases h : priv.registered = true ∧ acc.1.hw_address.isSome = true
    · simp [h]
    · simp [h]

theorem nl_handle_registered (priv : MeloDiscoverPrivate) (ev : NlEvent) :
    (nl_handle priv ev).1.registered = priv.registered := by
  cases ev <;> rfl

theorem nl_handle_serial (priv : MeloDiscoverPrivate) (ev : NlEvent) :
    (nl_handle priv ev).1.serial = priv.serial := by
  cases ev <;> rfl

/-- The change that a decoded message makes to the item of the interface it names. -/
theorem nl_handle_ifaces (priv : MeloDiscoverPrivate) (ev : NlEvent) :
    (nl_handle priv ev).1.ifaces =
      match ev with
      | NlEvent.newlink n hws =>
        iface_update n (fun i => { i with hw_address := hws.getLast?.or i.hw_address }) priv.ifaces
      | NlEvent.newaddr n addrs =>
        iface_update n (fun i => { i with address := addrs.getLast?.or i.address }) priv.ifaces
      | NlEvent.deladdr n => iface_update n (fun i => { i with address := none }) priv.ifaces
      | _ => priv.ifaces := by
  cases ev with
  | newlink n hws => simp [nl_handle, iface_update, foldl_set_hw]
  | newaddr n addrs => simp [nl_handle, iface_update, foldl_newaddr_body_fst]
  | deladdr n => simp [nl_handle, iface_update]
  | dellink => rfl
  | stop => rfl
  | other => rfl

theorem interface_get_hw (n : String) (l : List MeloDiscoverInterface) :
    (melo_discover_interface_get l n).2.1.hw_address = hw_of n l := by
  unfold melo_discover_interface_get hw_of iface_lookup
  cases iface_find n l <;> simp

theorem interface_get_iface (n : String) (l : List MeloDiscoverInterface) :
    (melo_discover_interface_get l n).2.1 = (iface_lookup n l).getD (iface_new n) := by
  unfold melo_discover_interface_get iface_lookup
  cases iface_find n l <;> simp [iface_new]

theorem lookup_getD_hw (n : String) (l : List MeloDiscoverInterface) :
    ((iface_lookup n l).getD (iface_new n)).hw_address = hw_of n l := by
  unfold hw_of
  cases iface_lookup n l <;> simp [iface_new]

/-- The requests that the handler makes for one decoded message. -/
theorem nl_handle_calls (priv : MeloDiscoverPrivate) (ev : NlEvent) :
    (nl_handle priv ev).2 =
      match ev with
      | NlEvent.newaddr n addrs =>
        if priv.registered = true ∧ (hw_of n priv.ifaces).isSome = true then
          addrs.flatMap (fun a => (melo_discover_add_address priv
            { (iface_lookup n priv.ifaces).getD (iface_new n) with address := some a }).2)
        else []
      | NlEvent.deladdr n =>
        if priv.registered = true ∧ (hw_of n priv.ifaces).isSome = true then
          (melo_discover_remove_address priv
            { (iface_lookup n priv.ifaces).getD (iface_new n) with address := none }).2
        else []
      | _ => [] := by
  cases ev with
  | newlink n hws => rfl
  | newaddr n addrs =>
    simp only [nl_handle, foldl_newaddr_body_snd, interface_get_iface, lookup_getD_hw,
      List.nil_append]
  | deladdr n => simp only [nl_handle, interface_get_iface, lookup_getD_hw]
  | dellink => rfl
  | stop => rfl
  | other => rfl

/-- One turn of the message loop, with the `switch` written as a test for `stop`. -/
theorem nl_loop_succ (nm : Nat → Option String) (buf : List Nat) (fuel nh : Nat) (len : Int)
    (name : String) (priv : MeloDiscoverPrivate) (calls : List Call) :
    nl_loop nm buf (fuel + 1) nh len name priv calls =
      if NLMSG_OK buf nh len = true then
        if nl_decode nm name buf nh = NlEvent.stop then (priv, calls)
        else nl_loop nm buf fuel (nh + NLMSG_ALIGN (rd32 buf nh)) (len - NLMSG_ALIGN (rd32 buf nh))
          ((nl_decode nm name buf nh).name_buffer name)
          (nl_handle priv (nl_decode nm name buf nh)).1
          (calls ++ (nl_handle priv (nl_decode nm name buf nh)).2)
      else (priv, calls) := by
  by_cases hok : NLMSG_OK buf nh len = true
  · simp only [nl_loop, hok, if_true]
    cases h : nl_decode nm name buf nh <;> simp
  · simp only [nl_loop, hok, if_false]
    simp

theorem nl_handle_calls_unregistered (priv : MeloDiscoverPrivate) (ev : NlEvent)
    (h : priv.registered = false) : (nl_handle priv ev).2 = [] := by
  rw [nl_handle_calls]
  cases ev <;> simp [h]

theorem nl_loop_unregistered (nm : Nat → Option String) (buf : List Nat) (fuel nh : Nat) (len : Int)
    (name : String) (priv : MeloDiscoverPrivate) (calls : List Call) (h : priv.registered = false) :
    (nl_loop nm buf fuel nh len name priv calls).2 = calls := by
  induction fuel generalizing nh len name priv calls with
  | zero => rfl
  | succ k ih =>
    rw [nl_loop_succ]
    by_cases hok : NLMSG_OK buf nh len = true
    · by_cases hs : nl_decode nm name buf nh = NlEvent.stop
      · simp [hok, hs]
      · simp only [hok, hs, if_true, if_false]
        rw [ih _ _ _ _ _ (by rw [nl_handle_registered]; exact h),
          nl_handle_calls_unregistered _ _ h, List.append_nil]
    · simp [hok]

theorem hw_of_update (m n : String) (f : MeloDiscoverInterface → MeloDiscoverInterface)
    (hf : ∀ i, (f i).name = i.name) (l : List MeloDiscoverInterface) :
    hw_of m (iface_update n f l) =
      if m = n then (f ((iface_lookup n l).getD (iface_new n))).hw_address else hw_of m l := by
  unfold hw_of
  rw [iface_lookup_update m n f hf]
  by_cases h : m = n <;> simp [h]

theorem address_of_update (m n : String) (f : MeloDiscoverInterface → MeloDiscoverInterface)
    (hf : ∀ i, (f i).name = i.name) (l : List MeloDiscoverInterface) :
    address_of m (iface_update n f l) =
      if m = n then (f ((iface_lookup n l).getD (iface_new n))).address else address_of m l := by
  unfold address_of
  rw [iface_lookup_update m n f hf]
  by_cases h : m = n <;> simp [h]

theorem lookup_getD_address (n : String) (l : List MeloDiscoverInterface) :
    ((iface_lookup n l).getD (iface_new n)).address = address_of n l := by
  unfold address_of
  cases iface_lookup n l <;> simp [iface_new]

theorem hw_of_handle (n : String) (priv : MeloDiscoverPrivate) (ev : NlEvent) :
    hw_of n (nl_handle priv ev).1.ifaces = (ev.carried_hw n).or (hw_of n priv.ifaces) := by
  rw [nl_handle_ifaces]
  cases ev with
  | newlink m hws =>
    simp only [NlEvent.carried_hw]
    rw [hw_of_update]
    · by_cases h : n = m
      · subst h; simp [lookup_getD_hw]
      · have : ¬ m = n := fun e => h e.symm
        simp [h, this]
    · intro i; rfl
  | newaddr m addrs =>
    simp only [NlEvent.carried_hw, Option.none_or]
    rw [hw_of_update]
    · by_cases h : n = m
      · subst h; simp [lookup_getD_hw]
      · simp [h]
    · intro i; rfl
  | deladdr m =>
    simp only [NlEvent.carried_hw, Option.none_or]
    rw [hw_of_update]
    · by_cases h : n = m
      · subst h; simp [lookup_getD_hw]
      · simp [h]
    · intro i; rfl
  | dellink => simp [NlEvent.carried_hw]
  | stop => simp [NlEvent.carried_hw]
  | other => simp [NlEvent.carried_hw]

theorem address_of_handle (n : String) (priv : MeloDiscoverPrivate) (ev : NlEvent) :
    address_of n (nl_handle priv ev).1.ifaces =
      match ev.set_address n with
      | some a => a
      | none => address_of n priv.ifaces := by
  rw [nl_handle_ifaces]
  cases ev with
  | newlink m hws =>
    simp only [NlEvent.set_address]
    rw [address_of_update]
    · by_cases h : n = m
      · subst h; simp [lookup_getD_address]
      · simp [h]
    · intro i; rfl
  | newaddr m addrs =>
    simp only [NlEvent.set_address]
    rw [address_of_update]
    · by_cases h : n = m
      · subst h
        cases addrs.getLast? <;> simp [lookup_getD_address]
      · have : ¬ m = n := fun e => h e.symm
        simp [h, this]
    · intro i; rfl
  | deladdr m =>
    simp only [NlEvent.set_address]
    rw [address_of_update]
    · by_cases h : n = m
      · subst h; simp
      · have : ¬ m = n := fun e => h e.symm
        simp [h, this]
    · intro i; rfl
  | dellink => simp [NlEvent.set_address]
  | stop => simp [NlEvent.set_address]
  | other => simp [NlEvent.set_address]

theorem lookup_handle_other (n : String) (priv : MeloDiscoverPrivate) (ev : NlEvent)
    (h : ev.names n = false) :
    iface_lookup n (nl_handle priv ev).1.ifaces = iface_lookup n priv.ifaces := by
  rw [nl_handle_ifaces]
  cases ev with
  | newlink m hws =>
    simp only [NlEvent.names, decide_eq_false_iff_not] at h
    have : ¬ n = m := fun e => h e.symm
    simp only []
    rw [iface_lookup_update]
    · simp [this]
    · intro i; rfl
  | newaddr m addrs =>
    simp only [NlEvent.names, decide_eq_false_iff_not] at h
    have : ¬ n = m := fun e => h e.symm
    simp only []
    rw [iface_lookup_update]
    · simp [this]
    · intro i; rfl
  | deladdr m =>
    simp only [NlEvent.names, decide_eq_false_iff_not] at h
    have : ¬ n = m := fun e => h e.symm
    simp only []
    rw [iface_lookup_update]
    · simp [this]
    · intro i; rfl
  | dellink => rfl
  | stop => rfl
  | other => rfl

theorem lookup_isSome_handle (n : String) (priv : MeloDiscoverPrivate) (ev : NlEvent) :
    (iface_lookup n (nl_handle priv ev).1.ifaces).isSome =
      ((iface_lookup n priv.ifaces).isSome || ev.names n) := by
  cases hn : ev.names n with
  | false => rw [lookup_handle_other n priv ev hn]; simp
  | true =>
    rw [nl_handle_ifaces]
    cases ev with
    | newlink m hws =>
      simp only [NlEvent.names, decide_eq_true_eq] at hn
      subst hn
      simp only []
      rw [iface_lookup_update]
      · simp
      · intro i; rfl
    | newaddr m addrs =>
      simp only [NlEvent.names, decide_eq_true_eq] at hn
      subst hn
      simp only []
      rw [iface_lookup_update]
      · simp
      · intro i; rfl
    | deladdr m =>
      simp only [NlEvent.names, decide_eq_true_eq] at hn
      subst hn
      simp only []
      rw [iface_lookup_update]
      · simp
      · intro i; rfl
    | dellink => simp [NlEvent.names] at hn
    | stop => simp [NlEvent.names] at hn
    | other => simp [NlEvent.names] at hn

theorem iface_update_names_suffix (n : String) (f : MeloDiscoverInterface → MeloDiscoverInterface)
    (hf : ∀ i, (f i).name = i.name) (l : List MeloDiscoverInterface) :
    l.map (fun i => i.name) <:+ (iface_update n f l).map (fun i => i.name) := by
  rw [iface_update_names n f hf]
  cases (iface_lookup n l).isSome with
  | true => exact List.suffix_refl _
  | false => exact List.suffix_cons _ _

theorem names_suffix_handle (priv : MeloDiscoverPrivate) (ev : NlEvent) :
    priv.ifaces.map (fun i => i.name) <:+ (nl_handle priv ev).1.ifaces.map (fun i => i.name) := by
  rw [nl_handle_ifaces]
  cases ev with
  | newlink m hws =>
    simp only []
    apply iface_update_names_suffix
    intro i; rfl
  | newaddr m addrs =>
    simp only []
    apply iface_update_names_suffix
    intro i; rfl
  | deladdr m =>
    simp only []
    apply iface_update_names_suffix
    intro i; rfl
  | dellink => exact List.suffix_refl _
  | stop => exact List.suffix_refl _
  | other => exact List.suffix_refl _

theorem nl_fold_cons (priv : MeloDiscoverPrivate) (ev : NlEvent) (evs : List NlEvent) :
    nl_fold priv (ev :: evs) = nl_fold (nl_handle priv ev).1 evs := rfl

theorem last_hw_cons (n : String) (ev : NlEvent) (evs : List NlEvent) (start : Option String) :
    last_hw n (ev :: evs) start = last_hw n evs ((ev.carried_hw n).or start) := by
  unfold last_hw
  rw [List.filterMap_cons]
  cases h : ev.carried_hw n with
  | none => simp
  | some hw =>
    simp only [List.getLast?_cons, Option.or_some]
    cases (List.filterMap (NlEvent.carried_hw n) evs).getLast? <;> simp

theorem last_address_cons (n : String) (ev : NlEvent) (evs : List NlEvent)
    (start : Option String) :
    last_address n (ev :: evs) start =
      last_address n evs (match ev.set_address n with
        | some a => a
        | none => start) := by
  unfold last_address
  rw [List.filterMap_cons]
  cases h : ev.set_address n with
  | none => simp
  | some a =>
    simp only [List.getLast?_cons]
    cases (List.filterMap (NlEvent.set_address n) evs).getLast? <;> simp

theorem nl_fold_registered (priv : MeloDiscoverPrivate) (evs : List NlEvent) :
    (nl_fold priv evs).registered = priv.registered := by
  induction evs generalizing priv with
  | nil => rfl
  | cons ev evs ih => rw [nl_fold_cons, ih, nl_handle_registered]

theorem nl_fold_serial (priv : MeloDiscoverPrivate) (evs : List NlEvent) :
    (nl_fold priv evs).serial = priv.serial := by
  induction evs generalizing priv with
  | nil => rfl
  | cons ev evs ih => rw [nl_fold_cons, ih, nl_handle_serial]

theorem NLMSG_ALIGN_bounds (n : Nat) (h : n + 3 < 2 ^ 32) :
    n ≤ NLMSG_ALIGN n ∧ NLMSG_ALIGN n < n + 4 := by
  unfold NLMSG_ALIGN
  rw [Nat.mod_eq_of_lt h]
  omega

theorem NLMSG_OK_iff (buf : List Nat) (nh : Nat) (len : Int) :
    NLMSG_OK buf nh len = true ↔ 16 ≤ len ∧ 16 ≤ rd32 buf nh ∧ (rd32 buf nh : Int) ≤ len := by
  simp [NLMSG_OK, NLMSG_HDRLEN, and_assoc]

/-- The fuel of the message loop is never exhausted: with a received length of at most the
buffer size, any two amounts of fuel of at least that length give the same result. -/
theorem nl_loop_fuel (nm : Nat → Option String) (buf : List Nat) (fuel fuel2 nh : Nat) (len : Int)
    (name : String) (priv : MeloDiscoverPrivate) (calls : List Call) (hlen : len ≤ 4096)
    (h1 : len.toNat ≤ fuel) (h2 : len.toNat ≤ fuel2) :
    nl_loop nm buf fuel nh len name priv calls =
      nl_loop nm buf fuel2 nh len name priv calls := by
  induction fuel generalizing fuel2 nh len name priv calls with
  | zero =>
    cases fuel2 with
    | zero => rfl
    | succ k =>
      rw [nl_loop_succ]
      have hok : ¬ NLMSG_OK buf nh len = true := by
        rw [NLMSG_OK_iff]; omega
      simp [hok, nl_loop]
  | succ k ih =>
    cases fuel2 with
    | zero =>
      rw [nl_loop_succ]
      have hok : ¬ NLMSG_OK buf nh len = true := by
        rw [NLMSG_OK_iff]; omega
      simp [hok, nl_loop]
    | succ k2 =>
      rw [nl_loop_succ, nl_loop_succ]
      by_cases hok : NLMSG_OK buf nh len = true
      · simp only [hok, if_true]
        by_cases hs : nl_decode nm name buf nh = NlEvent.stop
        · simp [hs]
        · simp only [hs, if_false]
          rw [NLMSG_OK_iff] at hok
          have hb := NLMSG_ALIGN_bounds (rd32 buf nh) (by omega)
          apply ih <;> omega
      · simp [hok]

theorem RTA_OK_iff (buf : List Nat) (ra : Nat) (rlen : Int) :
    RTA_OK buf ra rlen = true ↔ 4 ≤ rlen ∧ 4 ≤ rd16 buf ra ∧ (rd16 buf ra : Int) ≤ rlen := by
  simp [RTA_OK, RTA_HDRLEN, and_assoc]

/-- The fuel of the attribute loop is never exhausted: any two amounts of fuel of at least the
payload length give the same result. -/
theorem rta_loop_fuel (buf : List Nat) (fuel fuel2 ra : Nat) (rlen : Int)
    (h1 : rlen.toNat ≤ fuel) (h2 : rlen.toNat ≤ fuel2) :
    rta_loop buf fuel ra rlen = rta_loop buf fuel2 ra rlen := by
  induction fuel generalizing fuel2 ra rlen with
  | zero =>
    cases fuel2 with
    | zero => rfl
    | succ k =>
      have hok : ¬ (rlen ≠ 0 ∧ RTA_OK buf ra rlen = true) := by
        rw [RTA_OK_iff]; omega
      simp only [rta_loop, hok, if_false]
  | succ k ih =>
    cases fuel2 with
    | zero =>
      have hok : ¬ (rlen ≠ 0 ∧ RTA_OK buf ra rlen = true) := by
        rw [RTA_OK_iff]; omega
      simp only [rta_loop, hok, if_false]
    | succ k2 =>
      by_cases hok : rlen ≠ 0 ∧ RTA_OK buf ra rlen = true
      · simp only [rta_loop, hok, and_self, if_true, ne_eq, not_false_eq_true]
        rw [RTA_OK_iff] at hok
        have hb : rd16 buf ra ≤ RTA_ALIGN (rd16 buf ra) := by unfold RTA_ALIGN; omega
        congr 1
        apply ih <;> omega
      · simp only [rta_loop, hok, if_false]

/-! ## Lemmas on registration -/

theorem register_device_some (env : RegisterEnv) (priv : MeloDiscoverPrivate) (name : String)
    (port : Nat) (ifap : List ifaddrs) (serial : Option String)
    (h1 : env.getifaddrs = some ifap) (h2 : register_serial priv ifap = some serial) :
    melo_discover_register_device env priv name port =
      some (true,
        { priv with serial := serial, ifaces := ifap.foldl register_list_body priv.ifaces },
        Call.send_message (Action.add_device serial name env.g_get_host_name port) env.send_status ::
          Call.queue_message (Action.add_device serial name env.g_get_host_name port) true ::
          (ifap.foldl register_list_body priv.ifaces).flatMap
            (register_sweep_body
              { priv with serial := serial, ifaces := ifap.foldl register_list_body priv.ifaces })) := by
  simp [melo_discover_register_device, h1, h2]

theorem register_device_inv (env : RegisterEnv) (priv : MeloDiscoverPrivate) (name : String)
    (port : Nat) (r : Bool × MeloDiscoverPrivate × List Call)
    (h : melo_discover_register_device env priv name port = some r) :
    (env.getifaddrs = none ∧ r = (false, priv, [])) ∨
    (∃ ifap serial, env.getifaddrs = some ifap ∧ register_serial priv ifap = some serial ∧
      r = (true,
        { priv with serial := serial, ifaces := ifap.foldl register_list_body priv.ifaces },
        Call.send_message (Action.add_device serial name env.g_get_host_name port) env.send_status ::
          Call.queue_message (Action.add_device serial name env.g_get_host_name port) true ::
          (ifap.foldl register_list_body priv.ifaces).flatMap
            (register_sweep_body
              { priv with serial := serial, ifaces := ifap.foldl register_list_body priv.ifaces }))) := by
  cases h1 : env.getifaddrs with
  | none =>
    left
    simp only [melo_discover_register_device, h1, Option.some.injEq] at h
    exact ⟨rfl, h.symm⟩
  | some ifap =>
    right
    cases h2 : register_serial priv ifap with
    | none => simp [melo_discover_register_device, h1, h2] at h
    | some serial =>
      rw [register_device_some env priv name port ifap serial h1 h2, Option.some.injEq] at h
      exact ⟨ifap, serial, rfl, h2, h.symm⟩

theorem register_serial_of_some (priv : MeloDiscoverPrivate) (ifap : List ifaddrs) (s : String)
    (h : priv.serial = some s) : register_serial priv ifap = some (some s) := by
  simp [register_serial, h]

theorem register_device_registered (env : RegisterEnv) (priv : MeloDiscoverPrivate)
    (name : String) (port : Nat) (r : Bool × MeloDiscoverPrivate × List Call)
    (h : melo_discover_register_device env priv name port = some r) :
    r.2.1.registered = priv.registered := by
  rcases register_device_inv env priv name port r h with ⟨_, rfl⟩ | ⟨ifap, serial, _, _, rfl⟩ <;> rfl

theorem sweep_body_eq (priv : MeloDiscoverPrivate) (s : String) (h : priv.serial = some s)
    (i : MeloDiscoverInterface) : register_sweep_body priv i = (sweep_call s i).toList := by
  unfold register_sweep_body sweep_call melo_discover_add_address melo_discover_remove_address
  cases hh : i.hw_address with
  | none => simp
  | some hw =>
    cases ha : i.address with
    | none => simp [h]
    | some a => simp [h]

theorem sweep_eq_filterMap (priv : MeloDiscoverPrivate) (s : String) (h : priv.serial = some s)
    (l : List MeloDiscoverInterface) :
    l.flatMap (register_sweep_body priv) = l.filterMap (sweep_call s) := by
  induction l with
  | nil => rfl
  | cons i l ih =>
    rw [List.flatMap_cons, ih, sweep_body_eq priv s h, List.filterMap_cons]
    cases sweep_call s i <;> simp

theorem sweep_no_serial (priv : MeloDiscoverPrivate) (h : priv.serial = none)
    (l : List MeloDiscoverInterface) : l.flatMap (register_sweep_body priv) = [] := by
  induction l with
  | nil => rfl
  | cons i l ih =>
    rw [List.flatMap_cons, ih]
    unfold register_sweep_body melo_discover_add_address melo_discover_remove_address
    simp [h]

theorem address_calls_sweep (s : String) (l : List MeloDiscoverInterface) :
    address_calls (l.filterMap (sweep_call s)) = l.filterMap (sweep_call s) := by
  unfold address_calls
  rw [List.filter_eq_self]
  intro c hc
  rw [List.mem_filterMap] at hc
  obtain ⟨i, _, hi⟩ := hc
  unfold sweep_call at hi
  cases hh : i.hw_address with
  | none => simp [hh] at hi
  | some hw =>
    cases ha : i.address with
    | none =>
      simp only [hh, ha, Option.some.injEq] at hi
      rw [← hi]; rfl
    | some a =>
      simp only [hh, ha, Option.some.injEq] at hi
      rw [← hi]; rfl

theorem nl_loop_registered (nm : Nat → Option String) (buf : List Nat) (fuel nh : Nat) (len : Int)
    (name : String) (priv : MeloDiscoverPrivate) (calls : List Call) :
    (nl_loop nm buf fuel nh len name priv calls).1.registered = priv.registered := by
  induction fuel generalizing nh len name priv calls with
  | zero => rfl
  | succ k ih =>
    rw [nl_loop_succ]
    by_cases hok : NLMSG_OK buf nh len = true
    · by_cases hs : nl_decode nm name buf nh = NlEvent.stop
      · simp [hok, hs]
      · simp only [hok, hs, if_true, if_false]
        rw [ih, nl_handle_registered]
    · simp [hok]

theorem nl_loop_serial (nm : Nat → Option String) (buf : List Nat) (fuel nh : Nat) (len : Int)
    (name : String) (priv : MeloDiscoverPrivate) (calls : List Call) :
    (nl_loop nm buf fuel nh len name priv calls).1.serial = priv.serial := by
  induction fuel generalizing nh len name priv calls with
  | zero => rfl
  | succ k ih =>
    rw [nl_loop_succ]
    by_cases hok : NLMSG_OK buf nh len = true
    · by_cases hs : nl_decode nm name buf nh = NlEvent.stop
      · simp [hok, hs]
      · simp only [hok, hs, if_true, if_false]
        rw [ih, nl_handle_serial]
    · simp [hok]

theorem nl_handle_calls_no_serial (priv : MeloDiscoverPrivate) (ev : NlEvent)
    (h : priv.serial = none) : (nl_handle priv ev).2 = [] := by
  rw [nl_handle_calls]
  cases ev <;> simp [h, melo_discover_add_address, melo_discover_remove_address]

theorem nl_loop_no_serial (nm : Nat → Option String) (buf : List Nat) (fuel nh : Nat) (len : Int)
    (name : String) (priv : MeloDiscoverPrivate) (calls : List Call) (h : priv.serial = none) :
    (nl_loop nm buf fuel nh len name priv calls).2 = calls := by
  induction fuel generalizing nh len name priv calls with
  | zero => rfl
  | succ k ih =>
    rw [nl_loop_succ]
    by_cases hok : NLMSG_OK buf nh len = true
    · by_cases hs : nl_decode nm name buf nh = NlEvent.stop
      · simp [hok, hs]
      · simp only [hok, hs, if_true, if_false]
        rw [ih _ _ _ _ _ (by rw [nl_handle_serial]; exact h),
          nl_handle_calls_no_serial _ _ h, List.append_nil]
    · simp [hok]

theorem register_list_body_eq (l : List MeloDiscoverInterface) (i : ifaddrs) :
    register_list_body l i =
      match list_write i with
      | none => l
      | some w => table_write w l := by
  unfold register_list_body list_write
  by_cases hl : i.ifa_flags &&& IFF_LOOPBACK ≠ 0
  · simp [hl]
  · cases ha : i.ifa_addr with
    | none => simp [hl]
    | some a =>
      cases a with
      | AF_PACKET sll => simp [hl, table_write, iface_update, FieldWrite.apply]
      | AF_INET sin => simp [hl, table_write, iface_update, FieldWrite.apply]
      | AF_OTHER => simp [hl]

theorem register_list_foldl (ifap : List ifaddrs) (l : List MeloDiscoverInterface) :
    ifap.foldl register_list_body l =
      (ifap.filterMap list_write).foldl (fun l w => table_write w l) l := by
  induction ifap generalizing l with
  | nil => rfl
  | cons i is ih =>
    rw [List.foldl_cons, ih, register_list_body_eq, List.filterMap_cons]
    cases list_write i <;> rfl

/-- Running the enumeration loop of a registration a second time over the same enumeration
changes nothing. -/
theorem register_list_idem (ifap : List ifaddrs) (l : List MeloDiscoverInterface) :
    ifap.foldl register_list_body (ifap.foldl register_list_body l) =
      ifap.foldl register_list_body l := by
  rw [register_list_foldl ifap l, register_list_foldl ifap, foldl_write_idem]

theorem register_serial_again (priv : MeloDiscoverPrivate) (ifap : List ifaddrs)
    (serial : Option String) (registered : Bool) (ifaces : List MeloDiscoverInterface)
    (h : register_serial priv ifap = some serial) :
    register_serial { registered := registered, serial := serial, ifaces := ifaces } ifap =
      some serial := by
  cases serial with
  | some s => rfl
  | none =>
    unfold register_serial at h ⊢
    cases hp : priv.serial with
    | none => rw [hp] at h; exact h
    | some s => rw [hp] at h; simp at h

/-! ## Lemmas on operations -/

theorem melo_netlink_event_serial (nm : Nat → Option String) (name0 : String) (buf : List Nat)
    (len : Int) (priv : MeloDiscoverPrivate) :
    (melo_netlink_event nm name0 buf len priv).2.1.serial = priv.serial := by
  unfold melo_netlink_event
  by_cases hl : len ≤ 0
  · simp [hl]
  · simp only [hl, if_false]
    exact nl_loop_serial nm buf _ _ _ name0 priv []

theorem step_keeps_serial (priv : MeloDiscoverPrivate) (s : String) (h : priv.serial = some s)
    (op : Op) : ∃ p calls, op.step priv = some (p, calls) ∧ p.serial = some s := by
  cases op with
  | register_device env name port =>
    cases h1 : env.getifaddrs with
    | none =>
      refine ⟨priv, [], ?_, h⟩
      simp [Op.step, melo_discover_register_device, h1]
    | some ifap =>
      have h2 := register_serial_of_some priv ifap s h
      simp only [Op.step]
      rw [register_device_some env priv name port ifap (some s) h1 h2]
      exact ⟨_, _, rfl, rfl⟩
  | unregister_device =>
    refine ⟨_, _, rfl, ?_⟩
    simp [melo_discover_unregister_device, h]
  | netlink_event nm name0 buf len =>
    refine ⟨_, _, rfl, ?_⟩
    rw [melo_netlink_event_serial]; exact h
  | register_callback => exact ⟨_, _, rfl, h⟩

theorem run_keeps_serial (priv : MeloDiscoverPrivate) (s : String) (h : priv.serial = some s)
    (ops : List Op) : ∃ p calls, run priv ops = some (p, calls) ∧ p.serial = some s := by
  induction ops generalizing priv with
  | nil => exact ⟨priv, [], rfl, h⟩
  | cons op ops ih =>
    obtain ⟨p1, c1, h1, hs1⟩ := step_keeps_serial priv s h op
    obtain ⟨p2, c2, h2, hs2⟩ := ih p1 hs1
    refine ⟨p2, c1 ++ c2, ?_, hs2⟩
    simp [run, h1, h2]

/-! ## Lemmas on the message walk -/

theorem nl_decode_stop_iff (nm : Nat → Option String) (name : String) (buf : List Nat)
    (nh : Nat) : nl_decode nm name buf nh = NlEvent.stop ↔ nl_is_stop buf nh = true := by
  unfold nl_decode nl_is_stop
  simp only [RTM_NEWLINK, RTM_DELLINK, RTM_NEWADDR, RTM_DELADDR, NLMSG_DONE, NLMSG_ERROR,
    decide_eq_true_eq]
  by_cases h1 : rd16 buf (nh + 4) = 16
  · simp [h1]
  · by_cases h2 : rd16 buf (nh + 4) = 17
    · simp [h2]
    · by_cases h3 : rd16 buf (nh + 4) = 20
      · simp [h3]
      · by_cases h4 : rd16 buf (nh + 4) = 21
        · simp [h4]
        · by_cases h5 : rd16 buf (nh + 4) = 3 ∨ rd16 buf (nh + 4) = 2
          · simp [h1, h2, h3, h4, h5]
          · simp [h1, h2, h3, h4, h5]

theorem nl_run_cons (priv : MeloDiscoverPrivate) (calls : List Call) (ev : NlEvent)
    (evs : List NlEvent) :
    nl_run priv calls (ev :: evs) =
      nl_run (nl_handle priv ev).1 (calls ++ (nl_handle priv ev).2) evs := rfl

theorem nl_run_fst (priv : MeloDiscoverPrivate) (calls : List Call) (evs : List NlEvent) :
    (nl_run priv calls evs).1 = nl_fold priv evs := by
  induction evs generalizing priv calls with
  | nil => rfl
  | cons ev evs ih => rw [nl_run_cons, ih, nl_fold_cons]

theorem nl_steps_zero (buf : List Nat) (nh : Nat) (len : Int) :
    nl_steps buf 0 nh len = if NLMSG_OK buf nh len = true then none else some [] := rfl

theorem nl_steps_succ (buf : List Nat) (fuel nh : Nat) (len : Int) :
    nl_steps buf (fuel + 1) nh len =
      if NLMSG_OK buf nh len = true then
        if nl_is_stop buf nh = true then some [nh]
        else
          (nl_steps buf fuel (nh + NLMSG_ALIGN (rd32 buf nh))
            (len - NLMSG_ALIGN (rd32 buf nh))).map (fun offs => nh :: offs)
      else some [] := rfl

/-- The message loop does what handling the decoded messages of its walk does. -/
theorem nl_loop_eq_run (nm : Nat → Option String) (buf : List Nat) (fuel nh : Nat) (len : Int)
    (name : String) (priv : MeloDiscoverPrivate) (calls : List Call) (offs : List Nat)
    (h : nl_steps buf fuel nh len = some offs) :
    nl_loop nm buf fuel nh len name priv calls =
      nl_run priv calls (nl_events nm name buf offs) := by
  induction fuel generalizing nh len name priv calls offs with
  | zero =>
    rw [nl_steps_zero] at h
    cases hok : NLMSG_OK buf nh len with
    | true => simp [hok] at h
    | false =>
      simp only [hok, Bool.false_eq_true, if_false, Option.some.injEq] at h
      subst h
      rfl
  | succ k ih =>
    rw [nl_loop_succ]
    rw [nl_steps_succ] at h
    cases hok : NLMSG_OK buf nh len with
    | false =>
      simp only [hok, Bool.false_eq_true, if_false, Option.some.injEq] at h ⊢
      subst h
      rfl
    | true =>
      simp only [hok, if_true] at h ⊢
      cases hs : nl_is_stop buf nh with
      | true =>
        simp only [hs, if_true, Option.some.injEq] at h
        subst h
        simp [(nl_decode_stop_iff nm name buf nh).mpr hs, nl_events, hs, nl_run, nl_decode_all]
      | false =>
        simp only [hs, Bool.false_eq_true, if_false, Option.map_eq_some'] at h
        obtain ⟨offs1, h1, h2⟩ := h
        subst h2
        have hd : ¬ nl_decode nm name buf nh = NlEvent.stop := by
          intro e
          rw [nl_decode_stop_iff, hs] at e
          exact Bool.noConfusion e
        simp only [hd, if_false]
        rw [ih _ _ _ _ _ _ h1]
        simp [nl_events, hs, nl_run_cons, nl_decode_all]

theorem nl_steps_terminates (buf : List Nat) (fuel nh : Nat) (len : Int) (hlen : len ≤ 4096)
    (hf : len.toNat / 16 ≤ fuel) :
    ∃ offs, nl_steps buf fuel nh len = some offs ∧ offs.length ≤ len.toNat / 16 := by
  induction fuel generalizing nh len with
  | zero =>
    have hok : ¬ NLMSG_OK buf nh len = true := by rw [NLMSG_OK_iff]; omega
    exact ⟨[], by simp [nl_steps_zero, hok], Nat.zero_le _⟩
  | succ k ih =>
    rw [nl_steps_succ]
    by_cases hok : NLMSG_OK buf nh len = true
    · simp only [hok, if_true]
      rw [NLMSG_OK_iff] at hok
      by_cases hs : nl_is_stop buf nh = true
      · refine ⟨[nh], by simp [hs], ?_⟩
        simp only [List.length_singleton]
        omega
      · have hb := NLMSG_ALIGN_bounds (rd32 buf nh) (by omega)
        obtain ⟨offs, h1, h2⟩ := ih (nh + NLMSG_ALIGN (rd32 buf nh))
          (len - NLMSG_ALIGN (rd32 buf nh)) (by omega) (by omega)
        refine ⟨nh :: offs, by simp [hs, h1], ?_⟩
        simp only [List.length_cons]
        omega
    · exact ⟨[], by simp [hok], Nat.zero_le _⟩

theorem nl_steps_det (buf : List Nat) (f1 f2 nh : Nat) (len : Int) (a b : List Nat)
    (h1 : nl_steps buf f1 nh len = some a) (h2 : nl_steps buf f2 nh len = some b) : a = b := by
  induction f1 generalizing f2 nh len a b with
  | zero =>
    rw [nl_steps_zero] at h1
    cases hok : NLMSG_OK buf nh len with
    | true => simp [hok] at h1
    | false =>
      cases f2 with
      | zero =>
        rw [nl_steps_zero] at h2
        simp only [hok, Bool.false_eq_true, if_false, Option.some.injEq] at h1 h2
        rw [← h1, ← h2]
      | succ k2 =>
        rw [nl_steps_succ] at h2
        simp only [hok, Bool.false_eq_true, if_false, Option.some.injEq] at h1 h2
        rw [← h1, ← h2]
  | succ k ih =>
    rw [nl_steps_succ] at h1
    cases hok : NLMSG_OK buf nh len with
    | false =>
      cases f2 with
      | zero =>
        rw [nl_steps_zero] at h2
        simp only [hok, Bool.false_eq_true, if_false, Option.some.injEq] at h1 h2
        rw [← h1, ← h2]
      | succ k2 =>
        rw [nl_steps_succ] at h2
        simp only [hok, Bool.false_eq_true, if_false, Option.some.injEq] at h1 h2
        rw [← h1, ← h2]
    | true =>
      cases f2 with
      | zero =>
        rw [nl_steps_zero] at h2
        simp [hok] at h2
      | succ k2 =>
        rw [nl_steps_succ] at h2
        simp only [hok, if_true] at h1 h2
        cases hs : nl_is_stop buf nh with
        | true =>
          simp only [hs, if_true, Option.some.injEq] at h1 h2
          rw [← h1, ← h2]
        | false =>
          simp only [hs, Bool.false_eq_true, if_false, Option.map_eq_some'] at h1 h2
          obtain ⟨a1, ha, rfl⟩ := h1
          obtain ⟨b1, hb, rfl⟩ := h2
          rw [ih _ _ _ _ _ ha hb]

theorem nl_steps_accept (buf : List Nat) (fuel nh : Nat) (len : Int) (offs : List Nat)
    (h : nl_steps buf fuel nh len = some offs) :
    ∀ o ∈ offs, nh ≤ o ∧ 16 ≤ rd32 buf o ∧ (o : Int) + rd32 buf o ≤ nh + len := by
  induction fuel generalizing nh len offs with
  | zero =>
    rw [nl_steps_zero] at h
    cases hok : NLMSG_OK buf nh len with
    | true => simp [hok] at h
    | false =>
      simp only [hok, Bool.false_eq_true, if_false, Option.some.injEq] at h
      subst h
      intro o ho
      simp at ho
  | succ k ih =>
    rw [nl_steps_succ] at h
    cases hok : NLMSG_OK buf nh len with
    | false =>
      simp only [hok, Bool.false_eq_true, if_false, Option.some.injEq] at h
      subst h
      intro o ho
      simp at ho
    | true =>
      have hok2 := (NLMSG_OK_iff buf nh len).mp hok
      simp only [hok, if_true] at h
      cases hs : nl_is_stop buf nh with
      | true =>
        simp only [hs, if_true, Option.some.injEq] at h
        subst h
        intro o ho
        simp only [List.mem_singleton] at ho
        subst ho
        omega
      | false =>
        simp only [hs, Bool.false_eq_true, if_false, Option.map_eq_some'] at h
        obtain ⟨offs1, h1, rfl⟩ := h
        intro o ho
        rcases List.mem_cons.mp ho with e | e
        · subst e; omega
        · have := ih _ _ _ h1 o e
          omega

theorem nl_steps_chain (buf : List Nat) (fuel nh : Nat) (len : Int) (offs : List Nat)
    (h : nl_steps buf fuel nh len = some offs) :
    offs.Chain' (fun a b => b = a + NLMSG_ALIGN (rd32 buf a)) ∧
      ∀ o ∈ offs.head?, o = nh := by
  induction fuel generalizing nh len offs with
  | zero =>
    rw [nl_steps_zero] at h
    cases hok : NLMSG_OK buf nh len with
    | true => simp [hok] at h
    | false =>
      simp only [hok, Bool.false_eq_true, if_false, Option.some.injEq] at h
      subst h
      simp
  | succ k ih =>
    rw [nl_steps_succ] at h
    cases hok : NLMSG_OK buf nh len with
    | false =>
      simp only [hok, Bool.false_eq_true, if_false, Option.some.injEq] at h
      subst h
      simp
    | true =>
      simp only [hok, if_true] at h
      cases hs : nl_is_stop buf nh with
      | true =>
        simp only [hs, if_true, Option.some.injEq] at h
        subst h
        simp
      | false =>
        simp only [hs, Bool.false_eq_true, if_false, Option.map_eq_some'] at h
        obtain ⟨offs1, h1, rfl⟩ := h
        obtain ⟨hc, hh⟩ := ih _ _ _ h1
        refine ⟨?_, by simp⟩
        rw [List.chain'_cons']
        exact ⟨hh, hc⟩

/-! ## Lemmas on message frames -/

theorem rd8_shift (pre l : List Nat) (i : Nat) : rd8 (pre ++ l) (pre.length + i) = rd8 l i := by
  simp [rd8, List.getD_eq_getElem?_getD, List.getElem?_append_right]

theorem rd8_prefix (l r : List Nat) (i : Nat) (h : i < l.length) : rd8 (l ++ r) i = rd8 l i := by
  simp [rd8, List.getD_eq_getElem?_getD, List.getElem?_append_left h]

theorem rd16_shift (pre l : List Nat) (i : Nat) :
    rd16 (pre ++ l) (pre.length + i) = rd16 l i := by
  simp only [rd16, Nat.add_assoc, rd8_shift]

theorem rd16_prefix (l r : List Nat) (i : Nat) (h : i + 1 < l.length) :
    rd16 (l ++ r) i = rd16 l i := by
  simp only [rd16, rd8_prefix l r i (by omega), rd8_prefix l r (i + 1) h]

theorem rd32_shift (pre l : List Nat) (i : Nat) :
    rd32 (pre ++ l) (pre.length + i) = rd32 l i := by
  simp only [rd32, Nat.add_assoc, rd16_shift]

theorem rd32_prefix (l r : List Nat) (i : Nat) (h : i + 3 < l.length) :
    rd32 (l ++ r) i = rd32 l i := by
  simp only [rd32, rd16_prefix l r i (by omega), rd16_prefix l r (i + 2) (by omega)]

theorem nl_frame_iff (m : List Nat) :
    nl_frame m = true ↔
      16 ≤ rd32 m 0 ∧ rd32 m 0 ≤ m.length ∧ m.length = NLMSG_ALIGN (rd32 m 0) := by
  simp [nl_frame, NLMSG_HDRLEN, and_assoc]

theorem rd32_frame (pre m rest : List Nat) (h : 16 ≤ m.length) :
    rd32 (pre ++ (m ++ rest)) pre.length = rd32 m 0 := by
  have := rd32_shift pre (m ++ rest) 0
  rw [Nat.add_zero] at this
  rw [this, rd32_prefix m rest 0 (by omega)]

theorem nl_is_stop_frame (pre m rest : List Nat) (h : 16 ≤ m.length) :
    nl_is_stop (pre ++ (m ++ rest)) pre.length = nl_is_stop m 0 := by
  unfold nl_is_stop
  rw [rd16_shift, rd16_prefix m rest 4 (by omega)]

theorem frame_offsets_length (off : Nat) (frames : List (List Nat)) :
    (frame_offsets off frames).length = frames.length := by
  induction frames generalizing off with
  | nil => rfl
  | cons m ms ih => simp [frame_offsets, ih]

/-- The walk over frames laid back to back after a prefix, followed by a tail of which `tlen`
bytes were received and whose own walk is known: the frame offsets first, then the offsets of
the tail. -/
theorem nl_steps_frames (frames : List (List Nat)) (tail : List Nat) (tlen : Nat)
    (toffs : Nat → List Nat) (tf : Nat)
    (hfr : ∀ m ∈ frames, nl_frame m = true ∧ nl_is_stop m 0 = false)
    (htail : ∀ (pre : List Nat) (fuel : Nat), tf ≤ fuel →
      nl_steps (pre ++ tail) fuel pre.length (tlen : Nat) = some (toffs pre.length))
    (pre : List Nat) (fuel : Nat) (hf : frames.length + tf ≤ fuel) :
    nl_steps (pre ++ (frames.flatten ++ tail)) fuel pre.length
        ((frames.flatten.length + tlen : Nat) : Int) =
      some (frame_offsets pre.length frames ++ toffs (pre.length + frames.flatten.length)) := by
  induction frames generalizing pre fuel with
  | nil =>
    simp only [List.flatten_nil, List.nil_append, frame_offsets, List.length_nil, Nat.add_zero,
      Nat.zero_add]
    exact htail pre fuel (by simpa using hf)
  | cons m ms ih =>
    obtain ⟨hm, hns⟩ := hfr m (List.mem_cons_self _ _)
    obtain ⟨h16, hle, hal⟩ := (nl_frame_iff m).mp hm
    have hm16 : 16 ≤ m.length := le_trans h16 hle
    cases fuel with
    | zero => simp at hf
    | succ k =>
      have hbuf : pre ++ ((m :: ms).flatten ++ tail) = pre ++ (m ++ (ms.flatten ++ tail)) := by
        simp [List.append_assoc]
      have hbuf2 : pre ++ (m ++ (ms.flatten ++ tail)) = (pre ++ m) ++ (ms.flatten ++ tail) := by
        simp [List.append_assoc]
      have hlen : (m :: ms).flatten.length + tlen = m.length + (ms.flatten.length + tlen) := by
        simp [Nat.add_assoc]
      rw [hbuf, hlen, nl_steps_succ, rd32_frame pre m _ hm16, nl_is_stop_frame pre m _ hm16, hns]
      have hok : NLMSG_OK (pre ++ (m ++ (ms.flatten ++ tail))) pre.length
          ((m.length + (ms.flatten.length + tlen) : Nat) : Int) = true := by
        rw [NLMSG_OK_iff, rd32_frame pre m _ hm16]
        omega
      simp only [hok, if_true, Bool.false_eq_true, if_false]
      have hnext : ((m.length + (ms.flatten.length + tlen) : Nat) : Int) -
          (NLMSG_ALIGN (rd32 m 0) : Nat) = ((ms.flatten.length + tlen : Nat) : Int) := by
        rw [← hal]; omega
      have hoff : pre.length + NLMSG_ALIGN (rd32 m 0) = (pre ++ m).length := by
        rw [← hal, List.length_append]
      rw [hnext, hoff, hbuf2,
        ih (fun x hx => hfr x (List.mem_cons_of_mem _ hx)) (pre ++ m) k (by simp at hf; omega)]
      simp [frame_offsets, Nat.add_assoc]

theorem frames_not_stop (frames : List (List Nat)) (tail : List Nat)
    (hfr : ∀ m ∈ frames, nl_frame m = true ∧ nl_is_stop m 0 = false) (pre : List Nat) :
    ∀ o ∈ frame_offsets pre.length frames,
      nl_is_stop (pre ++ (frames.flatten ++ tail)) o = false := by
  induction frames generalizing pre with
  | nil => intro o ho; simp [frame_offsets] at ho
  | cons m ms ih =>
    obtain ⟨hm, hns⟩ := hfr m (List.mem_cons_self _ _)
    obtain ⟨h16, hle, _⟩ := (nl_frame_iff m).mp hm
    have hm16 : 16 ≤ m.length := le_trans h16 hle
    have hbuf : pre ++ ((m :: ms).flatten ++ tail) = pre ++ (m ++ (ms.flatten ++ tail)) := by
      simp [List.append_assoc]
    have hbuf2 : pre ++ (m ++ (ms.flatten ++ tail)) = (pre ++ m) ++ (ms.flatten ++ tail) := by
      simp [List.append_assoc]
    intro o ho
    simp only [frame_offsets, List.mem_cons] at ho
    rcases ho with e | e
    · subst e
      rw [hbuf, nl_is_stop_frame pre m _ hm16, hns]
    · rw [hbuf, hbuf2]
      apply ih (fun x hx => hfr x (List.mem_cons_of_mem _ hx)) (pre ++ m)
      rw [List.length_append]
      exact e

theorem nl_steps_short (tail : List Nat) (h : tail.length < 16) (pre : List Nat) (fuel : Nat) :
    nl_steps (pre ++ tail) fuel pre.length (tail.length : Nat) = some [] := by
  have hok : ¬ NLMSG_OK (pre ++ tail) pre.length (tail.length : Nat) = true := by
    rw [NLMSG_OK_iff]; omega
  cases fuel with
  | zero => simp [nl_steps_zero, hok]
  | succ k => simp [nl_steps_succ, hok]

theorem frames_length_le (frames : List (List Nat)) (hfr : ∀ m ∈ frames, nl_frame m = true) :
    16 * frames.length ≤ frames.flatten.length := by
  induction frames with
  | nil => simp
  | cons m ms ih =>
    obtain ⟨h16, hle, _⟩ := (nl_frame_iff m).mp (hfr m (List.mem_cons_self _ _))
    have := ih (fun x hx => hfr x (List.mem_cons_of_mem _ hx))
    simp only [List.flatten_cons, List.length_append, List.length_cons]
    omega

/-- The handler on a buffer of well-formed frames, none of which leaves the loop, followed by
fewer than 16 more bytes. -/
theorem netlink_event_frames (nm : Nat → Option String) (name0 : String)
    (priv : MeloDiscoverPrivate) (frames : List (List Nat)) (trailing : List Nat)
    (hfr : ∀ m ∈ frames, nl_frame m = true ∧ nl_is_stop m 0 = false)
    (htr : trailing.length < 16) :
    (∀ fuel, frames.length ≤ fuel →
      nl_steps (frames.flatten ++ trailing) fuel 0 ((frames.flatten ++ trailing).length : Nat) =
        some (frame_offsets 0 frames)) ∧
    (melo_netlink_event nm name0 (frames.flatten ++ trailing)
        ((frames.flatten ++ trailing).length : Nat) priv).2 =
      nl_run priv []
        (nl_decode_all nm (frames.flatten ++ trailing) name0 (frame_offsets 0 frames)) := by
  have hsteps : ∀ fuel, frames.length ≤ fuel →
      nl_steps (frames.flatten ++ trailing) fuel 0 ((frames.flatten ++ trailing).length : Nat) =
        some (frame_offsets 0 frames) := by
    intro fuel hf
    have := nl_steps_frames frames trailing trailing.length (fun _ => []) 0 hfr
      (fun pre fuel _ => nl_steps_short trailing htr pre fuel) [] fuel (by simpa using hf)
    rw [List.length_append]
    simpa using this
  refine ⟨hsteps, ?_⟩
  have hev : nl_events nm name0 (frames.flatten ++ trailing) (frame_offsets 0 frames) =
      nl_decode_all nm (frames.flatten ++ trailing) name0 (frame_offsets 0 frames) := by
    unfold nl_events
    congr 1
    rw [List.filter_eq_self]
    intro o ho
    have := frames_not_stop frames trailing hfr [] o (by simpa using ho)
    simp only [List.nil_append] at this
    simp [this]
  have hlen := frames_length_le frames (fun m hm => (hfr m hm).1)
  unfold melo_netlink_event
  by_cases hl : ((frames.flatten ++ trailing).length : Int) ≤ 0
  · have h0 : frames.length = 0 := by
      simp only [List.length_append] at hl
      omega
    have : frames = [] := List.length_eq_zero.mp h0
    rw [if_pos hl]
    subst this
    simp [frame_offsets, nl_run, nl_decode_all]
  · simp only [hl, if_false]
    rw [nl_loop_eq_run nm _ _ 0 _ name0 priv [] _
      (hsteps _ (by simp only [Int.toNat_ofNat, List.length_append]; omega)), hev]

theorem nl_decode_msg_newaddr_eth0 (name : String) (g : List Nat) :
    nl_decode ifname_eth0 name (msg_newaddr_eth0 ++ g) 0 =
      NlEvent.newaddr "eth0" ["192.168.1.10"] := by
  have h1 : rd32 (msg_newaddr_eth0 ++ g) 0 = 32 := rfl
  have h2 : rd16 (msg_newaddr_eth0 ++ g) 4 = 20 := rfl
  have h3 : rd32 (msg_newaddr_eth0 ++ g) 20 = 2 := rfl
  have h4 : rta_loop (msg_newaddr_eth0 ++ g) 8 24 8 = [(2, 28)] := by
    simp [rta_loop, RTA_OK, RTA_HDRLEN, RTA_ALIGN, rd16, rd8, msg_newaddr_eth0]
  have h5 : (msg_newaddr_eth0 ++ g).drop 28 = 192 :: 168 :: 1 :: 10 :: g := rfl
  have h6 : melo_discover_get_address (192 :: 168 :: 1 :: 10 :: g) = "192.168.1.10" := by
    simp only [melo_discover_get_address, List.getD_cons_zero, List.getD_cons_succ]
    decide
  have h7 : name_after_lookup ifname_eth0 name 2 = "eth0" := rfl
  simp [nl_decode, NLMSG_HDRLEN, h1, h2, h3, h4, h5, h6, h7, RTM_NEWLINK, RTM_DELLINK,
    RTM_NEWADDR, IFA_LOCAL]

theorem nl_steps_few (buf : List Nat) (fuel nh tlen : Nat) (h : tlen < 16) :
    nl_steps buf fuel nh (tlen : Nat) = some [] := by
  have hok : ¬ NLMSG_OK buf nh (tlen : Nat) = true := by
    rw [NLMSG_OK_iff]; omega
  cases fuel with
  | zero => simp [nl_steps_zero, hok]
  | succ k => simp [nl_steps_succ, hok]

theorem nl_steps_marker (marker rest : List Nat) (hmk : nl_frame marker = true)
    (hst : nl_is_stop marker 0 = true) (pre : List Nat) (fuel : Nat) (hf : 1 ≤ fuel) :
    nl_steps (pre ++ (marker ++ rest)) fuel pre.length ((marker ++ rest).length : Nat) =
      some [pre.length] := by
  obtain ⟨h16, hle, _⟩ := (nl_frame_iff marker).mp hmk
  have hm16 : 16 ≤ marker.length := le_trans h16 hle
  cases fuel with
  | zero => simp at hf
  | succ k =>
    have hok : NLMSG_OK (pre ++ (marker ++ rest)) pre.length
        ((marker ++ rest).length : Nat) = true := by
      rw [NLMSG_OK_iff, rd32_frame pre marker _ hm16, List.length_append]
      omega
    rw [nl_steps_succ, nl_is_stop_frame pre marker _ hm16, hst, if_pos hok, if_pos rfl]

/-- The handler on a buffer of well-formed frames followed by a `NLMSG_DONE` or `NLMSG_ERROR`
frame and anything after it. -/
theorem netlink_event_marker (nm : Nat → Option String) (name0 : String)
    (priv : MeloDiscoverPrivate) (frames : List (List Nat)) (marker rest : List Nat)
    (hfr : ∀ m ∈ frames, nl_frame m = true ∧ nl_is_stop m 0 = false)
    (hmk : nl_frame marker = true) (hst : nl_is_stop marker 0 = true) :
    (∀ fuel, frames.length + 1 ≤ fuel →
      nl_steps (frames.flatten ++ (marker ++ rest)) fuel 0
          ((frames.flatten ++ (marker ++ rest)).length : Nat) =
        some (frame_offsets 0 frames ++ [frames.flatten.length])) ∧
    (melo_netlink_event nm name0 (frames.flatten ++ (marker ++ rest))
        ((frames.flatten ++ (marker ++ rest)).length : Nat) priv).2 =
      nl_run priv []
        (nl_decode_all nm (frames.flatten ++ (marker ++ rest)) name0 (frame_offsets 0 frames)) := by
  obtain ⟨h16, hle, _⟩ := (nl_frame_iff marker).mp hmk
  have hm16 : 16 ≤ marker.length := le_trans h16 hle
  have hsteps : ∀ fuel, frames.length + 1 ≤ fuel →
      nl_steps (frames.flatten ++ (marker ++ rest)) fuel 0
          ((frames.flatten ++ (marker ++ rest)).length : Nat) =
        some (frame_offsets 0 frames ++ [frames.flatten.length]) := by
    intro fuel hf
    have := nl_steps_frames frames (marker ++ rest) (marker ++ rest).length (fun o => [o]) 1 hfr
      (fun pre fuel h => nl_steps_marker marker rest hmk hst pre fuel h) [] fuel hf
    rw [List.length_append]
    simpa using this
  refine ⟨hsteps, ?_⟩
  have hstop : nl_is_stop (frames.flatten ++ (marker ++ rest)) frames.flatten.length = true := by
    rw [nl_is_stop_frame frames.flatten marker rest hm16, hst]
  have hev : nl_events nm name0 (frames.flatten ++ (marker ++ rest))
      (frame_offsets 0 frames ++ [frames.flatten.length]) =
      nl_decode_all nm (frames.flatten ++ (marker ++ rest)) name0 (frame_offsets 0 frames) := by
    unfold nl_events
    rw [List.filter_append]
    have hA : (frame_offsets 0 frames).filter
        (fun o => !nl_is_stop (frames.flatten ++ (marker ++ rest)) o) = frame_offsets 0 frames := by
      rw [List.filter_eq_self]
      intro o ho
      have := frames_not_stop frames (marker ++ rest) hfr [] o (by simpa using ho)
      simp only [List.nil_append] at this
      simp [this]
    have hB : [frames.flatten.length].filter
        (fun o => !nl_is_stop (frames.flatten ++ (marker ++ rest)) o) = [] := by
      simp only [List.filter_cons, hstop, Bool.not_true, Bool.false_eq_true, if_false,
        List.filter_nil]
    rw [hA, hB, List.append_nil]
  have hlen := frames_length_le frames (fun m hm => (hfr m hm).1)
  unfold melo_netlink_event
  have hl : ¬ ((frames.flatten ++ (marker ++ rest)).length : Int) ≤ 0 := by
    simp only [List.length_append]; omega
  rw [if_neg hl]
  simp only
  rw [nl_loop_eq_run nm _ _ 0 _ name0 priv [] _
    (hsteps _ (by simp only [Int.toNat_ofNat, List.length_append]; omega)), hev]

/-- The handler on a buffer that starts with well-formed frames, when the received length ends
with the last of them. -/
theorem netlink_event_cut (nm : Nat → Option String) (name0 : String)
    (priv : MeloDiscoverPrivate) (frames : List (List Nat)) (tail : List Nat)
    (hfr : ∀ m ∈ frames, nl_frame m = true ∧ nl_is_stop m 0 = false) :
    (melo_netlink_event nm name0 (frames.flatten ++ tail) (frames.flatten.length : Nat) priv).2 =
      nl_run priv [] (nl_decode_all nm (frames.flatten ++ tail) name0 (frame_offsets 0 frames)) := by
  have hsteps : ∀ fuel, frames.length ≤ fuel →
      nl_steps (frames.flatten ++ tail) fuel 0 (frames.flatten.length : Nat) =
        some (frame_offsets 0 frames) := by
    intro fuel hf
    have := nl_steps_frames frames tail 0 (fun _ => []) 0 hfr
      (fun pre fuel _ => nl_steps_few (pre ++ tail) fuel pre.length 0 (by decide)) [] fuel
      (by simpa using hf)
    simpa using this
  have hev : nl_events nm name0 (frames.flatten ++ tail) (frame_offsets 0 frames) =
      nl_decode_all nm (frames.flatten ++ tail) name0 (frame_offsets 0 frames) := by
    unfold nl_events
    congr 1
    rw [List.filter_eq_self]
    intro o ho
    have := frames_not_stop frames tail hfr [] o (by simpa using ho)
    simp only [List.nil_append] at this
    simp [this]
  have hlen := frames_length_le frames (fun m hm => (hfr m hm).1)
  unfold melo_netlink_event
  by_cases hl : ((frames.flatten.length : Nat) : Int) ≤ 0
  · have h0 : frames.length = 0 := by omega
    have : frames = [] := List.length_eq_zero.mp h0
    rw [if_pos hl]
    subst this
    simp [frame_offsets, nl_run, nl_decode_all]
  · rw [if_neg hl]
    simp only
    rw [nl_loop_eq_run nm _ _ 0 _ name0 priv [] _
      (hsteps _ (by simp only [Int.toNat_ofNat]; omega)), hev]

/-! ## Lemmas on the enumeration loop -/

theorem getLast?_filterMap_cons_or {α β : Type} (f : α → Option β) (a : α) (l : List α)
    (x : Option β) :
    ((a :: l).filterMap f).getLast?.or x = (l.filterMap f).getLast?.or ((f a).or x) := by
  rw [List.filterMap_cons]
  cases h : f a with
  | none => simp
  | some b =>
    simp only [List.getLast?_cons, Option.or_some]
    cases (List.filterMap f l).getLast? <;> simp

theorem get_hw_address_eq (addr : List Nat) :
    melo_discover_get_hw_address addr = colon_hex addr := by
  have hd : ∀ n < 16, hex_digit n = Nat.digitChar n := by decide
  have e : ∀ b : Nat, fmt_02x b = (two_hex (b % 256)).data := by
    intro b
    simp only [fmt_02x, two_hex]
    rw [hd _ (by omega), hd _ (by omega), Nat.mod_mod_of_dvd b (by decide : 16 ∣ 256)]
  apply String.ext
  simp [melo_discover_get_hw_address, colon_hex, List.range, List.range.loop, String.intercalate,
    String.intercalate.go, e]

theorem get_address_eq (addr : List Nat) : melo_discover_get_address addr = dotted_quad addr := by
  simp [melo_discover_get_address, dotted_quad, List.range, List.range.loop, String.intercalate,
    String.intercalate.go]
  rfl

theorem hw_of_list_body (n : String) (l : List MeloDiscoverInterface) (i : ifaddrs) :
    hw_of n (register_list_body l i) = (i.hw_for n).or (hw_of n l) := by
  rw [register_list_body_eq]
  unfold list_write ifaddrs.hw_for ifaddrs.is_loopback
  simp only [get_hw_address_eq, get_address_eq]
  by_cases hl : i.ifa_flags &&& IFF_LOOPBACK ≠ 0
  · simp [hl]
  · cases ha : i.ifa_addr with
    | none => simp [hl]
    | some a =>
      cases a with
      | AF_PACKET sll =>
        simp only [hl, if_false, table_write]
        rw [hw_of_update _ _ _ (FieldWrite.apply_name _)]
        by_cases hn : n = i.ifa_name
        · subst hn; simp [FieldWrite.apply, hl]
        · have : ¬ i.ifa_name = n := fun e => hn e.symm
          simp [hn, this]
      | AF_INET sin =>
        simp only [hl, if_false, table_write]
        rw [hw_of_update _ _ _ (FieldWrite.apply_name _)]
        by_cases hn : n = i.ifa_name
        · subst hn; simp [FieldWrite.apply, lookup_getD_hw]
        · simp [hn]
      | AF_OTHER => simp [hl]

theorem address_of_list_body (n : String) (l : List MeloDiscoverInterface) (i : ifaddrs) :
    address_of n (register_list_body l i) = (i.address_for n).or (address_of n l) := by
  rw [register_list_body_eq]
  unfold list_write ifaddrs.address_for ifaddrs.is_loopback
  simp only [get_hw_address_eq, get_address_eq]
  by_cases hl : i.ifa_flags &&& IFF_LOOPBACK ≠ 0
  · simp [hl]
  · cases ha : i.ifa_addr with
    | none => simp [hl]
    | some a =>
      cases a with
      | AF_PACKET sll =>
        simp only [hl, if_false, table_write]
        rw [address_of_update _ _ _ (FieldWrite.apply_name _)]
        by_cases hn : n = i.ifa_name
        · subst hn; simp [FieldWrite.apply, lookup_getD_address]
        · simp [hn]
      | AF_INET sin =>
        simp only [hl, if_false, table_write]
        rw [address_of_update _ _ _ (FieldWrite.apply_name _)]
        by_cases hn : n = i.ifa_name
        · subst hn; simp [FieldWrite.apply, hl]
        · have : ¬ i.ifa_name = n := fun e => hn e.symm
          simp [hn, this]
      | AF_OTHER => simp [hl]

theorem hw_of_list_foldl (n : String) (ifap : List ifaddrs) (l : List MeloDiscoverInterface) :
    hw_of n (ifap.foldl register_list_body l) =
      (ifap.filterMap (ifaddrs.hw_for n)).getLast?.or (hw_of n l) := by
  induction ifap generalizing l with
  | nil => simp
  | cons i is ih => rw [List.foldl_cons, ih, hw_of_list_body, getLast?_filterMap_cons_or]

theorem address_of_list_foldl (n : String) (ifap : List ifaddrs)
    (l : List MeloDiscoverInterface) :
    address_of n (ifap.foldl register_list_body l) =
      (ifap.filterMap (ifaddrs.address_for n)).getLast?.or (address_of n l) := by
  induction ifap generalizing l with
  | nil => simp
  | cons i is ih => rw [List.foldl_cons, ih, address_of_list_body, getLast?_filterMap_cons_or]

theorem list_body_loopback (l : List MeloDiscoverInterface) (i : ifaddrs)
    (h : i.is_loopback = true) : register_list_body l i = l := by
  unfold ifaddrs.is_loopback at h
  simp only [decide_eq_true_eq] at h
  simp [register_list_body, h]

theorem list_foldl_filter_loopback (ifap : List ifaddrs) (l : List MeloDiscoverInterface) :
    ifap.foldl register_list_body l =
      (ifap.filter (fun i => !i.is_loopback)).foldl register_list_body l := by
  induction ifap generalizing l with
  | nil => rfl
  | cons i is ih =>
    rw [List.foldl_cons, List.filter_cons]
    cases h : i.is_loopback with
    | true => simp only [Bool.not_true, Bool.false_eq_true, if_false]; rw [list_body_loopback l i h, ih]
    | false => simp only [Bool.not_false, if_true, List.foldl_cons]; rw [ih]

/-! ## Lemmas on the uniqueness of names -/

theorem interface_get_found (l : List MeloDiscoverInterface) (n : String)
    (r : MeloDiscoverInterface) (h : iface_lookup n l = some r) :
    r.name = n ∧ (melo_discover_interface_get l n).2.1 = r ∧
      iface_plug (melo_discover_interface_get l n) = l := by
  refine ⟨iface_lookup_name n l r h, ?_⟩
  unfold iface_lookup at h
  rw [Option.map_eq_some'] at h
  obtain ⟨z, hz, hr⟩ := h
  have hp := (iface_find_plug n l z hz).1
  unfold melo_discover_interface_get iface_plug
  rw [hz]
  exact ⟨hr, hp.symm⟩

theorem interface_get_absent (l : List MeloDiscoverInterface) (n : String)
    (h : iface_lookup n l = none) :
    (melo_discover_interface_get l n).2.1 = iface_new n ∧
      iface_plug (melo_discover_interface_get l n) = iface_new n :: l := by
  unfold iface_lookup at h
  rw [Option.map_eq_none'] at h
  unfold melo_discover_interface_get iface_plug
  rw [h]
  exact ⟨rfl, rfl⟩

theorem iface_update_nodup (n : String) (f : MeloDiscoverInterface → MeloDiscoverInterface)
    (hf : ∀ i, (f i).name = i.name) (l : List MeloDiscoverInterface)
    (h : (l.map (fun i => i.name)).Nodup) :
    ((iface_update n f l).map (fun i => i.name)).Nodup := by
  rw [iface_update_names n f hf]
  cases hs : (iface_lookup n l).isSome with
  | true => simpa using h
  | false =>
    simp only [Bool.false_eq_true, if_false, List.nodup_cons]
    refine ⟨?_, h⟩
    intro hm
    rw [← iface_lookup_isSome_iff, hs] at hm
    exact Bool.noConfusion hm

theorem nl_handle_nodup (priv : MeloDiscoverPrivate) (ev : NlEvent)
    (h : (priv.ifaces.map (fun i => i.name)).Nodup) :
    ((nl_handle priv ev).1.ifaces.map (fun i => i.name)).Nodup := by
  rw [nl_handle_ifaces]
  cases ev with
  | newlink n hws =>
    simp only []
    apply iface_update_nodup _ _ _ _ h
    intro i; rfl
  | newaddr n addrs =>
    simp only []
    apply iface_update_nodup _ _ _ _ h
    intro i; rfl
  | deladdr n =>
    simp only []
    apply iface_update_nodup _ _ _ _ h
    intro i; rfl
  | dellink => exact h
  | stop => exact h
  | other => exact h

theorem nl_loop_nodup (nm : Nat → Option String) (buf : List Nat) (fuel nh : Nat) (len : Int)
    (name : String) (priv : MeloDiscoverPrivate) (calls : List Call)
    (h : (priv.ifaces.map (fun i => i.name)).Nodup) :
    ((nl_loop nm buf fuel nh len name priv calls).1.ifaces.map (fun i => i.name)).Nodup := by
  induction fuel generalizing nh len name priv calls with
  | zero => exact h
  | succ k ih =>
    rw [nl_loop_succ]
    by_cases hok : NLMSG_OK buf nh len = true
    · by_cases hs : nl_decode nm name buf nh = NlEvent.stop
      · simpa [hok, hs] using h
      · simp only [hok, hs, if_true, if_false]
        exact ih _ _ _ _ _ (nl_handle_nodup priv _ h)
    · simpa [hok] using h

theorem list_foldl_nodup (ifap : List ifaddrs) (l : List MeloDiscoverInterface)
    (h : (l.map (fun i => i.name)).Nodup) :
    ((ifap.foldl register_list_body l).map (fun i => i.name)).Nodup := by
  induction ifap generalizing l with
  | nil => exact h
  | cons i is ih =>
    rw [List.foldl_cons]
    apply ih
    rw [register_list_body_eq]
    cases list_write i with
    | none => exact h
    | some w => exact iface_update_nodup w.1 w.2.apply w.2.apply_name l h

theorem step_nodup (priv : MeloDiscoverPrivate) (op : Op) (p : MeloDiscoverPrivate)
    (calls : List Call) (h : (priv.ifaces.map (fun i => i.name)).Nodup)
    (hs : op.step priv = some (p, calls)) : (p.ifaces.map (fun i => i.name)).Nodup := by
  cases op with
  | register_device env name port =>
    simp only [Op.step, Option.map_eq_some'] at hs
    obtain ⟨r, hr, he⟩ := hs
    rcases register_device_inv env priv name port r hr with ⟨_, rfl⟩ | ⟨ifap, serial, _, _, rfl⟩
    · simp only [Prod.mk.injEq] at he
      rw [← he.1]; exact h
    · simp only [Prod.mk.injEq] at he
      rw [← he.1]
      exact list_foldl_nodup ifap priv.ifaces h
  | unregister_device =>
    simp only [Op.step, Option.some.injEq] at hs
    have : p = (melo_discover_unregister_device priv).2.1 := by rw [hs]
    rw [this]
    unfold melo_discover_unregister_device
    cases priv.serial <;> exact h
  | netlink_event nm name0 buf len =>
    simp only [Op.step, Option.some.injEq] at hs
    have : p = (melo_netlink_event nm name0 buf len priv).2.1 := by rw [hs]
    rw [this]
    unfold melo_netlink_event
    by_cases hl : len ≤ 0
    · simpa [hl] using h
    · simp only [hl, if_false]
      exact nl_loop_nodup nm buf _ _ _ name0 priv [] h
  | register_callback =>
    simp only [Op.step, Option.some.injEq, Prod.mk.injEq] at hs
    rw [← hs.1]; exact h

theorem run_nodup (priv : MeloDiscoverPrivate) (ops : List Op) (p : MeloDiscoverPrivate)
    (calls : List Call) (h : (priv.ifaces.map (fun i => i.name)).Nodup)
    (hr : run priv ops = some (p, calls)) : (p.ifaces.map (fun i => i.name)).Nodup := by
  induction ops generalizing priv calls with
  | nil =>
    simp only [run, Option.some.injEq, Prod.mk.injEq] at hr
    rw [← hr.1]; exact h
  | cons op ops ih =>
    unfold run at hr
    cases h1 : op.step priv with
    | none => simp [h1] at hr
    | some x =>
      obtain ⟨p1, c1⟩ := x
      simp only [h1] at hr
      cases h2 : run p1 ops with
      | none => simp [h2] at hr
      | some y =>
        obtain ⟨p2, c2⟩ := y
        simp only [h2, Option.some.injEq, Prod.mk.injEq] at hr
        obtain ⟨hp, _⟩ := hr
        subst hp
        exact ih p1 c2 (step_nodup priv op p1 c1 h h1) h2

/-! ## Lemmas on the serial -/

/-- When the serial lookup returns, it returns the rendering of the first node that has a
link-layer address and is not flagged loopback, and `NULL` if there is none. -/
theorem get_serial_eq (ifap : List ifaddrs) (x : Option String)
    (h : melo_discover_get_serial ifap = some x) :
    x = (ifap.find? ifaddrs.is_hw).bind ifaddrs.hw_rendering := by
  induction ifap with
  | nil =>
    simp only [melo_discover_get_serial, Option.some.injEq] at h
    rw [← h]; rfl
  | cons i is ih =>
    unfold melo_discover_get_serial at h
    cases ha : i.ifa_addr with
    | none => simp [ha] at h
    | some a =>
      cases a with
      | AF_PACKET sll =>
        simp only [ha] at h
        by_cases hl : i.ifa_flags &&& IFF_LOOPBACK = 0
        · simp only [hl, if_true, Option.some.injEq] at h
          have hw : i.is_hw = true := by simp [ifaddrs.is_hw, ha, ifaddrs.is_loopback, hl]
          rw [List.find?_cons, hw, ← h]
          simp [ifaddrs.hw_rendering, ha]
        · simp only [hl, if_false] at h
          have hw : i.is_hw = false := by simp [ifaddrs.is_hw, ha, ifaddrs.is_loopback, hl]
          rw [List.find?_cons, hw]
          exact ih h
      | AF_INET sin =>
        simp only [ha] at h
        have hw : i.is_hw = false := by simp [ifaddrs.is_hw, ha]
        rw [List.find?_cons, hw]
        exact ih h
      | AF_OTHER =>
        simp only [ha] at h
        have hw : i.is_hw = false := by simp [ifaddrs.is_hw, ha]
        rw [List.find?_cons, hw]
        exact ih h

/-- The serial lookup returns when every node of the enumeration has an address. -/
theorem get_serial_returns (ifap : List ifaddrs) (h : ∀ i ∈ ifap, i.ifa_addr ≠ none) :
    melo_discover_get_serial ifap = some ((ifap.find? ifaddrs.is_hw).bind ifaddrs.hw_rendering) := by
  have hs : ∃ x, melo_discover_get_serial ifap = some x := by
    induction ifap with
    | nil => exact ⟨none, rfl⟩
    | cons i is ih =>
      obtain ⟨x, hx⟩ := ih (fun j hj => h j (List.mem_cons_of_mem _ hj))
      have hi := h i (List.mem_cons_self _ _)
      unfold melo_discover_get_serial
      cases ha : i.ifa_addr with
      | none => exact absurd ha hi
      | some a =>
        cases a with
        | AF_PACKET sll =>
          by_cases hl : i.ifa_flags &&& IFF_LOOPBACK = 0
          · exact ⟨some (melo_discover_get_hw_address sll), by simp [hl]⟩
          · exact ⟨x, by simp [hl, hx]⟩
        | AF_INET sin => exact ⟨x, by simp [hx]⟩
        | AF_OTHER => exact ⟨x, by simp [hx]⟩
  obtain ⟨x, hx⟩ := hs
  rw [hx, get_serial_eq ifap x hx]

theorem get_hw_address_length (addr : List Nat) :
    (melo_discover_get_hw_address addr).length = 17 := by
  simp [melo_discover_get_hw_address, fmt_02x, String.length]

theorem hex_digit_injective :
    ∀ i < 16, ∀ j < 16, hex_digit i = hex_digit j → i = j := by
  decide

theorem fmt_02x_injective (a b : Nat) (ha : a < 256) (hb : b < 256)
    (h : fmt_02x a = fmt_02x b) : a = b := by
  simp only [fmt_02x, List.cons.injEq, and_true] at h
  have h1 := hex_digit_injective (a % 256 / 16) (by omega) (b % 256 / 16) (by omega) h.1
  have h2 := hex_digit_injective (a % 16) (by omega) (b % 16) (by omega) h.2
  omega

/-- Two 6-byte hardware addresses with the same rendering are equal. -/
theorem get_hw_address_injective (a b : List Nat) (ha : a.length = 6) (hb : b.length = 6)
    (ha2 : ∀ x ∈ a, x < 256) (hb2 : ∀ x ∈ b, x < 256)
    (h : melo_discover_get_hw_address a = melo_discover_get_hw_address b) : a = b := by
  match a, ha, ha2 with
  | [a0, a1, a2, a3, a4, a5], _, ha2 =>
    match b, hb, hb2 with
    | [b0, b1, b2, b3, b4, b5], _, hb2 =>
      have h := congrArg String.data h
      simp only [melo_discover_get_hw_address, List.getD_cons_zero,
        List.getD_cons_succ, fmt_02x, List.cons_append, List.nil_append, List.cons.injEq,
        true_and, and_true] at h
      obtain ⟨p0, q0, p1, q1, p2, q2, p3, q3, p4, q4, p5, q5⟩ := h
      have e0 := fmt_02x_injective a0 b0 (ha2 a0 (by simp)) (hb2 b0 (by simp))
        (by simp [fmt_02x, p0, q0])
      have e1 := fmt_02x_injective a1 b1 (ha2 a1 (by simp)) (hb2 b1 (by simp))
        (by simp [fmt_02x, p1, q1])
      have e2 := fmt_02x_injective a2 b2 (ha2 a2 (by simp)) (hb2 b2 (by simp))
        (by simp [fmt_02x, p2, q2])
      have e3 := fmt_02x_injective a3 b3 (ha2 a3 (by simp)) (hb2 b3 (by simp))
        (by simp [fmt_02x, p3, q3])
      have e4 := fmt_02x_injective a4 b4 (ha2 a4 (by simp)) (hb2 b4 (by simp))
        (by simp [fmt_02x, p4, q4])
      have e5 := fmt_02x_injective a5 b5 (ha2 a5 (by simp)) (hb2 b5 (by simp))
        (by simp [fmt_02x, p5, q5])
      rw [e0, e1, e2, e3, e4, e5]

/-- When a registration that starts without serial returns `TRUE`, the serial is the rendering
of the first node of the enumeration that has a link-layer address and is not flagged
loopback, and stays unset if there is none. -/
theorem register_serial_derived (env : RegisterEnv) (priv : MeloDiscoverPrivate) (name : String)
    (port : Nat) (ifap : List ifaddrs) (r : Bool × MeloDiscoverPrivate × List Call)
    (hs : priv.serial = none) (h1 : env.getifaddrs = some ifap)
    (h : melo_discover_register_device env priv name port = some r) :
    r.2.1.serial = (ifap.find? ifaddrs.is_hw).bind ifaddrs.hw_rendering := by
  rcases register_device_inv env priv name port r h with ⟨h0, _⟩ | ⟨ifap2, serial, h2, h3, rfl⟩
  · rw [h0] at h1; exact Option.noConfusion h1
  · rw [h2, Option.some.injEq] at h1
    subst h1
    simp only [register_serial, hs] at h3
    exact get_serial_eq ifap2 serial h3

/-! ## Lemmas on message layout -/

theorem rd8_lt (buf : List Nat) (i : Nat) : rd8 buf i < 256 := by
  unfold rd8; omega

theorem rd16_le16 (n : Nat) (l : List Nat) (h : n < 65536) : rd16 (le16 n ++ l) 0 = n := by
  simp [rd16, rd8, le16]
  omega

theorem rd32_le32 (n : Nat) (l : List Nat) (h : n < 2 ^ 32) : rd32 (le32 n ++ l) 0 = n := by
  simp [rd32, rd16, rd8, le32]
  omega

theorem rd16_at (pre : List Nat) (n : Nat) (l : List Nat) (h : n < 65536) :
    rd16 (pre ++ (le16 n ++ l)) pre.length = n := by
  have := rd16_shift pre (le16 n ++ l) 0
  rw [Nat.add_zero] at this
  rw [this, rd16_le16 n l h]

theorem rd32_at (pre : List Nat) (n : Nat) (l : List Nat) (h : n < 2 ^ 32) :
    rd32 (pre ++ (le32 n ++ l)) pre.length = n := by
  have := rd32_shift pre (le32 n ++ l) 0
  rw [Nat.add_zero] at this
  rw [this, rd32_le32 n l h]

theorem rtattr_bytes_length (a : Nat × List Nat) :
    (rtattr_bytes a).length = RTA_ALIGN (RTA_HDRLEN + a.2.length) := by
  simp only [rtattr_bytes, le16, List.length_append, List.length_cons, List.length_nil,
    List.length_replicate, RTA_ALIGN, RTA_HDRLEN]
  omega

theorem get_address_append (payload rest : List Nat) (h : payload.length = 4) :
    melo_discover_get_address (payload ++ rest) = dotted_quad payload := by
  rw [get_address_eq]
  match payload, h with
  | [a, b, c, d], _ => rfl

theorem rta_loop_attrs (attrs : List (Nat × List Nat)) (hok : rtattrs_ok attrs)
    (hlen : ∀ a ∈ attrs, a.2.length + 4 < 65536) (buf pre post : List Nat) (fuel : Nat)
    (hbuf : buf = pre ++ (rtattrs_bytes attrs ++ post)) (hf : attrs.length ≤ fuel) :
    ((rta_loop buf fuel pre.length ((rtattrs_bytes attrs).length : Nat)).filter
        (fun ra => ra.1 = IFA_LOCAL)).map (fun ra => melo_discover_get_address (buf.drop ra.2)) =
      local_addresses attrs := by
  induction attrs generalizing pre fuel with
  | nil =>
    cases fuel with
    | zero => rfl
    | succ k => simp [rta_loop, rtattrs_bytes, local_addresses]
  | cons a l ih =>
    cases fuel with
    | zero => simp at hf
    | succ k =>
      obtain ⟨ht, hl4⟩ := hok a (List.mem_cons_self _ _)
      have hal := hlen a (List.mem_cons_self _ _)
      have hA : (rtattr_bytes a).length = RTA_ALIGN (RTA_HDRLEN + a.2.length) :=
        rtattr_bytes_length a
      have hcons : rtattrs_bytes (a :: l) = rtattr_bytes a ++ rtattrs_bytes l := by
        simp [rtattrs_bytes]
      have hb1 : buf = pre ++ (le16 (RTA_HDRLEN + a.2.length) ++
          (le16 a.1 ++ a.2 ++ List.replicate (RTA_ALIGN a.2.length - a.2.length) 0 ++
            (rtattrs_bytes l ++ post))) := by
        rw [hbuf, hcons]; simp [rtattr_bytes, List.append_assoc]
      have hb2 : buf = (pre ++ le16 (RTA_HDRLEN + a.2.length)) ++ (le16 a.1 ++
          (a.2 ++ List.replicate (RTA_ALIGN a.2.length - a.2.length) 0 ++
            (rtattrs_bytes l ++ post))) := by
        rw [hb1]; simp [List.append_assoc]
      have hb3 : buf = (pre ++ rtattr_bytes a) ++ (rtattrs_bytes l ++ post) := by
        rw [hbuf, hcons]; simp [List.append_assoc]
      have hb4 : buf = (pre ++ (le16 (RTA_HDRLEN + a.2.length) ++ le16 a.1)) ++ (a.2 ++
          (List.replicate (RTA_ALIGN a.2.length - a.2.length) 0 ++
            (rtattrs_bytes l ++ post))) := by
        rw [hb1]; simp [List.append_assoc]
      have hlenr : rd16 buf pre.length = RTA_HDRLEN + a.2.length := by
        rw [hb1]; exact rd16_at pre _ _ (by simp only [RTA_HDRLEN]; omega)
      have htype : rd16 buf (pre.length + 2) = a.1 := by
        have := rd16_at (pre ++ le16 (RTA_HDRLEN + a.2.length)) a.1
          (a.2 ++ List.replicate (RTA_ALIGN a.2.length - a.2.length) 0 ++
            (rtattrs_bytes l ++ post)) ht
        rw [← hb2] at this
        simpa [le16] using this
      have hdrop : buf.drop (pre.length + RTA_HDRLEN) = a.2 ++
          (List.replicate (RTA_ALIGN a.2.length - a.2.length) 0 ++
            (rtattrs_bytes l ++ post)) := by
        have e : pre.length + RTA_HDRLEN =
            (pre ++ (le16 (RTA_HDRLEN + a.2.length) ++ le16 a.1)).length := by
          simp [le16, RTA_HDRLEN]
        rw [e, hb4, List.drop_left]
      have hrok : RTA_OK buf pre.length ((rtattrs_bytes (a :: l)).length : Nat) = true := by
        rw [RTA_OK_iff, hlenr, hcons, List.length_append, hA]
        simp only [RTA_ALIGN, RTA_HDRLEN]
        omega
      have hne : ((rtattrs_bytes (a :: l)).length : Int) ≠ 0 := by
        rw [hcons, List.length_append, hA]
        simp only [RTA_ALIGN, RTA_HDRLEN]
        omega
      have hnext : ((rtattrs_bytes (a :: l)).length : Int) -
          (RTA_ALIGN (rd16 buf pre.length) : Nat) = ((rtattrs_bytes l).length : Nat) := by
        rw [hlenr, hcons, List.length_append, hA]
        omega
      have hoff : pre.length + RTA_ALIGN (rd16 buf pre.length) = (pre ++ rtattr_bytes a).length := by
        rw [hlenr, List.length_append, hA]
      have hih := ih (fun x hx => hok x (List.mem_cons_of_mem _ hx))
        (fun x hx => hlen x (List.mem_cons_of_mem _ hx)) (pre ++ rtattr_bytes a) k hb3
        (by simp at hf; omega)
      have hstep : rta_loop buf (k + 1) pre.length ((rtattrs_bytes (a :: l)).length : Nat) =
          (a.1, pre.length + RTA_HDRLEN) ::
            rta_loop buf k (pre ++ rtattr_bytes a).length ((rtattrs_bytes l).length : Nat) := by
        rw [rta_loop, if_pos ⟨hne, hrok⟩, htype, hnext, hoff]
      rw [hstep]
      by_cases hloc : a.1 = IFA_LOCAL
      · have h4 := hl4 hloc
        simp only [List.filter_cons, hloc, decide_True, if_true, List.map_cons, hih, hdrop,
          get_address_append _ _ h4, local_addresses]
      · simp only [List.filter_cons, hloc, decide_False, Bool.false_eq_true, if_false, hih,
          local_addresses]

theorem rtattrs_bytes_cons (a : Nat × List Nat) (l : List (Nat × List Nat)) :
    rtattrs_bytes (a :: l) = rtattr_bytes a ++ rtattrs_bytes l := by
  simp [rtattrs_bytes]

theorem rtattrs_bytes_length (attrs : List (Nat × List Nat)) :
    attrs.length ≤ (rtattrs_bytes attrs).length ∧ (rtattrs_bytes attrs).length % 4 = 0 ∧
      ∀ a ∈ attrs, a.2.length + 4 ≤ (rtattrs_bytes attrs).length := by
  induction attrs with
  | nil => simp [rtattrs_bytes]
  | cons a l ih =>
    obtain ⟨h1, h2, h3⟩ := ih
    have hA := rtattr_bytes_length a
    simp only [RTA_ALIGN, RTA_HDRLEN] at hA
    rw [rtattrs_bytes_cons, List.length_append, hA]
    refine ⟨by simp only [List.length_cons]; omega, by omega, ?_⟩
    intro x hx
    rcases List.mem_cons.mp hx with e | e
    · subst e; omega
    · have := h3 x e
      omega

/-- The layout of an address message: the message header, the `struct ifaddrmsg` and the
attributes. -/
theorem ifaddr_message_eq (type index : Nat) (f : ifaddr_fields)
    (attrs : List (Nat × List Nat)) :
    ifaddr_message type index f attrs =
      le32 (24 + (rtattrs_bytes attrs).length) ++ (le16 type ++ (le16 f.nlmsg_flags ++
        (le32 f.nlmsg_seq ++ (le32 f.nlmsg_pid ++
          ([f.ifa_family % 256, f.ifa_prefixlen % 256, f.ifa_flags % 256, f.ifa_scope % 256] ++
            (le32 index ++ rtattrs_bytes attrs)))))) := by
  simp [ifaddr_message, NLMSG_HDRLEN, List.append_assoc]

theorem ifaddr_message_length (type index : Nat) (f : ifaddr_fields)
    (attrs : List (Nat × List Nat)) :
    (ifaddr_message type index f attrs).length = 24 + (rtattrs_bytes attrs).length := by
  rw [ifaddr_message_eq]
  simp [le32, le16]
  omega

theorem ifaddr_message_fields (type index : Nat) (f : ifaddr_fields)
    (attrs : List (Nat × List Nat))
    (pre post : List Nat) (htype : type < 65536) (hidx : index < 2 ^ 32)
    (hsz : (ifaddr_message type index f attrs).length ≤ 4096) :
    rd32 (pre ++ (ifaddr_message type index f attrs ++ post)) pre.length =
        24 + (rtattrs_bytes attrs).length ∧
      rd16 (pre ++ (ifaddr_message type index f attrs ++ post)) (pre.length + 4) = type ∧
      rd32 (pre ++ (ifaddr_message type index f attrs ++ post)) (pre.length + 16 + 4) = index := by
  rw [ifaddr_message_length] at hsz
  rw [ifaddr_message_eq]
  refine ⟨?_, ?_, ?_⟩
  · simp only [List.append_assoc]
    exact rd32_at pre _ _ (by omega)
  · have := rd16_at (pre ++ le32 (24 + (rtattrs_bytes attrs).length)) type
      (le16 f.nlmsg_flags ++ (le32 f.nlmsg_seq ++ (le32 f.nlmsg_pid ++
        ([f.ifa_family % 256, f.ifa_prefixlen % 256, f.ifa_flags % 256, f.ifa_scope % 256] ++
          (le32 index ++ rtattrs_bytes attrs)))) ++ post) htype
    simpa [le32, List.append_assoc] using this
  · have := rd32_at (pre ++ (le32 (24 + (rtattrs_bytes attrs).length) ++ (le16 type ++
      (le16 f.nlmsg_flags ++ (le32 f.nlmsg_seq ++ (le32 f.nlmsg_pid ++
        [f.ifa_family % 256, f.ifa_prefixlen % 256, f.ifa_flags % 256, f.ifa_scope % 256]))))))
      index (rtattrs_bytes attrs ++ post) hidx
    simpa [le32, le16, List.append_assoc, Nat.add_assoc] using this

theorem ifaddr_message_attrs (type index : Nat) (f : ifaddr_fields)
    (attrs : List (Nat × List Nat)) (pre post : List Nat) :
    pre ++ (ifaddr_message type index f attrs ++ post) =
      (pre ++ (le32 (24 + (rtattrs_bytes attrs).length) ++ (le16 type ++ (le16 f.nlmsg_flags ++
        (le32 f.nlmsg_seq ++ (le32 f.nlmsg_pid ++
          ([f.ifa_family % 256, f.ifa_prefixlen % 256, f.ifa_flags % 256, f.ifa_scope % 256] ++
            le32 index))))))) ++ (rtattrs_bytes attrs ++ post) ∧
    (pre ++ (le32 (24 + (rtattrs_bytes attrs).length) ++ (le16 type ++ (le16 f.nlmsg_flags ++
        (le32 f.nlmsg_seq ++ (le32 f.nlmsg_pid ++
          ([f.ifa_family % 256, f.ifa_prefixlen % 256, f.ifa_flags % 256, f.ifa_scope % 256] ++
            le32 index))))))).length = pre.length + 16 + 8 := by
  rw [ifaddr_message_eq]
  constructor
  · simp [List.append_assoc]
  · simp [le32, le16]

theorem nl_decode_newaddr (nm : Nat → Option String) (name : String) (pre post : List Nat)
    (index : Nat) (f : ifaddr_fields) (attrs : List (Nat × List Nat)) (hidx : index < 2 ^ 32)
    (hok : rtattrs_ok attrs) (hsz : (ifaddr_message RTM_NEWADDR index f attrs).length ≤ 4096) :
    nl_decode nm name (pre ++ (ifaddr_message RTM_NEWADDR index f attrs ++ post)) pre.length =
      NlEvent.newaddr (name_after_lookup nm name index) (local_addresses attrs) := by
  obtain ⟨h1, h2, h3⟩ := ifaddr_message_fields RTM_NEWADDR index f attrs pre post (by decide)
    hidx hsz
  obtain ⟨h4, h5⟩ := ifaddr_message_attrs RTM_NEWADDR index f attrs pre post
  obtain ⟨h6, _, h7⟩ := rtattrs_bytes_length attrs
  rw [ifaddr_message_length] at hsz
  have hloop := rta_loop_attrs attrs hok (fun a ha => by have := h7 a ha; omega) _ _ post
    (rtattrs_bytes attrs).length h4 h6
  rw [h5] at hloop
  unfold nl_decode
  simp only [NLMSG_HDRLEN, h1, h2, h3]
  have e : ((24 + (rtattrs_bytes attrs).length : Nat) : Int) - 24 =
      ((rtattrs_bytes attrs).length : Nat) := by omega
  rw [e, Int.toNat_ofNat, hloop]
  simp [RTM_NEWADDR, RTM_NEWLINK, RTM_DELLINK]

theorem nl_decode_deladdr (nm : Nat → Option String) (name : String) (pre post : List Nat)
    (index : Nat) (f : ifaddr_fields) (attrs : List (Nat × List Nat)) (hidx : index < 2 ^ 32)
    (hsz : (ifaddr_message RTM_DELADDR index f attrs).length ≤ 4096) :
    nl_decode nm name (pre ++ (ifaddr_message RTM_DELADDR index f attrs ++ post)) pre.length =
      NlEvent.deladdr (name_after_lookup nm name index) := by
  obtain ⟨h1, h2, h3⟩ := ifaddr_message_fields RTM_DELADDR index f attrs pre post (by decide)
    hidx hsz
  unfold nl_decode
  simp only [NLMSG_HDRLEN, h2, h3]
  simp [RTM_NEWADDR, RTM_NEWLINK, RTM_DELLINK, RTM_DELADDR]

theorem ifaddr_message_frame (type index : Nat) (f : ifaddr_fields)
    (attrs : List (Nat × List Nat))
    (htype : type < 65536) (hidx : index < 2 ^ 32)
    (hsz : (ifaddr_message type index f attrs).length ≤ 4096) :
    nl_frame (ifaddr_message type index f attrs) = true ∧
      nl_is_stop (ifaddr_message type index f attrs) 0 =
        decide (type = NLMSG_DONE ∨ type = NLMSG_ERROR) := by
  obtain ⟨h1, h2, _⟩ := ifaddr_message_fields type index f attrs [] [] htype hidx hsz
  simp only [List.nil_append, List.append_nil, List.length_nil, Nat.zero_add] at h1 h2
  obtain ⟨_, h4, _⟩ := rtattrs_bytes_length attrs
  have hl := ifaddr_message_length type index f attrs
  rw [hl] at hsz
  constructor
  · rw [nl_frame_iff, h1, hl]
    refine ⟨by omega, by omega, ?_⟩
    unfold NLMSG_ALIGN
    rw [Nat.mod_eq_of_lt (by omega)]
    omega
  · unfold nl_is_stop
    rw [h2]

theorem name_after_lookup_some (nm : Nat → Option String) (name : String) (index : Nat)
    (n : String) (h : nm index = some n) : name_after_lookup nm name index = n := by
  simp [name_after_lookup, h]

theorem name_after_lookup_none (nm : Nat → Option String) (name : String) (index : Nat)
    (h : nm index = none) : name_after_lookup nm name index = name := by
  simp [name_after_lookup, h]

/-- The handler on a receive buffer that holds one `RTM_NEWADDR` message. -/
theorem netlink_event_newaddr (nm : Nat → Option String) (name0 : String)
    (priv : MeloDiscoverPrivate) (index : Nat) (f : ifaddr_fields)
    (attrs : List (Nat × List Nat))
    (hidx : index < 2 ^ 32) (hok : rtattrs_ok attrs)
    (hsz : (ifaddr_message RTM_NEWADDR index f attrs).length ≤ 4096) :
    melo_netlink_event nm name0 (ifaddr_message RTM_NEWADDR index f attrs)
        ((ifaddr_message RTM_NEWADDR index f attrs).length : Nat) priv =
      (true, nl_handle priv
        (NlEvent.newaddr (name_after_lookup nm name0 index) (local_addresses attrs))) := by
  obtain ⟨hf, hs⟩ := ifaddr_message_frame RTM_NEWADDR index f attrs (by decide) hidx hsz
  have hfr : ∀ m ∈ [ifaddr_message RTM_NEWADDR index f attrs],
      nl_frame m = true ∧ nl_is_stop m 0 = false := by
    intro m hm
    rw [List.mem_singleton] at hm
    subst hm
    exact ⟨hf, by rw [hs]; decide⟩
  obtain ⟨_, h2⟩ := netlink_event_frames nm name0 priv _ [] hfr (by decide)
  have hd := nl_decode_newaddr nm name0 [] [] index f attrs hidx hok hsz
  simp only [List.nil_append, List.append_nil, List.length_nil] at hd
  simp only [List.flatten_cons, List.flatten_nil, List.append_nil, frame_offsets,
    nl_decode_all, hd, nl_run, List.foldl_cons, List.foldl_nil, List.nil_append] at h2
  have h1 : (melo_netlink_event nm name0 (ifaddr_message RTM_NEWADDR index f attrs)
      ((ifaddr_message RTM_NEWADDR index f attrs).length : Nat) priv).1 = true := by
    unfold melo_netlink_event
    rw [ifaddr_message_length, if_neg (by omega)]
  exact Prod.ext h1 h2

/-- The handler on a receive buffer that holds one `RTM_DELADDR` message. -/
theorem netlink_event_deladdr (nm : Nat → Option String) (name0 : String)
    (priv : MeloDiscoverPrivate) (index : Nat) (f : ifaddr_fields)
    (attrs : List (Nat × List Nat))
    (hidx : index < 2 ^ 32)
    (hsz : (ifaddr_message RTM_DELADDR index f attrs).length ≤ 4096) :
    melo_netlink_event nm name0 (ifaddr_message RTM_DELADDR index f attrs)
        ((ifaddr_message RTM_DELADDR index f attrs).length : Nat) priv =
      (true, nl_handle priv (NlEvent.deladdr (name_after_lookup nm name0 index))) := by
  obtain ⟨hf, hs⟩ := ifaddr_message_frame RTM_DELADDR index f attrs (by decide) hidx hsz
  have hfr : ∀ m ∈ [ifaddr_message RTM_DELADDR index f attrs],
      nl_frame m = true ∧ nl_is_stop m 0 = false := by
    intro m hm
    rw [List.mem_singleton] at hm
    subst hm
    exact ⟨hf, by rw [hs]; decide⟩
  obtain ⟨_, h2⟩ := netlink_event_frames nm name0 priv _ [] hfr (by decide)
  have hd := nl_decode_deladdr nm name0 [] [] index f attrs hidx hsz
  simp only [List.nil_append, List.append_nil, List.length_nil] at hd
  simp only [List.flatten_cons, List.flatten_nil, List.append_nil, frame_offsets,
    nl_decode_all, hd, nl_run, List.foldl_cons, List.foldl_nil, List.nil_append] at h2
  have h1 : (melo_netlink_event nm name0 (ifaddr_message RTM_DELADDR index f attrs)
      ((ifaddr_message RTM_DELADDR index f attrs).length : Nat) priv).1 = true := by
    unfold melo_netlink_event
    rw [ifaddr_message_length, if_neg (by omega)]
  exact Prod.ext h1 h2

/-- The handler on a receive buffer that holds an `RTM_NEWADDR` message followed by an
`RTM_DELADDR` message: the second message is filed under the name that its own lookup gives
or, when that lookup fails, under the name that the first message left in the buffer. -/
theorem netlink_event_newaddr_deladdr (nm : Nat → Option String) (name0 : String)
    (priv : MeloDiscoverPrivate) (index index2 : Nat) (f f2 : ifaddr_fields)
    (attrs attrs2 : List (Nat × List Nat))
    (hidx : index < 2 ^ 32) (hidx2 : index2 < 2 ^ 32) (hok : rtattrs_ok attrs)
    (hsz : (ifaddr_message RTM_NEWADDR index f attrs).length ≤ 4096)
    (hsz2 : (ifaddr_message RTM_DELADDR index2 f2 attrs2).length ≤ 4096) :
    melo_netlink_event nm name0
        (ifaddr_message RTM_NEWADDR index f attrs ++ ifaddr_message RTM_DELADDR index2 f2 attrs2)
        ((ifaddr_message RTM_NEWADDR index f attrs ++
          ifaddr_message RTM_DELADDR index2 f2 attrs2).length : Nat) priv =
      (true, nl_run priv []
        [NlEvent.newaddr (name_after_lookup nm name0 index) (local_addresses attrs),
         NlEvent.deladdr (name_after_lookup nm (name_after_lookup nm name0 index) index2)]) := by
  obtain ⟨hf, hs⟩ := ifaddr_message_frame RTM_NEWADDR index f attrs (by decide) hidx hsz
  obtain ⟨hf2, hs2⟩ := ifaddr_message_frame RTM_DELADDR index2 f2 attrs2 (by decide) hidx2 hsz2
  have hfr : ∀ m ∈ [ifaddr_message RTM_NEWADDR index f attrs,
      ifaddr_message RTM_DELADDR index2 f2 attrs2], nl_frame m = true ∧ nl_is_stop m 0 = false := by
    intro m hm
    simp only [List.mem_cons, List.mem_singleton, List.not_mem_nil, or_false] at hm
    rcases hm with e | e
    · subst e; exact ⟨hf, by rw [hs]; decide⟩
    · subst e; exact ⟨hf2, by rw [hs2]; decide⟩
  obtain ⟨_, h2⟩ := netlink_event_frames nm name0 priv _ [] hfr (by decide)
  have hd := nl_decode_newaddr nm name0 [] (ifaddr_message RTM_DELADDR index2 f2 attrs2) index
    f attrs hidx hok hsz
  have hd2 := nl_decode_deladdr nm (name_after_lookup nm name0 index)
    (ifaddr_message RTM_NEWADDR index f attrs) [] index2 f2 attrs2 hidx2 hsz2
  simp only [List.nil_append, List.append_nil, List.length_nil] at hd hd2
  simp only [List.flatten_cons, List.flatten_nil, List.append_nil, frame_offsets,
    nl_decode_all, hd, Nat.zero_add, hd2, NlEvent.name_buffer] at h2
  have h1 : (melo_netlink_event nm name0
      (ifaddr_message RTM_NEWADDR index f attrs ++ ifaddr_message RTM_DELADDR index2 f2 attrs2)
      ((ifaddr_message RTM_NEWADDR index f attrs ++
        ifaddr_message RTM_DELADDR index2 f2 attrs2).length : Nat) priv).1 = true := by
    unfold melo_netlink_event
    rw [List.length_append, ifaddr_message_length, if_neg (by omega)]
  exact Prod.ext h1 h2

/-- The requests of an `RTM_NEWADDR` for an interface with a known hardware address, in a
registered state with a serial: one `add_address` per address. -/
theorem nl_handle_newaddr_calls (priv : MeloDiscoverPrivate) (n s hw : String)
    (addrs : List String) (hreg : priv.registered = true) (hser : priv.serial = some s)
    (hhw : hw_of n priv.ifaces = some hw) :
    (nl_handle priv (NlEvent.newaddr n addrs)).2 =
      addrs.map (fun a => Call.queue_message (Action.add_address s (some hw) (some a)) false) := by
  rw [nl_handle_calls]
  simp only [hreg, hhw, Option.isSome_some, and_self, if_true, melo_discover_add_address, hser,
    lookup_getD_hw]
  induction addrs with
  | nil => rfl
  | cons a l ih => simp [ih]

/-- The request of an `RTM_DELADDR` for an interface with a known hardware address, in a
registered state with a serial: one `remove_address`. -/
theorem nl_handle_deladdr_calls (priv : MeloDiscoverPrivate) (n s hw : String)
    (hreg : priv.registered = true) (hser : priv.serial = some s)
    (hhw : hw_of n priv.ifaces = some hw) :
    (nl_handle priv (NlEvent.deladdr n)).2 =
      [Call.queue_message (Action.remove_address s (some hw)) false] := by
  rw [nl_handle_calls]
  simp only [hreg, hhw, Option.isSome_some, and_self, if_true, melo_discover_remove_address,
    hser, lookup_getD_hw]

theorem hw_of_handle_newaddr (priv : MeloDiscoverPrivate) (n m : String) (addrs : List String) :
    hw_of n (nl_handle priv (NlEvent.newaddr m addrs)).1.ifaces = hw_of n priv.ifaces := by
  rw [hw_of_handle]; simp [NlEvent.carried_hw]

theorem nl_decode_all_congr (nm : Nat → Option String) (buf buf2 : List Nat) (name0 : String)
    (offs : List Nat)
    (h : ∀ (name : String), ∀ o ∈ offs, nl_decode nm name buf o = nl_decode nm name buf2 o) :
    nl_decode_all nm buf name0 offs = nl_decode_all nm buf2 name0 offs := by
  induction offs generalizing name0 with
  | nil => rfl
  | cons o l ih =>
    simp only [nl_decode_all]
    rw [h name0 o (List.mem_cons_self _ _)]
    congr 1
    exact ih _ (fun name x hx => h name x (List.mem_cons_of_mem _ hx))

/-! ## Lemmas on the tests of the address cases -/

/-- An address message (`RTM_NEWADDR` or `RTM_DELADDR`) that is filed under the name `n` makes
no request when the device is not registered or no hardware address is known for `n`. -/
theorem nl_handle_address_gated (priv : MeloDiscoverPrivate) (n : String) (ev : NlEvent)
    (hev : ev.is_address_event n = true)
    (h : priv.registered = false ∨ hw_of n priv.ifaces = none) : (nl_handle priv ev).2 = [] := by
  rw [nl_handle_calls]
  cases ev with
  | newaddr m addrs =>
    simp only [NlEvent.is_address_event, decide_eq_true_eq] at hev
    subst hev
    rcases h with h | h <;> simp [h]
  | deladdr m =>
    simp only [NlEvent.is_address_event, decide_eq_true_eq] at hev
    subst hev
    rcases h with h | h <;> simp [h]
  | newlink m hws => rfl
  | dellink => rfl
  | stop => rfl
  | other => rfl

/-- A receive buffer handled while the device is not registered makes no request. -/
theorem netlink_event_unregistered (nm : Nat → Option String) (name0 : String) (buf : List Nat)
    (len : Int) (priv : MeloDiscoverPrivate) (h : priv.registered = false) :
    (melo_netlink_event nm name0 buf len priv).2.2 = [] := by
  unfold melo_netlink_event
  by_cases hl : len ≤ 0
  · simp [hl]
  · simp only [hl, if_false]
    exact nl_loop_unregistered nm buf _ _ _ name0 priv [] h

/-- A receive buffer with one address message makes no request when no hardware address is
known for the name that the handler goes on with: the name of the interface that has the
index of the message or, when no interface has it, the content of the buffer `name`. -/
theorem address_message_gated (nm : Nat → Option String) (name0 : String)
    (priv : MeloDiscoverPrivate) (index : Nat) (f : ifaddr_fields)
    (attrs : List (Nat × List Nat))
    (hidx : index < 2 ^ 32) (hok : rtattrs_ok attrs)
    (hsz : (ifaddr_message RTM_NEWADDR index f attrs).length ≤ 4096)
    (hsz2 : (ifaddr_message RTM_DELADDR index f attrs).length ≤ 4096)
    (h : hw_of (name_after_lookup nm name0 index) priv.ifaces = none) :
    (melo_netlink_event nm name0 (ifaddr_message RTM_NEWADDR index f attrs)
        ((ifaddr_message RTM_NEWADDR index f attrs).length : Nat) priv).2.2 = [] ∧
    (melo_netlink_event nm name0 (ifaddr_message RTM_DELADDR index f attrs)
        ((ifaddr_message RTM_DELADDR index f attrs).length : Nat) priv).2.2 = [] := by
  rw [netlink_event_newaddr nm name0 priv index f attrs hidx hok hsz,
    netlink_event_deladdr nm name0 priv index f attrs hidx hsz2]
  exact ⟨nl_handle_address_gated priv _ _ (by simp [NlEvent.is_address_event]) (Or.inr h),
    nl_handle_address_gated priv _ _ (by simp [NlEvent.is_address_event]) (Or.inr h)⟩

/-! ## Lemmas on sequences of decoded messages -/

/-- After any sequence of decoded messages has been handled from any starting state, the item
found for a name `n` has the hardware address carried by the last `RTM_NEWLINK` filed under
`n` that carried one (the starting one if there was none) and the IP address set by the last
address message filed under `n` (absent after a removal, the starting one if there was none);
a message that is not filed under `n` leaves the item of `n` as it was; an item for `n`
exists at the end exactly when one existed at the start or a message was filed under `n`; and
the starting list of names is a tail of the final one, so no item is ever removed.  The name
under which a message is filed is the one the handler goes on with after `if_indextoname`. -/
theorem nl_fold_tracks_last_event (priv : MeloDiscoverPrivate) (evs : List NlEvent)
    (n : String) :
    hw_of n (nl_fold priv evs).ifaces = last_hw n evs (hw_of n priv.ifaces) ∧
    address_of n (nl_fold priv evs).ifaces = last_address n evs (address_of n priv.ifaces) ∧
    (∀ ev : NlEvent, ev.names n = false →
      iface_lookup n (nl_handle priv ev).1.ifaces = iface_lookup n priv.ifaces) ∧
    (iface_lookup n (nl_fold priv evs).ifaces).isSome =
      ((iface_lookup n priv.ifaces).isSome || evs.any (fun ev => ev.names n)) ∧
    priv.ifaces.map (fun i => i.name) <:+ (nl_fold priv evs).ifaces.map (fun i => i.name) := by
  refine ⟨?_, ?_, fun ev h => lookup_handle_other n priv ev h, ?_, ?_⟩
  · induction evs generalizing priv with
    | nil => simp [nl_fold, last_hw]
    | cons ev evs ih => rw [nl_fold_cons, ih, last_hw_cons, hw_of_handle]
  · induction evs generalizing priv with
    | nil => simp [nl_fold, last_address]
    | cons ev evs ih => rw [nl_fold_cons, ih, last_address_cons, address_of_handle]
  · induction evs generalizing priv with
    | nil => simp [nl_fold]
    | cons ev evs ih =>
      rw [nl_fold_cons, ih, lookup_isSome_handle, List.any_cons, Bool.or_assoc]
  · induction evs generalizing priv with
    | nil => exact List.suffix_refl _
    | cons ev evs ih =>
      rw [nl_fold_cons]
      exact (names_suffix_handle priv ev).trans (ih _)

/-! ## Properties of the specification -/

/-- C1, failing input: the device is registered with a serial and `eth0` (index 2) has a
hardware address; the receive buffer of 56 bytes holds an `RTM_NEWADDR` for the index 2 and
an `RTM_DELADDR` for the index 9999, which no interface has, so that `if_indextoname` fails
and no hardware address is known for the interface that the second message names.  Whatever
the array `name` held on entry, the handler goes on with the name `eth0` that the first
message left in it: it queues an `add_address` for the first message and, for the second, a
`remove_address` with the hardware address of `eth0`, whose address it clears. -/
theorem address_event_vanished_index :
    ifname_eth0 2 = some "eth0" ∧ ifname_eth0 9999 = none ∧
    msg_newaddr_eth0 =
      ifaddr_message RTM_NEWADDR 2 fields_inet [(IFA_LOCAL, [192, 168, 1, 10])] ∧
    msg_deladdr_gone = ifaddr_message RTM_DELADDR 9999 fields_inet [] ∧
    state_registered_eth0.registered = true ∧
    ∀ name0 : String,
      melo_netlink_event ifname_eth0 name0 (msg_newaddr_eth0 ++ msg_deladdr_gone) 56
          state_registered_eth0 =
        (true, state_registered_eth0,
          [Call.queue_message
            (Action.add_address "aa:bb:cc:dd:ee:ff" (some "aa:bb:cc:dd:ee:ff")
              (some "192.168.1.10")) false,
           Call.queue_message
            (Action.remove_address "aa:bb:cc:dd:ee:ff" (some "aa:bb:cc:dd:ee:ff")) false]) := by
  have e1 : msg_newaddr_eth0 =
      ifaddr_message RTM_NEWADDR 2 fields_inet [(IFA_LOCAL, [192, 168, 1, 10])] := by
    decide
  have e2 : msg_deladdr_gone = ifaddr_message RTM_DELADDR 9999 fields_inet [] := by decide
  refine ⟨rfl, rfl, e1, e2, rfl, ?_⟩
  intro name0
  have h := netlink_event_newaddr_deladdr ifname_eth0 name0 state_registered_eth0 2 9999
    fields_inet fields_inet [(IFA_LOCAL, [192, 168, 1, 10])] [] (by decide) (by decide) (by decide) (by decide)
    (by decide)
  rw [← e1, ← e2] at h
  have e3 : name_after_lookup ifname_eth0 name0 2 = "eth0" := rfl
  have e4 : name_after_lookup ifname_eth0 "eth0" 9999 = "eth0" := rfl
  have e5 : local_addresses [(IFA_LOCAL, [192, 168, 1, 10])] = ["192.168.1.10"] := by decide
  have e6 : (((msg_newaddr_eth0 ++ msg_deladdr_gone).length : Nat) : Int) = 56 := by decide
  rw [e3, e4, e5, e6] at h
  rw [h]
  decide

/-- C3, failing input: from the initial state, the receive buffer `buf_newaddr_gone_lo_gone`
holds an `RTM_NEWADDR` for the index 9999 (no interface has it) with 10.0.0.1, one for `lo`
with 10.0.0.2 and one for the index 9999 with 10.0.0.3.  The last address message for `lo`
carries 10.0.0.2 and the third message names another interface, yet the item of `lo` ends
with 10.0.0.3, whatever the array `name` held on entry: after the failed lookup the handler
files the third message under the name that the second one left in the buffer.  With the
array empty on entry, the first message is filed under the empty name, for which an item is
made. -/
theorem address_filed_under_previous_name :
    ifname_eth0 1 = some "lo" ∧ ifname_eth0 9999 = none ∧
    ifaddr_message RTM_NEWADDR 9999 fields_inet [(IFA_LOCAL, [10, 0, 0, 1])] =
      [32, 0, 0, 0, 20, 0, 0, 0, 0, 0, 0, 0, 0, 0, 0, 0,
       2, 24, 0, 0, 15, 39, 0, 0,
       8, 0, 2, 0, 10, 0, 0, 1] ∧
    melo_netlink_event ifname_eth0 "" buf_newaddr_gone_lo_gone 96 melo_discover_init =
      (true,
        { registered := false, serial := none,
          ifaces := [{ name := "lo", hw_address := none, address := some "10.0.0.3" },
                     { name := "", hw_address := none, address := some "10.0.0.1" }] },
        []) ∧
    ∀ name0 : String,
      address_of "lo"
          (melo_netlink_event ifname_eth0 name0 buf_newaddr_gone_lo_gone 96
            melo_discover_init).2.1.ifaces = some "10.0.0.3" := by
  refine ⟨rfl, rfl, by decide, by decide, ?_⟩
  intro name0
  have hfr : ∀ m ∈ [ifaddr_message RTM_NEWADDR 9999 fields_inet [(IFA_LOCAL, [10, 0, 0, 1])],
      ifaddr_message RTM_NEWADDR 1 fields_inet [(IFA_LOCAL, [10, 0, 0, 2])],
      ifaddr_message RTM_NEWADDR 9999 fields_inet [(IFA_LOCAL, [10, 0, 0, 3])]],
      nl_frame m = true ∧ nl_is_stop m 0 = false := by decide
  obtain ⟨_, h2⟩ := netlink_event_frames ifname_eth0 name0 melo_discover_init _ [] hfr
    (by decide)
  have hd1 := nl_decode_newaddr ifname_eth0 name0 []
    (ifaddr_message RTM_NEWADDR 1 fields_inet [(IFA_LOCAL, [10, 0, 0, 2])] ++
      ifaddr_message RTM_NEWADDR 9999 fields_inet [(IFA_LOCAL, [10, 0, 0, 3])])
    9999 fields_inet [(IFA_LOCAL, [10, 0, 0, 1])] (by decide) (by decide) (by decide)
  have hd2 := nl_decode_newaddr ifname_eth0 (name_after_lookup ifname_eth0 name0 9999)
    (ifaddr_message RTM_NEWADDR 9999 fields_inet [(IFA_LOCAL, [10, 0, 0, 1])])
    (ifaddr_message RTM_NEWADDR 9999 fields_inet [(IFA_LOCAL, [10, 0, 0, 3])])
    1 fields_inet [(IFA_LOCAL, [10, 0, 0, 2])] (by decide) (by decide) (by decide)
  have hd3 := nl_decode_newaddr ifname_eth0 "lo"
    (ifaddr_message RTM_NEWADDR 9999 fields_inet [(IFA_LOCAL, [10, 0, 0, 1])] ++
      ifaddr_message RTM_NEWADDR 1 fields_inet [(IFA_LOCAL, [10, 0, 0, 2])]) []
    9999 fields_inet [(IFA_LOCAL, [10, 0, 0, 3])] (by decide) (by decide) (by decide)
  have e1 : name_after_lookup ifname_eth0 name0 9999 = name0 := rfl
  have e2 : ∀ x : String, name_after_lookup ifname_eth0 x 1 = "lo" := fun _ => rfl
  have e3 : name_after_lookup ifname_eth0 "lo" 9999 = "lo" := rfl
  rw [e1] at hd1 hd2
  rw [e2] at hd2
  rw [e3] at hd3
  simp only [List.nil_append, List.append_nil, List.length_nil, List.length_append,
    List.append_assoc] at hd1 hd2 hd3
  simp only [List.flatten_cons, List.flatten_nil, List.append_nil, frame_offsets,
    nl_decode_all, Nat.zero_add, List.append_assoc, hd1, hd2, hd3, NlEvent.name_buffer] at h2
  have hb : buf_newaddr_gone_lo_gone =
      ifaddr_message RTM_NEWADDR 9999 fields_inet [(IFA_LOCAL, [10, 0, 0, 1])] ++
        (ifaddr_message RTM_NEWADDR 1 fields_inet [(IFA_LOCAL, [10, 0, 0, 2])] ++
          ifaddr_message RTM_NEWADDR 9999 fields_inet [(IFA_LOCAL, [10, 0, 0, 3])]) := by
    simp [buf_newaddr_gone_lo_gone, List.append_assoc]
  have hlen : (96 : Int) = ((ifaddr_message RTM_NEWADDR 9999 fields_inet [(IFA_LOCAL, [10, 0, 0, 1])] ++
      (ifaddr_message RTM_NEWADDR 1 fields_inet [(IFA_LOCAL, [10, 0, 0, 2])] ++
        ifaddr_message RTM_NEWADDR 9999 fields_inet [(IFA_LOCAL, [10, 0, 0, 3])])).length : Nat) := by
    decide
  rw [hb, hlen, h2, nl_run_fst]
  rw [(nl_fold_tracks_last_event melo_discover_init _ "lo").2.1]
  have l1 : local_addresses [(IFA_LOCAL, [10, 0, 0, 1])] = ["10.0.0.1"] := by decide
  have l2 : local_addresses [(IFA_LOCAL, [10, 0, 0, 2])] = ["10.0.0.2"] := by decide
  have l3 : local_addresses [(IFA_LOCAL, [10, 0, 0, 3])] = ["10.0.0.3"] := by decide
  simp only [last_address, List.filterMap_cons, List.filterMap_nil, NlEvent.set_address, l1, l2,
    l3]
  by_cases hn : name0 = "lo"
  · simp [hn]
  · simp [hn]

/-- C2, counterexample: in a state that is reached from the initial one (a registration over
an enumeration with only the loopback interface, the completion callback, an `RTM_NEWLINK`
for `eth0`), the device is registered and `eth0` has a hardware address, yet a receive buffer
with an `RTM_NEWADDR` for `eth0` makes no request, because no serial is known and
`melo_discover_add_address` returns early. -/
theorem address_event_without_serial_counterexample :
    (melo_discover_register_device env_lo melo_discover_init "player" 8080).map
      (fun r => (melo_netlink_event ifname_eth0 "" msg_newlink_eth0 44
        (melo_device_register_callback r.2.1)).2) = some (state_registered_no_serial, []) ∧
    state_registered_no_serial.registered = true ∧
    hw_of "eth0" state_registered_no_serial.ifaces = some "aa:bb:cc:dd:ee:ff" ∧
    ifname_eth0 2 = some "eth0" ∧
    msg_newaddr_eth0 =
      ifaddr_message RTM_NEWADDR 2 fields_inet [(IFA_LOCAL, [192, 168, 1, 10])] ∧
    (melo_netlink_event ifname_eth0 "" msg_newaddr_eth0 32 state_registered_no_serial).2.2 =
      [] := by
  decide

/-- C2, amended: in every state where the device is registered, the serial is `s` and the
interface `n` has the hardware address `hw`, a well-formed `RTM_NEWADDR` message whose
interface index `if_indextoname` resolves to `n` makes the handler queue exactly one
`add_address` request per `IFA_LOCAL` attribute of the message, in message order, each with
`s`, `hw` and the four bytes of the attribute in dotted-quad form, and nothing else; a
well-formed `RTM_DELADDR` message whose index resolves to `n` makes it queue exactly one
request, the `remove_address` with `s` and `hw`.  This holds for the body of the message
loop wherever the message lies in the receive buffer and whatever the array `name` holds
(first two parts); for the handler on a receive buffer that holds the `RTM_NEWADDR` message
(third part; exactly one request for a message with one `IFA_LOCAL` attribute, fourth part);
for the handler on a later receive buffer that holds the `RTM_DELADDR` message (fifth part);
and for the two messages in one receive buffer (sixth part).  The messages are any that fit
the receive buffer, with any other attributes and any value of the fields that the handler
does not read. -/
theorem address_event_mirrored (nm : Nat → Option String) (name0 name1 : String)
    (priv : MeloDiscoverPrivate) (index : Nat) (n s hw : String) (f f1 : ifaddr_fields)
    (attrs attrs1 : List (Nat × List Nat))
    (hreg : priv.registered = true) (hser : priv.serial = some s)
    (hhw : hw_of n priv.ifaces = some hw) (hidx : index < 2 ^ 32) (hnm : nm index = some n)
    (hok : rtattrs_ok attrs)
    (hsz : (ifaddr_message RTM_NEWADDR index f attrs).length ≤ MELO_DISCOVER_BUFFER_SIZE)
    (hsz1 : (ifaddr_message RTM_DELADDR index f1 attrs1).length ≤ MELO_DISCOVER_BUFFER_SIZE) :
    (∀ (name : String) (pre post : List Nat),
      (nl_handle priv (nl_decode nm name
          (pre ++ (ifaddr_message RTM_NEWADDR index f attrs ++ post)) pre.length)).2 =
        (local_addresses attrs).map
          (fun a => Call.queue_message (Action.add_address s (some hw) (some a)) false)) ∧
    (∀ (name : String) (pre post : List Nat),
      (nl_handle priv (nl_decode nm name
          (pre ++ (ifaddr_message RTM_DELADDR index f1 attrs1 ++ post)) pre.length)).2 =
        [Call.queue_message (Action.remove_address s (some hw)) false]) ∧
    (melo_netlink_event nm name0 (ifaddr_message RTM_NEWADDR index f attrs)
        ((ifaddr_message RTM_NEWADDR index f attrs).length : Nat) priv).2.2 =
      (local_addresses attrs).map
        (fun a => Call.queue_message (Action.add_address s (some hw) (some a)) false) ∧
    (∀ payload : List Nat, attrs.filter (fun a => a.1 = IFA_LOCAL) = [(IFA_LOCAL, payload)] →
      (melo_netlink_event nm name0 (ifaddr_message RTM_NEWADDR index f attrs)
          ((ifaddr_message RTM_NEWADDR index f attrs).length : Nat) priv).2.2 =
        [Call.queue_message
          (Action.add_address s (some hw) (some (dotted_quad payload))) false]) ∧
    (melo_netlink_event nm name1 (ifaddr_message RTM_DELADDR index f1 attrs1)
        ((ifaddr_message RTM_DELADDR index f1 attrs1).length : Nat)
        (melo_netlink_event nm name0 (ifaddr_message RTM_NEWADDR index f attrs)
          ((ifaddr_message RTM_NEWADDR index f attrs).length : Nat) priv).2.1).2.2 =
      [Call.queue_message (Action.remove_address s (some hw)) false] ∧
    (melo_netlink_event nm name0
        (ifaddr_message RTM_NEWADDR index f attrs ++ ifaddr_message RTM_DELADDR index f1 attrs1)
        ((ifaddr_message RTM_NEWADDR index f attrs ++
          ifaddr_message RTM_DELADDR index f1 attrs1).length : Nat) priv).2.2 =
      (local_addresses attrs).map
          (fun a => Call.queue_message (Action.add_address s (some hw) (some a)) false) ++
        [Call.queue_message (Action.remove_address s (some hw)) false] := by
  have hA := netlink_event_newaddr nm name0 priv index f attrs hidx hok hsz
  rw [name_after_lookup_some nm name0 index n hnm] at hA
  have hcalls := nl_handle_newaddr_calls priv n s hw (local_addresses attrs) hreg hser hhw
  have hreg2 : (nl_handle priv (NlEvent.newaddr n (local_addresses attrs))).1.registered = true := by
    rw [nl_handle_registered]; exact hreg
  have hser2 : (nl_handle priv (NlEvent.newaddr n (local_addresses attrs))).1.serial = some s := by
    rw [nl_handle_serial]; exact hser
  have hhw2 : hw_of n (nl_handle priv (NlEvent.newaddr n (local_addresses attrs))).1.ifaces =
      some hw := by
    rw [hw_of_handle_newaddr]; exact hhw
  have hdel := nl_handle_deladdr_calls _ n s hw hreg2 hser2 hhw2
  refine ⟨?_, ?_, ?_, ?_, ?_, ?_⟩
  · intro name pre post
    rw [nl_decode_newaddr nm name pre post index f attrs hidx hok hsz,
      name_after_lookup_some nm name index n hnm]
    exact hcalls
  · intro name pre post
    rw [nl_decode_deladdr nm name pre post index f1 attrs1 hidx hsz1,
      name_after_lookup_some nm name index n hnm]
    exact nl_handle_deladdr_calls priv n s hw hreg hser hhw
  · rw [hA]; exact hcalls
  · intro payload hp
    have hl : local_addresses attrs = [dotted_quad payload] := by
      simp only [local_addresses, hp, List.map_cons, List.map_nil]
    rw [hA]
    simp only []
    rw [hcalls, hl]
    rfl
  · rw [hA]
    simp only []
    rw [netlink_event_deladdr nm name1 _ index f1 attrs1 hidx hsz1,
      name_after_lookup_some nm name1 index n hnm]
    exact hdel
  · rw [netlink_event_newaddr_deladdr nm name0 priv index index f f1 attrs attrs1 hidx hidx hok
      hsz hsz1, name_after_lookup_some nm name0 index n hnm, name_after_lookup_some nm n index n hnm]
    simp only [nl_run, List.foldl_cons, List.foldl_nil, List.nil_append, hcalls, hdel]

/-- Witness for C2 (amended): in a registered state with a serial, the kernel announces the
address 192.168.1.10 of `eth0` with the attributes `IFA_ADDRESS`, `IFA_LOCAL` and
`IFA_LABEL`, and then its removal: one `add_address` with 192.168.1.10, then one
`remove_address`. -/
theorem address_event_mirrored_witness :
    state_registered_eth0.registered = true ∧
    state_registered_eth0.serial = some "aa:bb:cc:dd:ee:ff" ∧
    hw_of "eth0" state_registered_eth0.ifaces = some "aa:bb:cc:dd:ee:ff" ∧
    ifname_eth0 2 = some "eth0" ∧ rtattrs_ok attrs_eth0 ∧
    (ifaddr_message RTM_NEWADDR 2 fields_inet attrs_eth0).length = 52 ∧
    (melo_netlink_event ifname_eth0 "" (ifaddr_message RTM_NEWADDR 2 fields_inet attrs_eth0)
        ((ifaddr_message RTM_NEWADDR 2 fields_inet attrs_eth0).length : Nat)
        state_registered_eth0).2.2 =
      [Call.queue_message
        (Action.add_address "aa:bb:cc:dd:ee:ff" (some "aa:bb:cc:dd:ee:ff") (some "192.168.1.10"))
        false] ∧
    (melo_netlink_event ifname_eth0 "lo" (ifaddr_message RTM_DELADDR 2 fields_inet attrs_eth0)
        ((ifaddr_message RTM_DELADDR 2 fields_inet attrs_eth0).length : Nat)
        (melo_netlink_event ifname_eth0 "" (ifaddr_message RTM_NEWADDR 2 fields_inet attrs_eth0)
          ((ifaddr_message RTM_NEWADDR 2 fields_inet attrs_eth0).length : Nat)
          state_registered_eth0).2.1).2.2 =
      [Call.queue_message (Action.remove_address "aa:bb:cc:dd:ee:ff" (some "aa:bb:cc:dd:ee:ff"))
        false] :=
  ⟨rfl, rfl, by decide, rfl, by decide, by decide,
    (address_event_mirrored ifname_eth0 "" "lo" state_registered_eth0 2 "eth0"
      "aa:bb:cc:dd:ee:ff" "aa:bb:cc:dd:ee:ff" fields_inet fields_inet attrs_eth0 attrs_eth0 rfl
      rfl (by decide) (by decide) rfl (by decide) (by decide) (by decide)).2.2.2.1
      [192, 168, 1, 10] (by decide),
    (address_event_mirrored ifname_eth0 "" "lo" state_registered_eth0 2 "eth0"
      "aa:bb:cc:dd:ee:ff" "aa:bb:cc:dd:ee:ff" fields_inet fields_inet attrs_eth0 attrs_eth0 rfl
      rfl (by decide) (by decide) rfl (by decide) (by decide) (by decide)).2.2.2.2.1⟩

/-- C4, counterexample: after a registration over an enumeration with only the loopback
interface and the completion callback, no serial is known and the device counts as
registered; `melo_discover_unregister_device` then fails and `registered` is still true. -/
theorem unregister_keeps_registered_counterexample :
    (melo_discover_register_device env_lo melo_discover_init "player" 8080).map
      (fun r => melo_device_register_callback r.2.1) =
      some { registered := true, serial := none, ifaces := [] } ∧
    (melo_discover_unregister_device { registered := true, serial := none, ifaces := [] }).1 =
      false ∧
    (melo_discover_unregister_device
      { registered := true, serial := none, ifaces := [] }).2.1.registered = true := by
  decide

/-- C4, amended: in every state where no serial is known, `melo_discover_unregister_device`
returns `FALSE`, leaves the whole state as it was and makes no request; and in every state
reached from the initial one by netlink messages alone no serial is known and `registered`
is false, before the call and after it. -/
theorem unregister_without_serial (priv : MeloDiscoverPrivate) (h : priv.serial = none) :
    melo_discover_unregister_device priv = (false, priv, []) ∧
    ∀ evs : List NlEvent,
      melo_discover_unregister_device (nl_fold melo_discover_init evs) =
        (false, nl_fold melo_discover_init evs, []) ∧
      (nl_fold melo_discover_init evs).registered = false := by
  constructor
  · simp [melo_discover_unregister_device, h]
  · intro evs
    have hs : (nl_fold melo_discover_init evs).serial = none := by rw [nl_fold_serial]; rfl
    constructor
    · simp [melo_discover_unregister_device, hs]
    · rw [nl_fold_registered]; rfl

/-- Witness for C4 (amended): the initial state has no serial, and unregistering fails there
without a change and without a request. -/
theorem unregister_without_serial_witness :
    melo_discover_init.serial = none ∧
    melo_discover_unregister_device melo_discover_init = (false, melo_discover_init, []) :=
  ⟨rfl, (unregister_without_serial melo_discover_init rfl).1⟩

/-- C5, counterexample: from the initial state, a registration over `enum_eth0` whose
synchronous request ends with status 200 returns `TRUE` and `registered` is false. -/
theorem register_returns_unregistered_counterexample :
    (melo_discover_register_device (env_eth0 200) melo_discover_init "player" 8080).map
      (fun r => (r.1, r.2.1.registered)) = some (true, false) := by
  decide

/-- C5, amended: whenever `melo_discover_register_device` returns, `registered` has the value
it had before the call; when it returns `TRUE` it has queued the `add_device` request with
`melo_device_register_callback` attached, and `registered` is true once that callback has
run. -/
theorem register_leaves_registered (env : RegisterEnv) (priv : MeloDiscoverPrivate)
    (name : String) (port : Nat) (r : Bool × MeloDiscoverPrivate × List Call)
    (h : melo_discover_register_device env priv name port = some r) :
    r.2.1.registered = priv.registered ∧
    (r.1 = true →
      Call.queue_message (Action.add_device r.2.1.serial name env.g_get_host_name port) true
        ∈ r.2.2) ∧
    (melo_device_register_callback r.2.1).registered = true := by
  refine ⟨register_device_registered env priv name port r h, ?_, rfl⟩
  rcases register_device_inv env priv name port r h with ⟨_, rfl⟩ | ⟨ifap, serial, _, _, rfl⟩
  · intro hr; simp at hr
  · intro _; simp

/-- Witness for C5 (amended): the first registration over `enum_eth0` returns `TRUE`, leaves
`registered` false, has queued the request with the callback, and the callback sets
`registered`. -/
theorem register_leaves_registered_witness :
    melo_discover_register_device (env_eth0 200) melo_discover_init "player" 8080 =
      some (true, state_first_register, calls_first_register 200) ∧
    state_first_register.registered = melo_discover_init.registered ∧
    (true = true →
      Call.queue_message
        (Action.add_device state_first_register.serial "player" (env_eth0 200).g_get_host_name 8080)
        true ∈ calls_first_register 200) ∧
    (melo_device_register_callback state_first_register).registered = true :=
  ⟨by decide,
    register_leaves_registered (env_eth0 200) melo_discover_init "player" 8080
      (true, state_first_register, calls_first_register 200) (by decide)⟩

/-- C6, counterexample: from the initial state, two registrations in a row over `enum_eth0`
both return `TRUE`, and `registered` is false after the first and after the second. -/
theorem two_registrations_unregistered_counterexample :
    (melo_discover_register_device (env_eth0 200) melo_discover_init "player" 8080).map
      (fun r => (r.1, r.2.1.registered)) = some (true, false) ∧
    ((melo_discover_register_device (env_eth0 200) melo_discover_init "player" 8080).bind
      (fun r => melo_discover_register_device (env_eth0 200) r.2.1 "player" 8080)).map
      (fun r => (r.1, r.2.1.registered)) = some (true, false) := by
  decide

/-- C6, amended: when `melo_discover_register_device` has returned, a second call with the same
arguments over the same answers of the environment returns the same value, leaves the state
exactly as the first call left it (`registered` as it was before the first call, the same
serial, the same interface list) and makes the same requests; and if the completion callback
has run in between, `registered` is true before the second call and true after it, with the
same serial and interface list. -/
theorem register_twice (env : RegisterEnv) (priv : MeloDiscoverPrivate) (name : String)
    (port : Nat) (r : Bool × MeloDiscoverPrivate × List Call)
    (h : melo_discover_register_device env priv name port = some r) :
    r.2.1.registered = priv.registered ∧
    melo_discover_register_device env r.2.1 name port = some r ∧
    melo_discover_register_device env (melo_device_register_callback r.2.1) name port =
      some (r.1, melo_device_register_callback r.2.1, r.2.2) := by
  refine ⟨register_device_registered env priv name port r h, ?_, ?_⟩
  · rcases register_device_inv env priv name port r h with ⟨h1, rfl⟩ | ⟨ifap, serial, h1, h2, rfl⟩
    · exact h
    · rw [register_device_some env _ name port ifap serial h1
        (register_serial_again priv ifap serial _ _ h2)]
      simp only [register_list_idem]
  · rcases register_device_inv env priv name port r h with ⟨h1, rfl⟩ | ⟨ifap, serial, h1, h2, rfl⟩
    · simp [melo_discover_register_device, h1]
    · simp only [melo_device_register_callback]
      rw [register_device_some env _ name port ifap serial h1
        (register_serial_again priv ifap serial _ _ h2)]
      simp only [register_list_idem]
      rfl

/-- Witness for C6 (amended): a second registration over `enum_eth0` right after the first, and
one after the callback has run. -/
theorem register_twice_witness :
    melo_discover_register_device (env_eth0 200) melo_discover_init "player" 8080 =
      some (true, state_first_register, calls_first_register 200) ∧
    state_first_register.registered = melo_discover_init.registered ∧
    melo_discover_register_device (env_eth0 200) state_first_register "player" 8080 =
      some (true, state_first_register, calls_first_register 200) ∧
    melo_discover_register_device (env_eth0 200)
        (melo_device_register_callback state_first_register) "player" 8080 =
      some (true, melo_device_register_callback state_first_register, calls_first_register 200) :=
  ⟨by decide,
    register_twice (env_eth0 200) melo_discover_init "player" 8080
      (true, state_first_register, calls_first_register 200) (by decide)⟩

/-- C7, failing input: from the initial state, a registration over an enumeration with only
the loopback interface returns `TRUE` and submits the `add_device` request twice with a
`NULL` serial. -/
theorem register_without_hardware_address :
    melo_discover_register_device env_lo melo_discover_init "player" 8080 =
      some (true, melo_discover_init,
        [Call.send_message (Action.add_device none "player" "melo" 8080) 200,
         Call.queue_message (Action.add_device none "player" "melo" 8080) true]) := by
  decide

/-- C8, counterexample: a registration whose synchronous request ends with the transport
status 4 (cannot connect) returns `TRUE`. -/
theorem register_send_failure_counterexample :
    (melo_discover_register_device (env_eth0 4) melo_discover_init "player" 8080).map
      (fun r => r.1) = some true := by
  decide

/-- C8, amended: `melo_discover_register_device` returns a value unless its serial lookup
reads a `NULL` address; the return value and the new state do not depend on the status of the
synchronous `add_device` request; whenever the function returns, it returns `TRUE` exactly
when `getifaddrs` succeeded, and `registered` has the value it had before the call. -/
theorem register_ignores_send_status (env : RegisterEnv) (priv : MeloDiscoverPrivate)
    (name : String) (port : Nat) :
    ((melo_discover_register_device env priv name port).isSome = true ↔
      ∀ ifap, env.getifaddrs = some ifap → (register_serial priv ifap).isSome = true) ∧
    (∀ status : Nat,
      (melo_discover_register_device { env with send_status := status } priv name port).map
          (fun r => (r.1, r.2.1)) =
        (melo_discover_register_device env priv name port).map (fun r => (r.1, r.2.1))) ∧
    (∀ r, melo_discover_register_device env priv name port = some r →
      (r.1 = true ↔ env.getifaddrs.isSome = true) ∧ r.2.1.registered = priv.registered) := by
  refine ⟨?_, ?_, ?_⟩
  · cases h1 : env.getifaddrs with
    | none => simp [melo_discover_register_device, h1]
    | some ifap =>
      cases h2 : register_serial priv ifap with
      | none => simp [melo_discover_register_device, h1, h2]
      | some serial => simp [melo_discover_register_device, h1, h2]
  · intro status
    cases h1 : env.getifaddrs with
    | none => simp [melo_discover_register_device, h1]
    | some ifap =>
      cases h2 : register_serial priv ifap with
      | none => simp [melo_discover_register_device, h1, h2]
      | some serial => simp [melo_discover_register_device, h1, h2]
  · intro r h
    refine ⟨?_, register_device_registered env priv name port r h⟩
    rcases register_device_inv env priv name port r h with ⟨h1, rfl⟩ | ⟨ifap, serial, h1, _, rfl⟩
    · simp [h1]
    · simp [h1]

/-- Witness for C8 (amended): the first registration over `enum_eth0` with a synchronous request
that could not connect returns `TRUE` and leaves `registered` as it was. -/
theorem register_ignores_send_status_witness :
    melo_discover_register_device (env_eth0 4) melo_discover_init "player" 8080 =
      some (true, state_first_register, calls_first_register 4) ∧
    (true = true ↔ (env_eth0 4).getifaddrs.isSome = true) ∧
    state_first_register.registered = melo_discover_init.registered :=
  ⟨by decide,
    (register_ignores_send_status (env_eth0 4) melo_discover_init "player" 8080).2.2
      (true, state_first_register, calls_first_register 4) (by decide)⟩

/-- C9, counterexample: the first registration over `enum_eth0` starts with `registered`
false, ends with `registered` false, and its sweep has made a `remove_address` request. -/
theorem sweep_while_unregistered_counterexample :
    melo_discover_init.registered = false ∧
    (melo_discover_register_device (env_eth0 200) melo_discover_init "player" 8080).map
      (fun r => (r.2.1.registered, address_calls r.2.2)) =
      some (false,
        [Call.queue_message (Action.remove_address "aa:bb:cc:dd:ee:ff" (some "aa:bb:cc:dd:ee:ff"))
          false]) := by
  decide

/-- C9, amended: handling a receive buffer never changes `registered` and makes a request only
if `registered` is true and a serial is known; `melo_discover_unregister_device` makes no
address request; `melo_discover_register_device` never changes `registered`, makes address
requests only if a serial is known after its serial lookup, and makes the same requests
whatever the value of `registered`. -/
theorem address_calls_gating (priv : MeloDiscoverPrivate) :
    (∀ (nm : Nat → Option String) (name0 : String) (buf : List Nat) (len : Int),
      (melo_netlink_event nm name0 buf len priv).2.1.registered = priv.registered ∧
      ((melo_netlink_event nm name0 buf len priv).2.2 ≠ [] →
        priv.registered = true ∧ priv.serial.isSome = true)) ∧
    address_calls (melo_discover_unregister_device priv).2.2 = [] ∧
    (∀ (env : RegisterEnv) (name : String) (port : Nat) (r : Bool × MeloDiscoverPrivate × List Call),
      melo_discover_register_device env priv name port = some r →
        r.2.1.registered = priv.registered ∧
        (address_calls r.2.2 ≠ [] → r.2.1.serial.isSome = true)) ∧
    (∀ (env : RegisterEnv) (name : String) (port : Nat) (b : Bool),
      (melo_discover_register_device env { priv with registered := b } name port).map
          (fun r => r.2.2) =
        (melo_discover_register_device env priv name port).map (fun r => r.2.2)) := by
  refine ⟨?_, ?_, ?_, ?_⟩
  · intro nm name0 buf len
    unfold melo_netlink_event
    by_cases hl : len ≤ 0
    · simp [hl]
    · simp only [hl, if_false]
      refine ⟨nl_loop_registered nm buf _ _ _ name0 priv [], fun hne => ⟨?_, ?_⟩⟩
      · cases hr : priv.registered with
        | true => rfl
        | false => exact absurd (nl_loop_unregistered nm buf _ _ _ name0 priv [] hr) hne
      · cases hs : priv.serial with
        | some s => rfl
        | none => exact absurd (nl_loop_no_serial nm buf _ _ _ name0 priv [] hs) hne
  · unfold melo_discover_unregister_device
    cases priv.serial <;> rfl
  · intro env name port r h
    refine ⟨register_device_registered env priv name port r h, ?_⟩
    rcases register_device_inv env priv name port r h with ⟨_, rfl⟩ | ⟨ifap, serial, _, _, rfl⟩
    · intro hne; exact absurd rfl hne
    · intro hne
      cases serial with
      | some s => rfl
      | none =>
        exfalso
        apply hne
        simp only [address_calls, List.filter_cons]
        rw [sweep_no_serial _ rfl]
        rfl
  · intro env name port b
    cases h1 : env.getifaddrs with
    | none => simp [melo_discover_register_device, h1]
    | some ifap =>
      have hrs : register_serial { priv with registered := b } ifap = register_serial priv ifap := rfl
      cases h2 : register_serial priv ifap with
      | none => simp [melo_discover_register_device, h1, h2, hrs]
      | some serial =>
        rw [register_device_some env priv name port ifap serial h1 h2,
          register_device_some env _ name port ifap serial h1 (hrs.trans h2)]
        rfl

/-- Witness for C9 (amended): the first registration over `enum_eth0` makes an address request
and a serial is known after it, while `registered` stays false. -/
theorem address_calls_gating_witness :
    melo_discover_register_device (env_eth0 200) melo_discover_init "player" 8080 =
      some (true, state_first_register, calls_first_register 200) ∧
    address_calls (calls_first_register 200) ≠ [] ∧
    state_first_register.registered = melo_discover_init.registered ∧
    state_first_register.serial.isSome = true :=
  ⟨by decide, by decide,
    ((address_calls_gating melo_discover_init).2.2.1 (env_eth0 200) "player" 8080
      (true, state_first_register, calls_first_register 200) (by decide)).1,
    ((address_calls_gating melo_discover_init).2.2.1 (env_eth0 200) "player" 8080
      (true, state_first_register, calls_first_register 200) (by decide)).2 (by decide)⟩

/-- C10, counterexample: in a state reached from the initial one by an `RTM_NEWLINK` for
`eth0`, a registration over an enumeration with only the loopback interface returns `TRUE`,
leaves `eth0` in the list with a hardware address and no IP address, and makes no
`remove_address` request for it. -/
theorem sweep_without_serial_counterexample :
    nl_fold melo_discover_init [NlEvent.newlink "eth0" ["aa:bb:cc:dd:ee:ff"]] = state_link_only ∧
    (melo_discover_register_device env_lo state_link_only "player" 8080).map
      (fun r => (r.1, r.2.1.ifaces, address_calls r.2.2)) =
      some (true, [{ name := "eth0", hw_address := some "aa:bb:cc:dd:ee:ff", address := none }],
        []) := by
  decide

/-- C10, amended: when `melo_discover_register_device` returns `TRUE` and a serial `s` is known
after it, the requests it made are the two `add_device` submissions followed, for the
interfaces of the reconciled list in list order, by one `add_address` for each interface that
has a hardware and an IP address, one `remove_address` for each interface that has a hardware
address and no IP address, and nothing for an interface without hardware address; these are
all its address requests. -/
theorem register_device_sweep_calls (env : RegisterEnv) (priv : MeloDiscoverPrivate)
    (name : String) (port : Nat) (r : Bool × MeloDiscoverPrivate × List Call) (s : String)
    (h : melo_discover_register_device env priv name port = some r) (hr : r.1 = true)
    (hs : r.2.1.serial = some s) :
    r.2.2 =
      Call.send_message (Action.add_device (some s) name env.g_get_host_name port)
          env.send_status ::
        Call.queue_message (Action.add_device (some s) name env.g_get_host_name port) true ::
        r.2.1.ifaces.filterMap (sweep_call s) ∧
    address_calls r.2.2 = r.2.1.ifaces.filterMap (sweep_call s) := by
  rcases register_device_inv env priv name port r h with ⟨_, rfl⟩ | ⟨ifap, serial, _, _, rfl⟩
  · simp at hr
  · simp only at hs
    subst hs
    simp only
    rw [sweep_eq_filterMap _ s rfl]
    refine ⟨rfl, ?_⟩
    simp only [address_calls, List.filter_cons]
    exact address_calls_sweep s _

/-- Witness for C10 (amended): the first registration over `enum_eth0` makes one
`remove_address` request for `eth0`, which has a hardware address and no IP address. -/
theorem register_device_sweep_calls_witness :
    melo_discover_register_device (env_eth0 200) melo_discover_init "player" 8080 =
      some (true, state_first_register, calls_first_register 200) ∧
    state_first_register.serial = some "aa:bb:cc:dd:ee:ff" ∧
    address_calls (calls_first_register 200) =
      state_first_register.ifaces.filterMap (sweep_call "aa:bb:cc:dd:ee:ff") ∧
    state_first_register.ifaces.filterMap (sweep_call "aa:bb:cc:dd:ee:ff") =
      [Call.queue_message (Action.remove_address "aa:bb:cc:dd:ee:ff" (some "aa:bb:cc:dd:ee:ff"))
        false] :=
  ⟨by decide, rfl,
    (register_device_sweep_calls (env_eth0 200) melo_discover_init "player" 8080
      (true, state_first_register, calls_first_register 200) "aa:bb:cc:dd:ee:ff" (by decide)
      rfl rfl).2,
    by decide⟩

/-- C13: in every state where a serial is known, `melo_discover_unregister_device` returns
`TRUE`, makes exactly one request, the queued `remove_device` with the serial, and leaves a
state in which `registered` is false and the serial and the interface list are as before; a
second call in that state returns `TRUE` and leaves the same state. -/
theorem unregister_with_serial (priv : MeloDiscoverPrivate) (s : String)
    (h : priv.serial = some s) :
    melo_discover_unregister_device priv =
      (true, { registered := false, serial := some s, ifaces := priv.ifaces },
        [Call.queue_message (Action.remove_device s) false]) ∧
    melo_discover_unregister_device (melo_discover_unregister_device priv).2.1 =
      (true, (melo_discover_unregister_device priv).2.1,
        [Call.queue_message (Action.remove_device s) false]) := by
  have h1 : melo_discover_unregister_device priv =
      (true, { registered := false, serial := some s, ifaces := priv.ifaces },
        [Call.queue_message (Action.remove_device s) false]) := by
    simp [melo_discover_unregister_device, h]
  refine ⟨h1, ?_⟩
  rw [h1]
  simp [melo_discover_unregister_device]

/-- Witness for C13: unregistering in a registered state with the serial aa:bb:cc:dd:ee:ff. -/
theorem unregister_with_serial_witness :
    state_registered_eth0.serial = some "aa:bb:cc:dd:ee:ff" ∧
    melo_discover_unregister_device state_registered_eth0 =
      (true, { registered := false, serial := some "aa:bb:cc:dd:ee:ff",
               ifaces := state_registered_eth0.ifaces },
        [Call.queue_message (Action.remove_device "aa:bb:cc:dd:ee:ff") false]) :=
  ⟨rfl, (unregister_with_serial state_registered_eth0 "aa:bb:cc:dd:ee:ff" rfl).1⟩

/-- C14: in every state where the serial is `s`, every operation (a registration over any
answers of the environment, an unregistration, the handling of any receive buffer, the
completion callback) returns and leaves the serial `s`; so does every sequence of
operations. -/
theorem serial_immutable (priv : MeloDiscoverPrivate) (s : String) (h : priv.serial = some s) :
    (∀ op : Op, ∃ p calls, op.step priv = some (p, calls) ∧ p.serial = some s) ∧
    (∀ ops : List Op, ∃ p calls, run priv ops = some (p, calls) ∧ p.serial = some s) :=
  ⟨step_keeps_serial priv s h, run_keeps_serial priv s h⟩

/-- Witness for C14: a registration over another enumeration, an unregistration, a receive
buffer and the callback leave the serial of a registered state as it is. -/
theorem serial_immutable_witness :
    state_registered_eth0.serial = some "aa:bb:cc:dd:ee:ff" ∧
    ∃ p calls,
      run state_registered_eth0
        [Op.register_device env_lo "player" 8080, Op.unregister_device,
         Op.netlink_event ifname_eth0 "" msg_newaddr_eth0 32, Op.register_callback] =
        some (p, calls) ∧ p.serial = some "aa:bb:cc:dd:ee:ff" :=
  ⟨rfl, (serial_immutable state_registered_eth0 "aa:bb:cc:dd:ee:ff" rfl).2 _⟩

/-- C11, counterexample: in the scenario, the registration submits the `add_device` request
twice, and an `RTM_NEWADDR` for `eth0` handled right after the registration has returned makes
no request, because `registered` is still false. -/
theorem scenario_counterexample :
    (melo_discover_register_device (env_eth0 200) melo_discover_init "player" 8080).map
      (fun r => ((r.2.2.filter (fun c => c.req.is_add_device)).length, r.2.1.registered)) =
      some (2, false) ∧
    (melo_discover_register_device (env_eth0 200) melo_discover_init "player" 8080).map
      (fun r => (melo_netlink_event ifname_eth0 "" msg_newaddr_eth0 32 r.2.1).2.2) = some [] := by
  decide

/-- C11, amended: from the initial state, with the enumeration of `lo` (loopback) and `eth0`
(hardware address aa:bb:cc:dd:ee:ff, no IP address), the registration as `player` on port 8080
returns `TRUE`, sets the serial to aa:bb:cc:dd:ee:ff, leaves `registered` false, and makes
exactly these requests: the `add_device` request (that serial, name `player`, port 8080)
sent synchronously, the same request queued with the completion callback, and one
`remove_address` for `eth0`; no `add_address`.  Once the callback has run, a receive buffer
with one `RTM_NEWADDR` that sets the address of `eth0` to 192.168.1.10 makes exactly one
request, the `add_address` with 192.168.1.10; handled before the callback it makes none. -/
theorem scenario_register_then_newaddr :
    melo_discover_register_device (env_eth0 200) melo_discover_init "player" 8080 =
      some (true, state_first_register, calls_first_register 200) ∧
    state_first_register.serial = some "aa:bb:cc:dd:ee:ff" ∧
    state_first_register.registered = false ∧
    calls_first_register 200 =
      [Call.send_message (Action.add_device (some "aa:bb:cc:dd:ee:ff") "player" "melo" 8080) 200,
       Call.queue_message (Action.add_device (some "aa:bb:cc:dd:ee:ff") "player" "melo" 8080) true,
       Call.queue_message (Action.remove_address "aa:bb:cc:dd:ee:ff" (some "aa:bb:cc:dd:ee:ff"))
         false] ∧
    (∀ name0 : String,
      melo_netlink_event ifname_eth0 name0 msg_newaddr_eth0 32
          (melo_device_register_callback state_first_register) =
        (true, state_eth0_with_address,
          [Call.queue_message
            (Action.add_address "aa:bb:cc:dd:ee:ff" (some "aa:bb:cc:dd:ee:ff")
              (some "192.168.1.10")) false])) ∧
    (∀ name0 : String,
      (melo_netlink_event ifname_eth0 name0 msg_newaddr_eth0 32 state_first_register).2.2 =
        []) := by
  have hm : ∀ m ∈ [msg_newaddr_eth0], nl_frame m = true ∧ nl_is_stop m 0 = false := by decide
  have hev : ∀ (name0 : String) (priv : MeloDiscoverPrivate),
      melo_netlink_event ifname_eth0 name0 msg_newaddr_eth0 32 priv =
        (true, nl_handle priv (NlEvent.newaddr "eth0" ["192.168.1.10"])) := by
    intro name0 priv
    obtain ⟨_, h3⟩ := netlink_event_frames ifname_eth0 name0 priv [msg_newaddr_eth0] [] hm
      (by decide)
    have hd := nl_decode_msg_newaddr_eth0 name0 []
    simp only [List.append_nil] at hd
    simp only [List.flatten_cons, List.flatten_nil, List.append_nil, frame_offsets,
      nl_decode_all, hd, nl_run, List.foldl_cons, List.foldl_nil, List.nil_append] at h3
    exact Prod.ext rfl h3
  refine ⟨by decide, rfl, rfl, rfl, ?_, ?_⟩
  · intro name0
    rw [hev]
    decide
  · intro name0
    rw [hev]
    decide

/-- C19: for every content of the receive buffer and every received length from 1 to 4096, the
message loop of `melo_netlink_event` reaches its end: there is one list of message offsets
that the walk yields for every amount of fuel of at least `len / 16`; it has at most
`len / 16` entries; every message in it declares a length of at least 16 that ends within the
received length; each offset is the previous one plus the declared length rounded up by
`NLMSG_ALIGN`; and the handler returns `TRUE` with the state and the requests of handling the
messages at these offsets. -/
theorem netlink_walk_terminates (buf : List Nat) (len : Int) (h1 : 1 ≤ len) (h2 : len ≤ 4096) :
    ∃ offs : List Nat,
      (∀ fuel, len.toNat / 16 ≤ fuel → nl_steps buf fuel 0 len = some offs) ∧
      offs.length ≤ len.toNat / 16 ∧
      (∀ o ∈ offs, 16 ≤ rd32 buf o ∧ (o : Int) + rd32 buf o ≤ len) ∧
      offs.Chain' (fun a b => b = a + NLMSG_ALIGN (rd32 buf a)) ∧
      ∀ (nm : Nat → Option String) (name0 : String) (priv : MeloDiscoverPrivate),
        melo_netlink_event nm name0 buf len priv =
          (true, nl_run priv [] (nl_events nm name0 buf offs)) := by
  obtain ⟨offs, h0, hl⟩ := nl_steps_terminates buf (len.toNat / 16) 0 len h2 (Nat.le_refl _)
  refine ⟨offs, ?_, hl, ?_, (nl_steps_chain buf _ 0 len offs h0).1, ?_⟩
  · intro fuel hf
    obtain ⟨offs2, h3, _⟩ := nl_steps_terminates buf fuel 0 len h2 hf
    rw [h3, nl_steps_det buf _ _ 0 len offs2 offs h3 h0]
  · intro o ho
    have := nl_steps_accept buf _ 0 len offs h0 o ho
    omega
  · intro nm name0 priv
    obtain ⟨offs2, h3, _⟩ := nl_steps_terminates buf len.toNat 0 len h2 (Nat.div_le_self _ _)
    have he := nl_steps_det buf _ _ 0 len offs2 offs h3 h0
    subst he
    unfold melo_netlink_event
    have hl0 : ¬ len ≤ 0 := by omega
    simp only [hl0, if_false]
    rw [nl_loop_eq_run nm buf _ 0 len name0 priv [] offs2 h3]

/-- Witness for C19: a receive buffer of 35 bytes, one `RTM_NEWADDR` message and three more
bytes, in which the walk finds the one message at offset 0. -/
theorem netlink_walk_terminates_witness :
    (1 : Int) ≤ 35 ∧ (35 : Int) ≤ 4096 ∧
    nl_steps (msg_newaddr_eth0 ++ [1, 2, 3]) ((35 : Int).toNat / 16) 0 35 = some [0] ∧
    ∃ offs : List Nat,
      (∀ fuel, (35 : Int).toNat / 16 ≤ fuel →
        nl_steps (msg_newaddr_eth0 ++ [1, 2, 3]) fuel 0 35 = some offs) ∧
      offs.length ≤ (35 : Int).toNat / 16 ∧
      (∀ o ∈ offs, 16 ≤ rd32 (msg_newaddr_eth0 ++ [1, 2, 3]) o ∧
        (o : Int) + rd32 (msg_newaddr_eth0 ++ [1, 2, 3]) o ≤ 35) ∧
      offs.Chain' (fun a b => b = a + NLMSG_ALIGN (rd32 (msg_newaddr_eth0 ++ [1, 2, 3]) a)) ∧
      ∀ (nm : Nat → Option String) (name0 : String) (priv : MeloDiscoverPrivate),
        melo_netlink_event nm name0 (msg_newaddr_eth0 ++ [1, 2, 3]) 35 priv =
          (true, nl_run priv [] (nl_events nm name0 (msg_newaddr_eth0 ++ [1, 2, 3]) offs)) :=
  ⟨by decide, by decide, by decide,
    netlink_walk_terminates (msg_newaddr_eth0 ++ [1, 2, 3]) 35 (by decide) (by decide)⟩

/-- C12: for every receive buffer made of well-formed message frames laid back to back, none of
type `NLMSG_DONE` or `NLMSG_ERROR`, followed by fewer than 16 more bytes of any content, the
walk of the message loop yields exactly the offsets at which the frames start, in buffer
order, one per frame; the handler ends with the state and the requests of handling the
messages decoded at these offsets, in order, and nothing else; it returns `TRUE` unless
nothing at all was received.  In particular the well-formed `RTM_NEWADDR` message
`msg_newaddr_eth0` followed by fewer than 16 bytes of any content (three, say) is handled as
exactly one `RTM_NEWADDR` for `eth0` with the address 192.168.1.10. -/
theorem netlink_walk_frames (nm : Nat → Option String) (name0 : String)
    (priv : MeloDiscoverPrivate) (frames : List (List Nat)) (trailing : List Nat)
    (hfr : ∀ m ∈ frames, nl_frame m = true ∧ nl_is_stop m 0 = false)
    (htr : trailing.length < 16) :
    (∀ fuel, frames.length ≤ fuel →
      nl_steps (frames.flatten ++ trailing) fuel 0 ((frames.flatten ++ trailing).length : Nat) =
        some (frame_offsets 0 frames)) ∧
    (frame_offsets 0 frames).length = frames.length ∧
    (melo_netlink_event nm name0 (frames.flatten ++ trailing)
        ((frames.flatten ++ trailing).length : Nat) priv).2 =
      nl_run priv []
        (nl_decode_all nm (frames.flatten ++ trailing) name0 (frame_offsets 0 frames)) ∧
    ((melo_netlink_event nm name0 (frames.flatten ++ trailing)
        ((frames.flatten ++ trailing).length : Nat) priv).1 = true ↔
      frames.flatten ++ trailing ≠ []) ∧
    melo_netlink_event ifname_eth0 name0 (msg_newaddr_eth0 ++ trailing)
        ((msg_newaddr_eth0 ++ trailing).length : Nat) priv =
      (true, nl_handle priv (NlEvent.newaddr "eth0" ["192.168.1.10"])) := by
  obtain ⟨h1, h2⟩ := netlink_event_frames nm name0 priv frames trailing hfr htr
  refine ⟨h1, frame_offsets_length 0 frames, h2, ?_, ?_⟩
  · unfold melo_netlink_event
    by_cases hl : ((frames.flatten ++ trailing).length : Int) ≤ 0
    · have : frames.flatten ++ trailing = [] := by
        apply List.length_eq_zero.mp; omega
      simp [hl, this]
    · have : frames.flatten ++ trailing ≠ [] := by
        intro e; rw [e] at hl; simp at hl
      rw [if_neg hl]
      simp [this]
  · have hm : ∀ m ∈ [msg_newaddr_eth0], nl_frame m = true ∧ nl_is_stop m 0 = false := by
      intro m hm
      rw [List.mem_singleton] at hm
      subst hm
      decide
    obtain ⟨_, h3⟩ := netlink_event_frames ifname_eth0 name0 priv [msg_newaddr_eth0] trailing hm
      htr
    simp only [List.flatten_cons, List.flatten_nil, List.append_nil, frame_offsets,
      nl_decode_all, nl_decode_msg_newaddr_eth0] at h3
    have h4 : (melo_netlink_event ifname_eth0 name0 (msg_newaddr_eth0 ++ trailing)
        ((msg_newaddr_eth0 ++ trailing).length : Nat) priv).1 = true := by
      unfold melo_netlink_event
      have : ¬ ((msg_newaddr_eth0 ++ trailing).length : Int) ≤ 0 := by
        simp only [List.length_append]
        have : msg_newaddr_eth0.length = 32 := rfl
        omega
      rw [if_neg this]
    apply Prod.ext h4
    rw [h3]
    simp [nl_run]

/-- Witness for C12: the message `msg_newaddr_eth0` followed by the bytes 1, 2, 3, handled in a
registered state in which `eth0` has a hardware address: one `add_address` request. -/
theorem netlink_walk_frames_witness :
    (∀ m ∈ [msg_newaddr_eth0], nl_frame m = true ∧ nl_is_stop m 0 = false) ∧
    [1, 2, 3].length < 16 ∧
    melo_netlink_event ifname_eth0 "" (msg_newaddr_eth0 ++ [1, 2, 3])
        ((msg_newaddr_eth0 ++ [1, 2, 3]).length : Nat) state_registered_eth0 =
      (true, nl_handle state_registered_eth0 (NlEvent.newaddr "eth0" ["192.168.1.10"])) ∧
    nl_handle state_registered_eth0 (NlEvent.newaddr "eth0" ["192.168.1.10"]) =
      (state_eth0_with_address,
        [Call.queue_message
          (Action.add_address "aa:bb:cc:dd:ee:ff" (some "aa:bb:cc:dd:ee:ff")
            (some "192.168.1.10")) false]) :=
  ⟨by decide, by decide,
    (netlink_walk_frames ifname_eth0 "" state_registered_eth0 [msg_newaddr_eth0] [1, 2, 3]
      (by decide) (by decide)).2.2.2.2,
    by decide⟩

/-- C17: for every receive buffer made of well-formed message frames, none of type
`NLMSG_DONE` or `NLMSG_ERROR`, then a well-formed frame of one of these two types, then
anything (further messages, say), the walk of the message loop yields the offsets of the
frames before the marker and the offset of the marker, and nothing after it; the state and
the requests of the handler are those of handling the messages before the marker, in order;
they are the ones the handler gives on the same bytes when the received length ends right
before the marker; and they are the ones it gives on the buffer that holds only the frames
before the marker, whenever these decode in it as they do in the whole buffer. -/
theorem netlink_stop_marker (nm : Nat → Option String) (name0 : String)
    (priv : MeloDiscoverPrivate) (frames : List (List Nat)) (marker rest : List Nat)
    (hfr : ∀ m ∈ frames, nl_frame m = true ∧ nl_is_stop m 0 = false)
    (hmk : nl_frame marker = true) (hst : nl_is_stop marker 0 = true) :
    (∀ fuel, frames.length + 1 ≤ fuel →
      nl_steps (frames.flatten ++ (marker ++ rest)) fuel 0
          ((frames.flatten ++ (marker ++ rest)).length : Nat) =
        some (frame_offsets 0 frames ++ [frames.flatten.length])) ∧
    (melo_netlink_event nm name0 (frames.flatten ++ (marker ++ rest))
        ((frames.flatten ++ (marker ++ rest)).length : Nat) priv).2 =
      nl_run priv []
        (nl_decode_all nm (frames.flatten ++ (marker ++ rest)) name0 (frame_offsets 0 frames)) ∧
    (melo_netlink_event nm name0 (frames.flatten ++ (marker ++ rest))
        ((frames.flatten ++ (marker ++ rest)).length : Nat) priv).2 =
      (melo_netlink_event nm name0 (frames.flatten ++ (marker ++ rest))
        (frames.flatten.length : Nat) priv).2 ∧
    ((∀ (name : String), ∀ o ∈ frame_offsets 0 frames,
        nl_decode nm name (frames.flatten ++ (marker ++ rest)) o =
          nl_decode nm name frames.flatten o) →
      (melo_netlink_event nm name0 (frames.flatten ++ (marker ++ rest))
          ((frames.flatten ++ (marker ++ rest)).length : Nat) priv).2 =
        (melo_netlink_event nm name0 frames.flatten (frames.flatten.length : Nat) priv).2) := by
  obtain ⟨h1, h2⟩ := netlink_event_marker nm name0 priv frames marker rest hfr hmk hst
  refine ⟨h1, h2, ?_, ?_⟩
  · rw [h2, netlink_event_cut nm name0 priv frames (marker ++ rest) hfr]
  · intro hloc
    have h3 := netlink_event_cut nm name0 priv frames [] hfr
    rw [List.append_nil] at h3
    rw [h2, h3]
    congr 1
    exact nl_decode_all_congr nm _ _ name0 _ hloc

/-- Witness for C17: an `RTM_NEWADDR` for `eth0`, a `NLMSG_DONE`, then an `RTM_DELADDR` for
`eth0`, handled in a registered state: the address is stored and announced, the removal
after the marker is not acted upon. -/
theorem netlink_stop_marker_witness :
    (∀ m ∈ [msg_newaddr_eth0], nl_frame m = true ∧ nl_is_stop m 0 = false) ∧
    nl_frame msg_done = true ∧ nl_is_stop msg_done 0 = true ∧
    (melo_netlink_event ifname_eth0 ""
        ([msg_newaddr_eth0].flatten ++ (msg_done ++ msg_deladdr_eth0))
        (([msg_newaddr_eth0].flatten ++ (msg_done ++ msg_deladdr_eth0)).length : Nat)
        state_registered_eth0).2 =
      nl_run state_registered_eth0 []
        (nl_decode_all ifname_eth0 ([msg_newaddr_eth0].flatten ++ (msg_done ++ msg_deladdr_eth0))
          "" (frame_offsets 0 [msg_newaddr_eth0])) ∧
    nl_run state_registered_eth0 []
        (nl_decode_all ifname_eth0 ([msg_newaddr_eth0].flatten ++ (msg_done ++ msg_deladdr_eth0))
          "" (frame_offsets 0 [msg_newaddr_eth0])) =
      (state_eth0_with_address,
        [Call.queue_message
          (Action.add_address "aa:bb:cc:dd:ee:ff" (some "aa:bb:cc:dd:ee:ff")
            (some "192.168.1.10")) false]) :=
  ⟨by decide, by decide, by decide,
    (netlink_stop_marker ifname_eth0 "" state_registered_eth0 [msg_newaddr_eth0] msg_done
      msg_deladdr_eth0 (by decide) (by decide) (by decide)).2.1,
    by decide⟩

/-- C15: when `melo_discover_register_device` returns after a successful `getifaddrs`, the
hardware address found in the list for every name `n` is the link-layer address, in
lowercase colon-hex form, of the last node of the enumeration that is named `n`, not flagged
loopback and has a link-layer address (the one known before if there is no such node), and
the IP address found for `n` is the IPv4 address, in dotted-quad form, of the last such node
with an IPv4 address (the one known before if there is none); in particular an interface
with such a node has an item in the list with that address.  The two forms are those of
`colon_hex` and `dotted_quad`, which are written from the wording of the specification and
not from the rendering functions of the program.  A node flagged loopback leaves the list as
it is, and the list is the one the loop gives on the enumeration without its loopback
nodes. -/
theorem register_reconciles (env : RegisterEnv) (priv : MeloDiscoverPrivate) (name : String)
    (port : Nat) (ifap : List ifaddrs) (r : Bool × MeloDiscoverPrivate × List Call)
    (h1 : env.getifaddrs = some ifap)
    (h : melo_discover_register_device env priv name port = some r) :
    (∀ n, hw_of n r.2.1.ifaces =
      (ifap.filterMap (ifaddrs.hw_for n)).getLast?.or (hw_of n priv.ifaces)) ∧
    (∀ n, address_of n r.2.1.ifaces =
      (ifap.filterMap (ifaddrs.address_for n)).getLast?.or (address_of n priv.ifaces)) ∧
    (∀ n hw, (ifap.filterMap (ifaddrs.hw_for n)).getLast? = some hw →
      ∃ item, iface_lookup n r.2.1.ifaces = some item ∧ item.hw_address = some hw) ∧
    (∀ n a, (ifap.filterMap (ifaddrs.address_for n)).getLast? = some a →
      ∃ item, iface_lookup n r.2.1.ifaces = some item ∧ item.address = some a) ∧
    (∀ l i, ifaddrs.is_loopback i = true → register_list_body l i = l) ∧
    r.2.1.ifaces = (ifap.filter (fun i => !i.is_loopback)).foldl register_list_body priv.ifaces := by
  have hr : r.2.1.ifaces = ifap.foldl register_list_body priv.ifaces := by
    rcases register_device_inv env priv name port r h with ⟨h0, _⟩ | ⟨ifap2, serial, h2, _, rfl⟩
    · rw [h0] at h1; exact Option.noConfusion h1
    · rw [h2, Option.some.injEq] at h1
      subst h1
      rfl
  have hhw := fun n => hw_of_list_foldl n ifap priv.ifaces
  have had := fun n => address_of_list_foldl n ifap priv.ifaces
  rw [hr]
  refine ⟨hhw, had, ?_, ?_, list_body_loopback, list_foldl_filter_loopback ifap priv.ifaces⟩
  · intro n hw hl
    have := hhw n
    rw [hl, Option.or_some] at this
    unfold hw_of at this
    rw [Option.bind_eq_some] at this
    exact this
  · intro n a hl
    have := had n
    rw [hl, Option.or_some] at this
    unfold address_of at this
    rw [Option.bind_eq_some] at this
    exact this

/-- Witness for C15: the first registration over `enum_eth0_two_ips`, in which `eth0` has the
link-layer address aa:bb:cc:dd:ee:ff and the IPv4 addresses 192.168.1.10 and then 10.0.0.7,
leaves `eth0` in the list with that hardware address and with 10.0.0.7, and creates no item
for `lo`. -/
theorem register_reconciles_witness :
    env_eth0_two_ips.getifaddrs = some enum_eth0_two_ips ∧
    melo_discover_register_device env_eth0_two_ips melo_discover_init "player" 8080 =
      some (true, state_first_register_two_ips, calls_first_register_two_ips) ∧
    enum_eth0_two_ips.filterMap (ifaddrs.hw_for "eth0") = ["aa:bb:cc:dd:ee:ff"] ∧
    enum_eth0_two_ips.filterMap (ifaddrs.address_for "eth0") = ["192.168.1.10", "10.0.0.7"] ∧
    hw_of "eth0" state_first_register_two_ips.ifaces =
      (enum_eth0_two_ips.filterMap (ifaddrs.hw_for "eth0")).getLast?.or
        (hw_of "eth0" melo_discover_init.ifaces) ∧
    address_of "eth0" state_first_register_two_ips.ifaces =
      (enum_eth0_two_ips.filterMap (ifaddrs.address_for "eth0")).getLast?.or
        (address_of "eth0" melo_discover_init.ifaces) ∧
    address_of "eth0" state_first_register_two_ips.ifaces = some "10.0.0.7" ∧
    iface_lookup "lo" state_first_register_two_ips.ifaces = none :=
  ⟨rfl, by decide, by decide, by decide,
    (register_reconciles env_eth0_two_ips melo_discover_init "player" 8080 enum_eth0_two_ips
      (true, state_first_register_two_ips, calls_first_register_two_ips) rfl (by decide)).1
      "eth0",
    (register_reconciles env_eth0_two_ips melo_discover_init "player" 8080 enum_eth0_two_ips
      (true, state_first_register_two_ips, calls_first_register_two_ips) rfl (by decide)).2.1
      "eth0",
    by decide, by decide⟩

/-- C18: when the list has an item for a name, `melo_discover_interface_get` returns that item,
which carries the name, and leaves the list as it is; when the list has none, it returns a
new item with that name, no hardware address and no IP address, and the list is the old one
with that single item in front.  Consequently, after any sequence of registrations,
unregistrations, handled receive buffers and callbacks from the initial state, no two items
of the list have the same name. -/
theorem interface_names_unique :
    (∀ (l : List MeloDiscoverInterface) (n : String) (r : MeloDiscoverInterface),
      iface_lookup n l = some r →
        r.name = n ∧ (melo_discover_interface_get l n).2.1 = r ∧
          iface_plug (melo_discover_interface_get l n) = l) ∧
    (∀ (l : List MeloDiscoverInterface) (n : String), iface_lookup n l = none →
      (melo_discover_interface_get l n).2.1 = iface_new n ∧
        iface_plug (melo_discover_interface_get l n) = iface_new n :: l) ∧
    (∀ (ops : List Op) (p : MeloDiscoverPrivate) (calls : List Call),
      run melo_discover_init ops = some (p, calls) → (p.ifaces.map (fun i => i.name)).Nodup) :=
  ⟨interface_get_found, interface_get_absent,
    fun ops p calls h => run_nodup melo_discover_init ops p calls List.nodup_nil h⟩

/-- Witness for C18: after a registration over `enum_eth0` and a receive buffer with an
`RTM_NEWADDR` for `eth0`, the list has the one item `eth0`; looking `eth0` up again returns
it and leaves the list as it is. -/
theorem interface_names_unique_witness :
    run melo_discover_init
        [Op.register_device (env_eth0 200) "player" 8080,
         Op.netlink_event ifname_eth0 "" msg_newaddr_eth0 32] =
      some (state_first_register_ip, calls_first_register 200) ∧
    (state_first_register_ip.ifaces.map (fun i => i.name)).Nodup ∧
    iface_lookup "eth0" state_first_register.ifaces = some iface_eth0 ∧
    iface_plug (melo_discover_interface_get state_first_register.ifaces "eth0") =
      state_first_register.ifaces :=
  ⟨by decide,
    interface_names_unique.2.2
      [Op.register_device (env_eth0 200) "player" 8080,
       Op.netlink_event ifname_eth0 "" msg_newaddr_eth0 32]
      state_first_register_ip (calls_first_register 200) (by decide),
    by decide,
    (interface_names_unique.1 state_first_register.ifaces "eth0" iface_eth0 (by decide)).2.2⟩

/-- C16, failing input: in the enumeration `enum_tun0_eth0` the first node that has a
link-layer address and is not flagged loopback is `eth0`, whose rendering is
aa:bb:cc:dd:ee:ff; the registration from the initial state over this enumeration does not set
the serial to it: the process ends in `melo_discover_get_serial`, which reads the address
family of the node before `eth0`, whose `ifa_addr` is `NULL`. -/
theorem serial_not_derived_after_null_address :
    (enum_tun0_eth0.find? ifaddrs.is_hw).bind ifaddrs.hw_rendering = some "aa:bb:cc:dd:ee:ff" ∧
    melo_discover_register_device env_tun0_eth0 melo_discover_init "player" 8080 = none := by
  decide

/-- C20, failing input: on the enumeration `enum_tun0_eth0` the serial lookup reads the address
family of the first node, whose `ifa_addr` is `NULL`, and the process ends, whereas the
enumeration loop of the same function skips that node, and the lookup on the enumeration
without that node returns the rendering of `eth0`. -/
theorem serial_lookup_reads_null_address :
    melo_discover_get_serial enum_tun0_eth0 = none ∧
    register_list_body [] { ifa_name := "tun0", ifa_flags := 4305, ifa_addr := none } = [] ∧
    melo_discover_get_serial (enum_tun0_eth0.drop 1) = some (some "aa:bb:cc:dd:ee:ff") := by
  decide

end Melo
